import Mathlib

/-!
# TokenVestors bot (`app.js`): a shallow embedding

The development models the pure helpers of `app.js` (validators, link
extraction, HTML escaping, announcement rendering), the per-chat conversation
handlers, the submission table and the Coinbase webhook handler.

Conventions.
* A JavaScript string is the list of its UTF-16 code units (`JsString`), so
  `length`, `slice` and the regular expressions count what the engine counts.
* `null`/`undefined` is `none`.
* A handler that throws returns an outcome that says so; a library call whose
  result the program cannot control (HMAC, `JSON.parse`, Telegram delivery,
  charge creation, `uuidv4`) is a parameter.
* Handlers run one after the other: the `db.get` callback of a webhook
  delivery runs to its end before the next update or delivery is handled.
* The conversation handlers are modelled on the session object they are
  given (`handleBot`); `handleUpdate` adds the case in which `ctx.session` is
  `undefined`, which is what `session()` without a default gives a new chat.
-/

namespace TokenVestors

/-! ## Strings -/

/-- A JavaScript string: its UTF-16 code units. -/
abbrev JsString := List Nat

/-- UTF-16 code units of one Unicode scalar value. -/
def utf16 (c : Char) : List Nat :=
  if c.toNat < 65536 then [c.toNat]
  else [55296 + (c.toNat - 65536) / 1024, 56320 + (c.toNat - 65536) % 1024]

/-- The JavaScript string written by a source literal. -/
def js (s : String) : JsString := s.toList.flatMap utf16

/-- Truthiness of a value that is a string or `null`/`undefined`:
only a non-empty string is truthy. -/
def truthyStr : Option JsString → Bool
  | some (_ :: _) => true
  | _ => false

/-- The expression `s || ''` for a string or `null`/`undefined`. -/
def orEmpty : Option JsString → JsString
  | some s => s
  | none => []

/-- The code units matched by `\s` (and stripped by `String.prototype.trim`):
WhiteSpace and LineTerminator of ECMAScript. -/
def isJsSpace (c : Nat) : Bool :=
  c == 9 || c == 10 || c == 11 || c == 12 || c == 13 || c == 32 || c == 160 ||
  c == 5760 || (8192 ≤ c && c ≤ 8202) || c == 8232 || c == 8233 || c == 8239 ||
  c == 8287 || c == 12288 || c == 65279

/-- The method `String.prototype.trim`. -/
def jsTrim (s : JsString) : JsString :=
  ((s.dropWhile isJsSpace).reverse.dropWhile isJsSpace).reverse

/-- The method `String.prototype.slice(0, n)`. -/
def sliceTo (n : Nat) (s : JsString) : JsString := s.take n

/-! ## Validators (`isEvm`, `looksSol`, `looksTon`, `validateContract`) -/

/-- Character class `[a-fA-F0-9]`. -/
def isHexUnit (c : Nat) : Bool :=
  (97 ≤ c && c ≤ 102) || (65 ≤ c && c ≤ 70) || (48 ≤ c && c ≤ 57)

/-- Character class `[1-9A-HJ-NP-Za-km-z]`. -/
def isBase58Unit (c : Nat) : Bool :=
  (49 ≤ c && c ≤ 57) || (65 ≤ c && c ≤ 72) || (74 ≤ c && c ≤ 78) ||
  (80 ≤ c && c ≤ 90) || (97 ≤ c && c ≤ 107) || (109 ≤ c && c ≤ 122)

/-- Character class `[A-Za-z0-9_-]`. -/
def isTonUnit (c : Nat) : Bool :=
  (65 ≤ c && c ≤ 90) || (97 ≤ c && c ≤ 122) || (48 ≤ c && c ≤ 57) || c == 95 || c == 45

/-- Source `isEvm = (a)=> /^0x[a-fA-F0-9]{40}$/.test(a||'')`. -/
def isEvm (a : Option JsString) : Bool :=
  match orEmpty a with
  | 48 :: 120 :: rest => rest.length == 40 && rest.all isHexUnit
  | _ => false

/-- Source `looksSol = (a)=> /^[1-9A-HJ-NP-Za-km-z]{32,48}$/.test(a||'')`. -/
def looksSol (a : Option JsString) : Bool :=
  32 ≤ (orEmpty a).length && (orEmpty a).length ≤ 48 && (orEmpty a).all isBase58Unit

/-- Source `looksTon = (a)=> /^[A-Za-z0-9_-]{48,66}$/.test(a||'')`. -/
def looksTon (a : Option JsString) : Bool :=
  48 ≤ (orEmpty a).length && (orEmpty a).length ≤ 66 && (orEmpty a).all isTonUnit

/-- Source `validateContract(chainKey, addr)`: trims the address, then dispatches on
the chain key with strict equality. -/
def validateContract (chainKey : Option JsString) (addr : Option JsString) : Bool :=
  let addr := jsTrim (orEmpty addr)
  match chainKey with
  | none => false
  | some k =>
    if k = js "ETH" ∨ k = js "BSC" ∨ k = js "BASE" ∨ k = js "POLY" then isEvm (some addr)
    else if k = js "SOL" then looksSol (some addr)
    else if k = js "TON" then looksTon (some addr)
    else false

/-! ## Chart links (`looksChart`) -/

/-- Lower case of one code unit, exact where the result has an ASCII unit:
`A`-`Z` go to `a`-`z`, U+212A (Kelvin sign) goes to `k` and U+0130 goes to
`i` followed by U+0307; these are the only code points whose lower case
contains an ASCII unit. Every other unit is kept as it is: the engine may
replace it (and its neighbours outside ASCII) by other units, none of them
ASCII and never by nothing. -/
def lowerUnit (c : Nat) : List Nat :=
  if 65 ≤ c ∧ c ≤ 90 then [c + 32]
  else if c = 8490 then [107]
  else if c = 304 then [105, 775]
  else [c]

/-- Source `u.toLowerCase()`, up to the units outside ASCII. This is not the
whole of `String.prototype.toLowerCase`: on a string of ASCII units it is the
engine's result; on any other string it has the ASCII units of the engine's
result, in the same order and with a unit outside ASCII between two of them
exactly where the engine's result has some (see `lowerUnit`). A string of
ASCII units, such as a fragment of `looksChart`, therefore occurs in the one
exactly when it occurs in the other; nothing else is read off this function. -/
def toLowerCase (u : JsString) : JsString := u.flatMap lowerUnit

/-- Source `u.includes(x)`. -/
def includes (x : JsString) : JsString → Bool
  | [] => x.isPrefixOf []
  | c :: cs => x.isPrefixOf (c :: cs) || includes x cs

/-- The fragments tested by `looksChart`. -/
def chartFragments : List JsString :=
  [js "dexscreener.com", js "dextools.io", js "birdeye.so", js "geckoterminal", js "poocoin"]

/-- Source `looksChart(u)`: `false` on a falsy argument, otherwise whether the
lower-cased string contains one of the five fragments. -/
def looksChart (u : Option JsString) : Bool :=
  if truthyStr u then chartFragments.any (fun x => includes x (toLowerCase (orEmpty u)))
  else false

/-! ## Link extraction (`parseSocials`) -/

/-- Source `String.prototype.split(/\s+/)`: the pieces between maximal runs of
white space; a leading or trailing run leaves an empty piece, and the empty
string gives one empty piece. `inSep` says the scan is inside a run. -/
def splitWsAux : Bool → JsString → List JsString
  | _, [] => [[]]
  | inSep, c :: rest =>
    if isJsSpace c then
      if inSep then splitWsAux true rest else [] :: splitWsAux true rest
    else
      match splitWsAux false rest with
      | t :: ts => (c :: t) :: ts
      | [] => [[c]]

/-- Source `t.split(/\s+/)`. -/
def splitWs (t : JsString) : List JsString := splitWsAux false t

/-- One pattern unit against one input unit under the `i` flag (without the
`u` flag only the two ASCII cases of a letter match). The pattern unit is
given in lower case. -/
def unitEqCI (p c : Nat) : Bool :=
  c == p || (97 ≤ p && p ≤ 122 && c + 32 == p)

/-- Case-insensitive anchored match of a literal pattern at the start. -/
def startsWithCI : JsString → JsString → Bool
  | [], _ => true
  | _ :: _, [] => false
  | p :: ps, c :: cs => unitEqCI p c && startsWithCI ps cs

/-- Source `/^https?:\/\//i.test(s)`. -/
def isHttpUrl (s : JsString) : Bool :=
  startsWithCI (js "http://") s || startsWithCI (js "https://") s

/-- Source `/^t\.me\//i.test(s)`. -/
def isTmeLink (s : JsString) : Bool := startsWithCI (js "t.me/") s

/-- The body of the `forEach`: what one piece pushes on `out`. -/
def keptOf (s : JsString) : List JsString :=
  (if isHttpUrl s then [s] else []) ++ (if isTmeLink s then [js "https://" ++ s] else [])

/-- Source `[...new Set(out)]`: first occurrences, in insertion order. -/
def uniq : List JsString → List JsString
  | [] => []
  | x :: xs => x :: (uniq xs).filter (fun y => y != x)

/-- The array `out` of `parseSocials` after the `forEach`. -/
def keptLinks (t : Option JsString) : List JsString :=
  (splitWs (orEmpty t)).flatMap keptOf

/-- Position of the first occurrence of `x` in a list (its length when there
is none). -/
def firstIndex (x : JsString) : List JsString → Nat
  | [] => 0
  | y :: ys => if y = x then 0 else firstIndex x ys + 1

/-- Source `parseSocials(t)`. -/
def parseSocials (t : Option JsString) : List JsString :=
  (uniq (keptLinks t)).take 6

/-- A token as `parseSocials` returns them: not empty, without white space. -/
def IsToken (x : JsString) : Prop := x ≠ [] ∧ ∀ c ∈ x, isJsSpace c = false

/-- Source `Array.prototype.join(sep)` on an array of strings. -/
def joinWith (sep : JsString) : List JsString → JsString
  | [] => []
  | [x] => x
  | x :: y :: rest => x ++ sep ++ joinWith sep (y :: rest)

/-! ## HTML escaping (`escapeHtml`) -/

/-- Source `String.prototype.replace(/c/g, rep)` for a one-unit pattern. -/
def replaceUnit (c : Nat) (rep : JsString) (s : JsString) : JsString :=
  s.flatMap (fun d => if d = c then rep else [d])

/-- Source `escapeHtml(s)`: three global replacements, in the order of the source. -/
def escapeHtml (s : Option JsString) : JsString :=
  replaceUnit 62 (js "&gt;") (replaceUnit 60 (js "&lt;") (replaceUnit 38 (js "&amp;") (orEmpty s)))

/-! ## JSON values and the environment -/

/-- A value produced by `JSON.parse`. An object lists each key once (the
engine keeps the last of duplicate keys). -/
inductive JVal where
  | null
  | bool (b : Bool)
  | num (q : ℚ)
  | str (s : JsString)
  | arr (items : List JVal)
  | obj (fields : List (JsString × JVal))

/-- Property read `v.k` for the keys the handler reads (`type`, `data`,
`metadata`, `submissionId`), none of which a prototype defines: an object
gives its own field, every other non-nullish value gives `undefined`. -/
def JVal.prop (k : JsString) : JVal → Option JVal
  | .obj fields => (fields.find? (fun kv => kv.1 == k)).map (fun kv => kv.2)
  | _ => none

/-- Optional chaining `v?.k`, where `none` is `undefined`. -/
def optProp (k : JsString) : Option JVal → Option JVal
  | none => none
  | some .null => none
  | some v => v.prop k

/-- Truthiness of a value that is `undefined` or a parsed JSON value. -/
def truthy : Option JVal → Bool
  | none => false
  | some .null => false
  | some (.bool b) => b
  | some (.num q) => q != 0
  | some (.str s) => s != []
  | some (.arr _) => true
  | some (.obj _) => true

/-- Configuration read from the process environment, and the library
functions the program calls. -/
structure Env where
  /-- The constant `POST_CHANNEL`. -/
  POST_CHANNEL : JsString
  /-- The constant `ALT_GROUP_ID` (optional). -/
  ALT_GROUP_ID : Option JsString
  /-- The constant `COINBASE_API_KEY`. -/
  COINBASE_API_KEY : Option JsString
  /-- The constant `COINBASE_WEBHOOK_SECRET`. -/
  COINBASE_WEBHOOK_SECRET : Option JsString
  /-- HMAC-SHA256 of a message (bytes) under a key: the 32 digest bytes. -/
  hmacSha256 : JsString → List Nat → List Nat
  /-- A SHA-256 digest has 32 bytes. -/
  hmac_size : ∀ k m, (hmacSha256 k m).length = 32
  /-- The method `Buffer.prototype.toString('utf8')`. -/
  bufferToString : List Nat → JsString
  /-- The function `JSON.parse`; `none` is a `SyntaxError`. -/
  jsonParse : JsString → Option JVal
  /-- The function `JSON.stringify` on an array of strings. -/
  jsonStringify : List JsString → JsString
  /-- The text the database compares with the `id` column when the bound
  parameter is not a string. -/
  sqlText : JVal → JsString

/-! ## Announcement rendering (`fmtSubmissionHTML`) -/

/-- The result of `Markup.button.url(text, url)`. -/
structure Button where
  text : JsString
  url : JVal

/-- The fields of a submission that `fmtSubmissionHTML` reads. -/
structure SubmissionView where
  chain : Option JsString
  contract : Option JsString
  description : Option JsString
  socials : Option JsString
  chart_url : Option JsString

/-- The object returned by `fmtSubmissionHTML`. -/
structure Payload where
  text : JsString
  inline : List (List Button)

/-- Decimal digits of a number inside a template literal. -/
def numberText (n : Nat) : JsString := (Nat.toDigits 10 n).map Char.toNat

/-- Source `socials.map((l,i)=>Markup.button.url("Social " + (i+1), l))`, from index `i`. -/
def socialBtnsFrom : Nat → List JVal → List Button
  | _, [] => []
  | i, l :: ls => { text := js "Social " ++ numberText (i + 1), url := l } :: socialBtnsFrom (i + 1) ls

/-- The constant `line2` of `fmtSubmissionHTML`: the label and the escaped
description cut by `.slice(0,500)`. -/
def aboutLine (description : Option JsString) : JsString :=
  js "📝 <b>About:</b> " ++ sliceTo 500 (escapeHtml description)

/-- Source `fmtSubmissionHTML(s)`; `none` when it throws (`JSON.parse` fails, or the
parsed `socials` has no `map`). -/
def fmtSubmissionHTML (env : Env) (s : SubmissionView) : Option Payload :=
  match env.jsonParse (if truthyStr s.socials then orEmpty s.socials else js "[]") with
  | some (.arr socials) =>
    let socialBtns := socialBtnsFrom 0 socials
    let header := js "🔥 <b>Token Promotion</b> — <i>" ++ escapeHtml s.chain ++ js "</i>"
    let line1 := js "📄 <b>Contract:</b> <code>" ++ escapeHtml s.contract ++ js "</code>"
    let line2 := aboutLine s.description
    let chart := if truthyStr s.chart_url
      then js "📈 <a href=\"" ++ escapeHtml s.chart_url ++ js "\">Open Chart</a>" else []
    let disclaimer := js "\n<b>Disclaimer:</b> DYOR. Bukan nasihat finansial. Admin " ++
      escapeHtml (some env.POST_CHANNEL) ++ js " tidak bertanggung jawab."
    some
      { text := joinWith (js "\n") ([header, line1, line2, chart, disclaimer].filter (fun l => l != []))
        inline := ((if truthyStr s.chart_url
            then [[Button.mk (js "📈 Chart") (.str (orEmpty s.chart_url))]] else []) ++
          [socialBtns]).filter (fun r => r.length != 0) }
  | _ => none

/-! ## The submission table -/

/-- One row of the table `submissions`. -/
structure Row where
  id : JsString
  user_id : Int
  username : JsString
  chain : Option JsString
  contract : Option JsString
  description : Option JsString
  socials : Option JsString
  chart_url : Option JsString
  price_usd : ℚ
  status : JsString
  charge_id : Option JsString
  created_at : JsString

/-- The fields of a row that the renderer reads. -/
def Row.view (r : Row) : SubmissionView :=
  { chain := r.chain, contract := r.contract, description := r.description,
    socials := r.socials, chart_url := r.chart_url }

/-- The table, in row order. -/
abbrev Store := List Row

/-- The text compared with `id` for a bound parameter. -/
def sqlKey (env : Env) : JVal → JsString
  | .str s => s
  | v => env.sqlText v

/-- Source `SELECT * FROM submissions WHERE id=?` through `db.get`: the first row. -/
def selectById (st : Store) (key : JsString) : Option Row :=
  st.find? (fun r => r.id == key)

/-- A chat a message is sent to. -/
inductive ChatId where
  | name (s : JsString)
  | user (n : Int)

/-- The three deliveries of the posting fan-out. -/
inductive Dest where
  | primary
  | secondary
  | requester
  deriving DecidableEq

/-- What a handler does to the outside: the SQL statements it issues and the
messages it tries to send through `bot.telegram.sendMessage`. -/
inductive Effect where
  | insert (r : Row)
  | setCharge (chargeId : Option JsString) (id : JsString)
  | setStatus (status : JsString) (key : JsString)
  | send (dest : Dest) (chat : ChatId) (text : JsString) (inline : Option (List (List Button)))

/-- Execution of one statement. `id` is the primary key: an `INSERT` of an
existing id fails and leaves the table as it is. -/
def execEffect (st : Store) : Effect → Store
  | .insert r => if st.any (fun x => x.id == r.id) then st else st ++ [r]
  | .setCharge c id => st.map (fun r => if r.id == id then { r with charge_id := c } else r)
  | .setStatus s key => st.map (fun r => if r.id == key then { r with status := s } else r)
  | .send _ _ _ _ => st

/-- Execution of the statements of a trace, in order. -/
def execEffects (st : Store) (es : List Effect) : Store := es.foldl execEffect st

/-- Whether an effect is an `INSERT`. -/
def Effect.isInsert : Effect → Bool
  | .insert _ => true
  | _ => false

/-- Whether an effect is a status write. -/
def Effect.isStatusWrite : Effect → Bool
  | .setStatus _ _ => true
  | _ => false

/-- Whether an effect is an attempt to send to the given destination. -/
def Effect.isSendTo (d : Dest) : Effect → Bool
  | .send d2 _ _ _ => decide (d2 = d)
  | _ => false

/-- Whether an effect is an attempt to send a message. -/
def Effect.isSend : Effect → Bool
  | .send _ _ _ _ => true
  | _ => false

/-! ## The conversation (`bot.command('submit')`, `bot.on('callback_query')`, `bot.on('text')`) -/

/-- The table `CHAINS`: key and label. -/
def CHAINS : List (JsString × JsString) :=
  [(js "ETH", js "Ethereum"), (js "BSC", js "BSC"), (js "BASE", js "Base"),
   (js "POLY", js "Polygon"), (js "SOL", js "Solana"), (js "TON", js "TON")]

/-- The constant `Steps.NONE`. -/
def Steps.NONE : Nat := 0
/-- The constant `Steps.CHAIN`. -/
def Steps.CHAIN : Nat := 1
/-- The constant `Steps.CONTRACT`. -/
def Steps.CONTRACT : Nat := 2
/-- The constant `Steps.DESC`. -/
def Steps.DESC : Nat := 3
/-- The constant `Steps.SOCIALS`. -/
def Steps.SOCIALS : Nat := 4
/-- The constant `Steps.CHART`. -/
def Steps.CHART : Nat := 5
/-- The constant `Steps.REVIEW`. -/
def Steps.REVIEW : Nat := 6

/-- The object `ctx.session.form`. -/
structure Form where
  chain : Option JsString := none
  chainKey : Option JsString := none
  contract : Option JsString := none
  description : Option JsString := none
  socials : Option (List JsString) := none
  chart_url : Option JsString := none
  deriving DecidableEq

/-- The object `ctx.session` of a chat that has one. `bot.use(session())`
registers the middleware without a default session and no handler assigns
`ctx.session`, so a chat gets such an object only from the session store; a
chat that is new to the store has `undefined` instead (see `handleUpdate`,
where the session of a chat is an `Option Session`). The store keeps one
object per chat, so a write made before a handler throws stays. -/
structure Session where
  step : Option Nat
  form : Option Form
  deriving DecidableEq

/-- The charge object returned by the payment provider. -/
structure Charge where
  id : Option JsString
  hosted_url : Option JsString

/-- What one update brings with it besides its payload. -/
structure Ctx where
  /-- The value `ctx.from.id`. -/
  from_id : Int
  /-- The value `ctx.from.username`. -/
  username : Option JsString
  /-- The value `uuidv4()` returns during this update. -/
  uuid : JsString
  /-- The value of `datetime('now')`. -/
  now : JsString
  /-- The variable `PRICE_USD` at the time of the update. -/
  price : ℚ
  /-- The `data.data` of the provider's answer to the charge request;
  `none` when the request fails or the answer has no such object. -/
  chargeReply : Option Charge
  /-- Whether `ctx.answerCbQuery()` resolves. -/
  ackOk : Bool

/-- An update the conversation handlers receive. A `text` is any text message
that is not one of the commands `/start`, `/help`, `/price`, `/setprice`,
`/submit`. -/
inductive BotEvent where
  | submit
  | callback (data : Option JsString)
  | text (message : Option JsString)

/-- The outcome of a conversation handler that was given a session object.
Replies to the chat are not recorded: every session write precedes the reply
of its handler. -/
structure BotResult where
  session : Session
  effects : List Effect
  threw : Bool

/-- Source `createCoinbaseCharge`: throws without an API key, otherwise returns what
the provider answers. -/
def createCoinbaseCharge (env : Env) (ctx : Ctx) : Option Charge :=
  if truthyStr env.COINBASE_API_KEY then ctx.chargeReply else none

/-- The text before the first occurrence of `pat`: the first piece of
`s.split(pat)`. -/
def untilSub (pat : JsString) : JsString → JsString
  | [] => []
  | c :: rest => if pat.isPrefixOf (c :: rest) then [] else c :: untilSub pat rest

/-- Source `bot.command('submit')`, given a session object: both writes succeed.
Without a session object the first write throws (see `handleUpdate`). -/
def onSubmit (_sess : Session) : BotResult :=
  { session := { step := some Steps.CHAIN, form := some {} }, effects := [], threw := false }

/-- The branch `data.startsWith('chain_')` of the callback handler. -/
def onChainSelect (data : JsString) (sess : Session) : BotResult :=
  let key := untilSub (js "chain_") (data.drop 6)
  match CHAINS.find? (fun c => c.1 == key) with
  | none => { session := sess, effects := [], threw := false }
  | some chain =>
    match sess.form with
    | none => { session := sess, effects := [], threw := true }
    | some f =>
      { session := { step := some Steps.CONTRACT,
                     form := some { f with chain := some chain.2, chainKey := some chain.1 } },
        effects := [], threw := false }

/-- The row bound to the `INSERT` of the confirm branch. -/
def pendingRow (env : Env) (ctx : Ctx) (f : Form) : Row :=
  { id := ctx.uuid, user_id := ctx.from_id, username := orEmpty ctx.username,
    chain := f.chain, contract := f.contract, description := f.description,
    socials := some (env.jsonStringify (f.socials.getD [])),
    chart_url := some (orEmpty f.chart_url), price_usd := ctx.price,
    status := js "pending", charge_id := none, created_at := ctx.now }

/-- The branch `data==='confirm_pay'` of the callback handler. -/
def onConfirm (env : Env) (ctx : Ctx) (sess : Session) : BotResult :=
  if !ctx.ackOk then { session := sess, effects := [], threw := true }
  else
    match sess.form with
    | none => { session := sess, effects := [], threw := false }
    | some f =>
      let ins := Effect.insert (pendingRow env ctx f)
      match f.contract with
      | none => { session := sess, effects := [ins], threw := false }
      | some _ =>
        match createCoinbaseCharge env ctx with
        | none => { session := sess, effects := [ins], threw := false }
        | some charge =>
          { session := sess, effects := [ins, Effect.setCharge charge.id ctx.uuid], threw := false }

/-- The branch `data==='edit_back'` of the callback handler. -/
def onEdit (ctx : Ctx) (sess : Session) : BotResult :=
  if !ctx.ackOk then { session := sess, effects := [], threw := true }
  else { session := { sess with step := some Steps.CHAIN }, effects := [], threw := false }

/-- Source `bot.on('callback_query')`. -/
def onCallback (env : Env) (ctx : Ctx) (data : Option JsString) (sess : Session) : BotResult :=
  let data := orEmpty data
  if (js "chain_").isPrefixOf data then onChainSelect data sess
  else if data = js "confirm_pay" then onConfirm env ctx sess
  else if data = js "edit_back" then onEdit ctx sess
  else { session := sess, effects := [], threw := false }

/-- Source `bot.on('text')`. A write to `ctx.session.form.x` throws when the session
has no `form`. -/
def onText (message : Option JsString) (sess : Session) : BotResult :=
  let step := sess.step.getD Steps.NONE
  let txt := jsTrim (orEmpty message)
  let stay : BotResult := { session := sess, effects := [], threw := false }
  let fail : BotResult := { session := sess, effects := [], threw := true }
  if step = Steps.CONTRACT then
    match sess.form with
    | none => fail
    | some f =>
      if !validateContract f.chainKey (some txt) then stay
      else { session := { step := some Steps.DESC, form := some { f with contract := some txt } },
             effects := [], threw := false }
  else if step = Steps.DESC then
    match sess.form with
    | none => fail
    | some f =>
      { session := { step := some Steps.SOCIALS,
                     form := some { f with description := some (sliceTo 500 txt) } },
        effects := [], threw := false }
  else if step = Steps.SOCIALS then
    let s := parseSocials (some txt)
    if s.length = 0 then stay
    else
      match sess.form with
      | none => fail
      | some f =>
        { session := { step := some Steps.CHART, form := some { f with socials := some s } },
          effects := [], threw := false }
  else if step = Steps.CHART then
    if !looksChart (some txt) then stay
    else
      match sess.form with
      | none => fail
      | some f =>
        { session := { step := some Steps.REVIEW, form := some { f with chart_url := some txt } },
          effects := [], threw := false }
  else stay

/-- Dispatch of one update to its handler, for a chat that has a session
object. -/
def handleBot (env : Env) (ctx : Ctx) (ev : BotEvent) (sess : Session) : BotResult :=
  match ev with
  | .submit => onSubmit sess
  | .callback data => onCallback env ctx data sess
  | .text message => onText message sess

/-- The session object of a chat and the table after a sequence of updates,
each with its context; the statements of every update are executed before
the next update. -/
def runBot (env : Env) : List (Ctx × BotEvent) → Session × Store → Session × Store
  | [], state => state
  | (ctx, ev) :: rest, (sess, st) =>
    let r := handleBot env ctx ev sess
    runBot env rest (r.session, execEffects st r.effects)

/-- The outcome of an update for a chat: what the session store holds for the
chat afterwards (`none`: nothing), the statements issued, and whether the
handler threw. -/
structure UpdateResult where
  session : Option Session
  effects : List Effect
  threw : Bool

/-- One update of a chat, with `ctx.session` as the middleware of
`bot.use(session())` sets it: the stored object, or `undefined` (`none`) for
a chat the store does not know. On `undefined`, every read or write of a
property of `ctx.session` throws a `TypeError`: the first statement of
`/submit` and of the text handler, the write of the chain after a known
chain key, and the statement after `ctx.answerCbQuery()` in the confirm and
edit branches (or that call itself). An unknown chain key and any other
callback data return without touching the session. In each case no statement
is issued and the chat still has no session. -/
def handleUpdate (env : Env) (ctx : Ctx) (ev : BotEvent) : Option Session → UpdateResult
  | some sess =>
    let r := handleBot env ctx ev sess
    { session := some r.session, effects := r.effects, threw := r.threw }
  | none =>
    match ev with
    | .submit => { session := none, effects := [], threw := true }
    | .text _ => { session := none, effects := [], threw := true }
    | .callback data =>
      let data := orEmpty data
      if (js "chain_").isPrefixOf data then
        match CHAINS.find? (fun c => c.1 == untilSub (js "chain_") (data.drop 6)) with
        | none => { session := none, effects := [], threw := false }
        | some _ => { session := none, effects := [], threw := true }
      else if data = js "confirm_pay" then { session := none, effects := [], threw := true }
      else if data = js "edit_back" then { session := none, effects := [], threw := true }
      else { session := none, effects := [], threw := false }

/-- The session of a chat and the table after a sequence of updates of the
chat, each with its context. A fresh chat starts from `none`. -/
def runChat (env : Env) : List (Ctx × BotEvent) → Option Session × Store → Option Session × Store
  | [], state => state
  | (ctx, ev) :: rest, (slot, st) =>
    let r := handleUpdate env ctx ev slot
    runChat env rest (r.session, execEffects st r.effects)

/-- The statements issued while a chat handles a sequence of updates, in
order. -/
def chatEffects (env : Env) : List (Ctx × BotEvent) → Option Session → List Effect
  | [], _ => []
  | (ctx, ev) :: rest, slot =>
    let r := handleUpdate env ctx ev slot
    r.effects ++ chatEffects env rest r.session

/-- The rows bound to the `INSERT` statements of a trace, in order. -/
def insertedRows : List Effect → List Row
  | [] => []
  | .insert r :: es => r :: insertedRows es
  | _ :: es => insertedRows es

/-! ## The webhook (`verifyCoinbase`, `app.post('/webhook/coinbase-commerce')`) -/

/-- One hexadecimal digit of `digest('hex')`. -/
def hexDigit (n : Nat) : Nat := if n < 10 then 48 + n else 87 + n

/-- Source `digest('hex')` of the digest bytes. -/
def hexEncode (bytes : List Nat) : JsString :=
  bytes.flatMap (fun b => [hexDigit (b / 16 % 16), hexDigit (b % 16)])

/-- UTF-8 bytes of one code unit that is not part of a surrogate pair; a lone
surrogate is encoded as U+FFFD. -/
def utf8Unit (c : Nat) : List Nat :=
  if c < 128 then [c]
  else if c < 2048 then [192 + c / 64, 128 + c % 64]
  else if 55296 ≤ c ∧ c < 57344 then [239, 191, 189]
  else [224 + c / 4096, 128 + c / 64 % 64, 128 + c % 64]

/-- UTF-8 bytes of the code point of a surrogate pair. -/
def utf8Pair (hi lo : Nat) : List Nat :=
  let cp := 65536 + (hi - 55296) * 1024 + (lo - 56320)
  [240 + cp / 262144, 128 + cp / 4096 % 64, 128 + cp / 64 % 64, 128 + cp % 64]

/-- Source `Buffer.from(s)`: the UTF-8 bytes of a string. `pending` holds a high
surrogate that waits for its low half. -/
def utf8From : Option Nat → JsString → List Nat
  | none, [] => []
  | some hi, [] => utf8Unit hi
  | none, c :: rest =>
    if 55296 ≤ c ∧ c < 56320 then utf8From (some c) rest else utf8Unit c ++ utf8From none rest
  | some hi, c :: rest =>
    if 56320 ≤ c ∧ c < 57344 then utf8Pair hi c ++ utf8From none rest
    else if 55296 ≤ c ∧ c < 56320 then utf8Unit hi ++ utf8From (some c) rest
    else utf8Unit hi ++ utf8Unit c ++ utf8From none rest

/-- Source `Buffer.from(s)`. -/
def bufferFrom (s : JsString) : List Nat := utf8From none s

/-- Source `crypto.timingSafeEqual(a, b)`: throws (`none`) when the byte lengths
differ. -/
def timingSafeEqual (a b : List Nat) : Option Bool :=
  if a.length = b.length then some (decide (a = b)) else none

/-- The value of `req.body` after `bodyParser.raw`: a `Buffer`, or, when the
middleware read no body, the empty object or `undefined` depending on the
version of the middleware. -/
inductive ReqBody where
  | buffer (bytes : List Nat)
  | emptyObject
  | undefined

/-- An inbound request: its body and its `X-CC-Webhook-Signature` header. -/
structure Request where
  body : ReqBody
  signature : Option JsString

/-- Source `verifyCoinbase(raw, sigHeader)`: the field `ok` of its result, or `none`
when it throws. -/
def verifyCoinbase (env : Env) (raw : ReqBody) (sigHeader : Option JsString) : Option Bool :=
  match raw with
  | .undefined => some false
  | .emptyObject => if truthyStr env.COINBASE_WEBHOOK_SECRET then none else some false
  | .buffer bytes =>
    if truthyStr env.COINBASE_WEBHOOK_SECRET then
      let digest := hexEncode (env.hmacSha256 (orEmpty env.COINBASE_WEBHOOK_SECRET) bytes)
      timingSafeEqual (bufferFrom digest) (bufferFrom (orEmpty sigHeader))
    else some false

/-- The answer of the HTTP handler. -/
structure Response where
  status : Nat
  body : JsString
  deriving DecidableEq

/-- The `try` block of the `db.get` callback: render, then send to the
channel, to the group if one is configured, and to the requester, each send
awaited before the next; the first failure leaves the block. `deliver` says
which sends succeed. -/
def fanOut (env : Env) (deliver : Dest → Bool) (row : Row) : List Effect :=
  match fmtSubmissionHTML env row.view with
  | none => []
  | some payload =>
    let post := Effect.send .primary (.name env.POST_CHANNEL) payload.text (some payload.inline)
    let notify := Effect.send .requester (.user row.user_id)
      (js "✅ Pembayaran terkonfirmasi. Promo Anda telah diposting.") none
    if !deliver .primary then [post]
    else if truthyStr env.ALT_GROUP_ID then
      let alt := Effect.send .secondary (.name (orEmpty env.ALT_GROUP_ID)) payload.text
        (some payload.inline)
      if !deliver .secondary then [post, alt] else [post, alt, notify]
    else [post, notify]

/-- The callback of `db.get` in the webhook handler. -/
def onPaymentRow (env : Env) (deliver : Dest → Bool) (key : JsString) (row : Option Row) :
    List Effect :=
  match row with
  | none => []
  | some row =>
    if row.status = js "paid" then []
    else Effect.setStatus (js "paid") key :: fanOut env deliver row

/-- The outcome of the webhook handler. -/
structure WebhookResult where
  response : Response
  effects : List Effect
  store : Store

/-- Source `app.post('/webhook/coinbase-commerce')`, with the `db.get` callback run
to its end before the next request is handled. -/
def webhook (env : Env) (deliver : Dest → Bool) (st : Store) (req : Request) : WebhookResult :=
  let bad : WebhookResult := { response := ⟨400, js "bad"⟩, effects := [], store := st }
  let sig := orEmpty req.signature
  match verifyCoinbase env req.body (some sig) with
  | none => bad
  | some false => { response := ⟨401, js "bad sig"⟩, effects := [], store := st }
  | some true =>
    match req.body with
    | .buffer bytes =>
      match env.jsonParse (env.bufferToString bytes) with
      | none => bad
      | some event =>
        let type := optProp (js "type") (some event)
        let submissionId :=
          optProp (js "submissionId") (optProp (js "metadata") (optProp (js "data") (some event)))
        match submissionId, type with
        | some sid, some (.str t) =>
          if truthy (some sid) && (t = js "charge:confirmed" || t = js "charge:resolved") then
            let key := sqlKey env sid
            let effects := onPaymentRow env deliver key (selectById st key)
            { response := ⟨200, js "ok"⟩, effects := effects, store := execEffects st effects }
          else { response := ⟨200, js "ok"⟩, effects := [], store := st }
        | _, _ => { response := ⟨200, js "ok"⟩, effects := [], store := st }
    | _ => bad

/-! ## The shapes of the specification (for comparison with `validateContract`) -/

/-- The hexadecimal characters. -/
def hexAlphabet : JsString := js "0123456789abcdefABCDEF"

/-- The base58 alphabet: digits and letters without `0`, `O`, `I`, `l`. -/
def base58Alphabet : JsString :=
  js "123456789ABCDEFGHJKLMNPQRSTUVWXYZabcdefghijkmnopqrstuvwxyz"

/-- The alphabet `[A-Za-z0-9_-]`. -/
def tonAlphabet : JsString :=
  js "ABCDEFGHIJKLMNOPQRSTUVWXYZabcdefghijklmnopqrstuvwxyz0123456789_-"

/-- The prefix `0x` followed by exactly 40 hexadecimal characters. -/
def evmShape (a : JsString) : Prop :=
  a.take 2 = js "0x" ∧ (a.drop 2).length = 40 ∧ ∀ c ∈ a.drop 2, c ∈ hexAlphabet

/-- 32 to 48 characters, all from the base58 alphabet. -/
def solShape (a : JsString) : Prop :=
  32 ≤ a.length ∧ a.length ≤ 48 ∧ ∀ c ∈ a, c ∈ base58Alphabet

/-- 48 to 66 characters, all from `[A-Za-z0-9_-]`. -/
def tonShape (a : JsString) : Prop :=
  48 ≤ a.length ∧ a.length ≤ 66 ∧ ∀ c ∈ a, c ∈ tonAlphabet

/-- The canonical shape of an address for a chain key; no address has the
shape of an unknown chain. -/
def canonicalShape (chainKey : Option JsString) (a : JsString) : Prop :=
  if chainKey ∈ [some (js "ETH"), some (js "BSC"), some (js "BASE"), some (js "POLY")] then evmShape a
  else if chainKey = some (js "SOL") then solShape a
  else if chainKey = some (js "TON") then tonShape a
  else False

instance (a : JsString) : Decidable (evmShape a) := by unfold evmShape; infer_instance
instance (a : JsString) : Decidable (solShape a) := by unfold solShape; infer_instance
instance (a : JsString) : Decidable (tonShape a) := by unfold tonShape; infer_instance
instance (k : Option JsString) (a : JsString) : Decidable (canonicalShape k a) := by
  unfold canonicalShape; infer_instance

/-! ## The invariant of a session -/

/-- A property of a session object that every handler keeps: the chain label
and the chain key of a draft are set together from one entry of `CHAINS`, and
from step `DESC` on the draft holds a contract that `validateContract`
accepts for the chain key of the draft. -/
def SessionInv (sess : Session) : Prop :=
  (∀ f, sess.form = some f →
    f.chainKey = none ∨ ∃ c ∈ CHAINS, f.chain = some c.2 ∧ f.chainKey = some c.1) ∧
  (∀ n, sess.step = some n → 3 ≤ n →
    ∃ f a, sess.form = some f ∧ f.contract = some a ∧
      validateContract f.chainKey (some a) = true)

/-! ## A concrete environment and concrete runs (for evaluation) -/

/-- A stand-in for HMAC-SHA256 with 32 digest bytes. -/
def sampleHmac (k : JsString) (m : List Nat) : List Nat :=
  (List.range 32).map (fun i => (k.sum + m.sum + i) % 256)

/-- The body of a `charge:confirmed` event for submission `id-1`. -/
def sampleBody : JsString :=
  js "\x7b\"type\":\"charge:confirmed\",\"data\":\x7b\"metadata\":\x7b\"submissionId\":\"id-1\"\x7d\x7d\x7d"

/-- The value `JSON.parse` gives for `sampleBody`. -/
def sampleEvent : JVal :=
  .obj [(js "type", .str (js "charge:confirmed")),
        (js "data", .obj [(js "metadata", .obj [(js "submissionId", .str (js "id-1"))])])]

/-- The socials column of the sample submission. -/
def sampleSocials : JsString := js "[\"https://t.me/test\",\"https://x.com/test\"]"

/-- The function `JSON.parse` on the three documents the sample runs use. -/
def sampleParse (s : JsString) : Option JVal :=
  if s = sampleBody then some sampleEvent
  else if s = sampleSocials then
    some (.arr [.str (js "https://t.me/test"), .str (js "https://x.com/test")])
  else if s = js "[]" then some (.arr [])
  else none

/-- The function `JSON.stringify` on an array of strings without characters to escape. -/
def sampleStringify (l : List JsString) : JsString :=
  js "[" ++ joinWith (js ",") (l.map (fun s => js "\"" ++ s ++ js "\"")) ++ js "]"

/-- An environment with every constant configured. -/
def sampleEnv : Env :=
  { POST_CHANNEL := js "@tokenvestors"
    ALT_GROUP_ID := some (js "-1001")
    COINBASE_API_KEY := some (js "key")
    COINBASE_WEBHOOK_SECRET := some (js "secret")
    hmacSha256 := sampleHmac
    hmac_size := by intro k m; simp [sampleHmac]
    bufferToString := fun b => b
    jsonParse := sampleParse
    jsonStringify := sampleStringify
    sqlText := fun _ => [] }

/-- The context of an update of user 7 that creates submission `id`. -/
def sampleCtx (id : JsString) : Ctx :=
  { from_id := 7, username := some (js "alice"), uuid := id, now := js "2024-01-01 00:00:00",
    price := 50, chargeReply := some { id := some (js "CH1"), hosted_url := some (js "https://pay") },
    ackOk := true }

/-- The EVM address of the end-to-end scenario. -/
def sampleAddress : JsString := js "0x1111111111111111111111111111111111111111"

/-- The updates of an intake, from `/submit` to the chart link. -/
def happyPath : List (Ctx × BotEvent) :=
  [(sampleCtx (js "id-1"), .submit),
   (sampleCtx (js "id-1"), .callback (some (js "chain_ETH"))),
   (sampleCtx (js "id-1"), .text (some sampleAddress)),
   (sampleCtx (js "id-1"), .text (some (js "Test token"))),
   (sampleCtx (js "id-1"), .text (some (js "https://t.me/test https://x.com/test"))),
   (sampleCtx (js "id-1"), .text (some (js "https://dexscreener.com/ethereum/0x1111")))]

/-- The updates of an intake that selects Solana after sending an EVM
contract, then confirms. -/
def chainSwitchRun : List (Ctx × BotEvent) :=
  [(sampleCtx (js "id-1"), .submit),
   (sampleCtx (js "id-1"), .callback (some (js "chain_ETH"))),
   (sampleCtx (js "id-1"), .text (some sampleAddress)),
   (sampleCtx (js "id-1"), .callback (some (js "chain_SOL"))),
   (sampleCtx (js "id-1"), .callback (some (js "confirm_pay")))]

/-- The confirm update. -/
def confirmEvent : BotEvent := .callback (some (js "confirm_pay"))

/-- The pending submission `id-1` of the end-to-end scenario. -/
def sampleRow : Row :=
  { id := js "id-1", user_id := 7, username := js "alice", chain := some (js "Ethereum"),
    contract := some sampleAddress, description := some (js "Test token"),
    socials := some sampleSocials, chart_url := some (js "https://dexscreener.com/ethereum/0x1111"),
    price_usd := 50, status := js "pending", charge_id := some (js "CH1"),
    created_at := js "2024-01-01 00:00:00" }

/-- The signed delivery of `sampleBody`. -/
def sampleRequest : Request :=
  { body := .buffer sampleBody,
    signature := some (hexEncode (sampleHmac (js "secret") sampleBody)) }

/-- A complete draft. -/
def reviewForm : Form :=
  { chain := some (js "Ethereum"), chainKey := some (js "ETH"), contract := some sampleAddress,
    description := some (js "Test token"),
    socials := some [js "https://t.me/test", js "https://x.com/test"],
    chart_url := some (js "https://dexscreener.com/ethereum/0x1111") }

/-- A session object in the review step, holding `reviewForm`. -/
def reviewSession : Session := { step := some Steps.REVIEW, form := some reviewForm }

/-! ## The program as a whole -/

/-- A validly signed delivery of a confirmed-payment event for the submission
with the (non-empty) id `S`: the secret is configured, the signature header is
the hex HMAC of the raw body, the body parses, its `type` is
`charge:confirmed` or `charge:resolved` and its `data.metadata.submissionId`
is the string `S`. -/
def ConfirmedDelivery (env : Env) (req : Request) (S : JsString) : Prop :=
  truthyStr env.COINBASE_WEBHOOK_SECRET = true ∧ S ≠ [] ∧
  ∃ bytes ev t, req.body = .buffer bytes ∧
    req.signature =
      some (hexEncode (env.hmacSha256 (orEmpty env.COINBASE_WEBHOOK_SECRET) bytes)) ∧
    env.jsonParse (env.bufferToString bytes) = some ev ∧
    optProp (js "type") (some ev) = some (.str t) ∧
    (t = js "charge:confirmed" ∨ t = js "charge:resolved") ∧
    optProp (js "submissionId") (optProp (js "metadata") (optProp (js "data") (some ev))) =
      some (.str S)

/-- One operation of the program on the table: a conversation update of some
chat (with the session of that chat), or a webhook delivery. -/
inductive SysEvent where
  | update (ctx : Ctx) (ev : BotEvent) (sess : Session)
  | delivery (deliver : Dest → Bool) (req : Request)

/-- The table after one operation. -/
def sysStep (env : Env) (st : Store) : SysEvent → Store
  | .update ctx ev sess => execEffects st (handleBot env ctx ev sess).effects
  | .delivery deliver req => (webhook env deliver st req).store

/-- The table after a sequence of operations. -/
def sysRun (env : Env) (st : Store) (evs : List SysEvent) : Store :=
  evs.foldl (sysStep env) st

/-- The statements the program may issue as far as the status column goes: a
row is inserted as `pending`, and a status is only ever set to `paid`. -/
def Effect.StatusSafe : Effect → Prop
  | .insert r => r.status = js "pending"
  | .setStatus s _ => s = js "paid"
  | _ => True

/-- A delivery oracle under which only the post to the channel fails. -/
def primaryFails : Dest → Bool
  | .primary => false
  | _ => true

/-- Row by row, the second table keeps the records of the first: same id at
the same position, and a `paid` status stays `paid`. -/
def PaidKept (st st2 : Store) : Prop :=
  ∀ (i : Nat) (r : Row), st[i]? = some r →
    ∃ r2 : Row, st2[i]? = some r2 ∧ r2.id = r.id ∧ (r.status = js "paid" → r2.status = js "paid")

/-- A short history: the sample delivery, then a confirm of another chat,
then the delivery again. -/
def sampleHistory : List SysEvent :=
  [.delivery (fun _ => true) sampleRequest,
   .update (sampleCtx (js "id-2")) confirmEvent reviewSession,
   .delivery primaryFails sampleRequest]

/-- A description of 500 characters: 499 letters `a` and a final `<`. -/
def cutDescription : JsString := List.replicate 499 97 ++ js "<"

/-- The sample submission with `cutDescription` as its description. -/
def cutView : SubmissionView := { sampleRow.view with description := some cutDescription }

/-! ## Events as the webhook handler reads them -/

/-- The value `event?.type`. -/
def eventType (ev : JVal) : Option JVal := optProp (js "type") (some ev)

/-- The value `event?.data?.metadata?.submissionId`. -/
def eventSubmissionId (ev : JVal) : Option JVal :=
  optProp (js "submissionId") (optProp (js "metadata") (optProp (js "data") (some ev)))

/-- Whether an event type is the string `charge:confirmed` or `charge:resolved`. -/
def isPaymentType : Option JVal → Bool
  | some (.str t) => decide (t = js "charge:confirmed") || decide (t = js "charge:resolved")
  | _ => false

/-- A validly signed request whose body parses as JSON to `ev`: the secret is
configured, the body is a `Buffer`, the signature header is the hex HMAC of
the raw body, and `JSON.parse` of the body gives `ev`. -/
def SignedEvent (env : Env) (req : Request) (ev : JVal) : Prop :=
  truthyStr env.COINBASE_WEBHOOK_SECRET = true ∧
  ∃ bytes, req.body = .buffer bytes ∧
    req.signature =
      some (hexEncode (env.hmacSha256 (orEmpty env.COINBASE_WEBHOOK_SECRET) bytes)) ∧
    env.jsonParse (env.bufferToString bytes) = some ev

/-- The sample environment without a webhook secret. -/
def unconfiguredEnv : Env := { sampleEnv with COINBASE_WEBHOOK_SECRET := none }

/-- The edit update. -/
def editEvent : BotEvent := .callback (some (js "edit_back"))

/-- A chain-selection update for the given chain key. -/
def chainEvent (key : JsString) : BotEvent := .callback (some (js "chain_" ++ key))

/-- A session waiting for the contract of an Ethereum token. -/
def contractSession : Session :=
  { step := some Steps.CONTRACT,
    form := some { chain := some (js "Ethereum"), chainKey := some (js "ETH") } }

/-- A session waiting for the description. -/
def descSession : Session :=
  { step := some Steps.DESC,
    form := some { chain := some (js "Ethereum"), chainKey := some (js "ETH"),
                   contract := some sampleAddress } }

/-- The sample address with a space in front. -/
def paddedAddress : JsString := js " 0x1111111111111111111111111111111111111111"

/-! ## Letter case, entities and buttons (for comparison with the specification) -/

/-- Two code units that are equal or the two cases of one ASCII letter. -/
def sameUnitUpToCase (a b : Nat) : Bool :=
  a == b || (65 ≤ a && a ≤ 90 && b == a + 32) || (65 ≤ b && b ≤ 90 && a == b + 32)

/-- Two strings that differ at most in the case of their ASCII letters. -/
def sameUpToCase : JsString → JsString → Bool
  | [], [] => true
  | a :: u, b :: v => sameUnitUpToCase a b && sameUpToCase u v
  | _, _ => false

/-- Upper case of one code unit, for the letters `a`-`z` and for U+0131
(dotless i), whose upper case is `I`; it is applied to such units only. -/
def upperUnit (c : Nat) : Nat :=
  if 97 ≤ c ∧ c ≤ 122 then c - 32 else if c = 305 then 73 else c

/-- The number a string of decimal digits denotes. -/
def decimalValue (d : JsString) : Nat := d.foldl (fun acc c => 10 * acc + (c - 48)) 0

/-- That `d` is the decimal numeral of `n`: at least one unit, every unit one
of the digits `0`-`9`, no leading `0` except in the numeral `0`, and `n` the
number denoted. -/
def IsDecimalNumeral (d : JsString) (n : Nat) : Prop :=
  d ≠ [] ∧ (∀ c ∈ d, 48 ≤ c ∧ c ≤ 57) ∧ (d.head? = some 48 → d = [48]) ∧ decimalValue d = n

instance (d : JsString) (n : Nat) : Decidable (IsDecimalNumeral d n) := by
  unfold IsDecimalNumeral; infer_instance

/-- One code unit as `escapeHtml` leaves it: the entity for `&`, `<`, `>`,
the unit itself otherwise. -/
def escapeUnit (d : Nat) : JsString :=
  if d = 38 then js "&amp;" else if d = 60 then js "&lt;" else if d = 62 then js "&gt;" else [d]

/-- Replacement of the entities `&amp;`, `&lt;`, `&gt;` by `&`, `<`, `>`, in
one scan from left to right. -/
def unescapeHtml : JsString → JsString
  | [] => []
  | 38 :: 97 :: 109 :: 112 :: 59 :: rest => 38 :: unescapeHtml rest
  | 38 :: 108 :: 116 :: 59 :: rest => 60 :: unescapeHtml rest
  | 38 :: 103 :: 116 :: 59 :: rest => 62 :: unescapeHtml rest
  | c :: rest => c :: unescapeHtml rest

/-- Whether a text starts with the rest of an entity, `amp;`, `lt;` or `gt;`. -/
def continuesEntity (post : JsString) : Bool :=
  (js "amp;").isPrefixOf post || (js "lt;").isPrefixOf post || (js "gt;").isPrefixOf post

/-- Whether every `&` of a text is followed by `amp;`, `lt;` or `gt;`. -/
def ampersandsEscaped : JsString → Bool
  | [] => true
  | c :: rest => (c != 38 || continuesEntity rest) && ampersandsEscaped rest

/-! ## Validators: proofs -/

theorem hexAlphabet_eq : hexAlphabet =
    [48,49,50,51,52,53,54,55,56,57,97,98,99,100,101,102,65,66,67,68,69,70] := by decide

theorem base58Alphabet_eq : base58Alphabet =
    [49,50,51,52,53,54,55,56,57,65,66,67,68,69,70,71,72,74,75,76,77,78,80,81,82,83,84,85,86,
     87,88,89,90,97,98,99,100,101,102,103,104,105,106,107,109,110,111,112,113,114,115,116,117,
     118,119,120,121,122] := by decide

theorem tonAlphabet_eq : tonAlphabet =
    [65,66,67,68,69,70,71,72,73,74,75,76,77,78,79,80,81,82,83,84,85,86,87,88,89,90,
     97,98,99,100,101,102,103,104,105,106,107,108,109,110,111,112,113,114,115,116,117,118,119,
     120,121,122,48,49,50,51,52,53,54,55,56,57,95,45] := by decide

theorem isHexUnit_iff (c : Nat) : isHexUnit c = true ↔ c ∈ hexAlphabet := by
  rw [hexAlphabet_eq]
  simp only [isHexUnit, Bool.or_eq_true, Bool.and_eq_true, decide_eq_true_eq, List.mem_cons,
    List.mem_singleton, List.not_mem_nil, or_false]
  omega

theorem isBase58Unit_iff (c : Nat) : isBase58Unit c = true ↔ c ∈ base58Alphabet := by
  rw [base58Alphabet_eq]
  simp only [isBase58Unit, Bool.or_eq_true, Bool.and_eq_true, decide_eq_true_eq, List.mem_cons,
    List.mem_singleton, List.not_mem_nil, or_false]
  omega

theorem isTonUnit_iff (c : Nat) : isTonUnit c = true ↔ c ∈ tonAlphabet := by
  rw [tonAlphabet_eq]
  simp only [isTonUnit, Bool.or_eq_true, Bool.and_eq_true, decide_eq_true_eq, beq_iff_eq,
    List.mem_cons, List.mem_singleton, List.not_mem_nil, or_false]
  omega

theorem isEvm_iff (a : JsString) : isEvm (some a) = true ↔ evmShape a := by
  unfold evmShape
  have h0x : js "0x" = [48, 120] := by decide
  rw [h0x]
  match a with
  | [] => simp [isEvm, orEmpty]
  | [x] => simp [isEvm, orEmpty]
  | x :: y :: rest =>
    by_cases hx : x = 48
    · by_cases hy : y = 120
      · subst hx; subst hy
        simp [isEvm, orEmpty, isHexUnit_iff]
      · have : isEvm (some (x :: y :: rest)) = false := by
          unfold isEvm orEmpty
          split
          · rename_i heq; simp at heq; exact absurd heq.2.1 hy
          · rfl
        simp [this, hy]
    · have : isEvm (some (x :: y :: rest)) = false := by
        unfold isEvm orEmpty
        split
        · rename_i heq; simp at heq; exact absurd heq.1 hx
        · rfl
      simp [this, hx]

theorem looksSol_iff (a : JsString) : looksSol (some a) = true ↔ solShape a := by
  simp [looksSol, solShape, orEmpty, isBase58Unit_iff, and_assoc]

theorem looksTon_iff (a : JsString) : looksTon (some a) = true ↔ tonShape a := by
  simp [looksTon, tonShape, orEmpty, isTonUnit_iff, and_assoc]

theorem jsTrim_nil : jsTrim [] = [] := rfl

theorem validateContract_iff (k : Option JsString) (a : Option JsString) :
    validateContract k a = true ↔ canonicalShape k (jsTrim (orEmpty a)) := by
  unfold validateContract canonicalShape
  cases k with
  | none => simp
  | some k =>
    by_cases h1 : k = js "ETH" ∨ k = js "BSC" ∨ k = js "BASE" ∨ k = js "POLY"
    · have hm : some k ∈ [some (js "ETH"), some (js "BSC"), some (js "BASE"), some (js "POLY")] := by
        simpa using h1
      simp only [h1, hm, if_true]
      exact isEvm_iff _
    · have hm : ¬ some k ∈ [some (js "ETH"), some (js "BSC"), some (js "BASE"), some (js "POLY")] := by
        simpa using h1
      simp only [h1, hm, if_false]
      by_cases h2 : k = js "SOL"
      · simp only [h2, if_true]
        exact looksSol_iff _
      · have h2b : ¬ (some k = some (js "SOL")) := by simpa using h2
        simp only [h2, h2b, if_false]
        by_cases h3 : k = js "TON"
        · simp only [h3, if_true]
          exact looksTon_iff _
        · have h3b : ¬ (some k = some (js "TON")) := by simpa using h3
          simp [h3, h3b]

/-- C6, as stated, fails: `validateContract` accepts an address that is not
`0x` followed by 40 hexadecimal characters, because it trims the address
first. Here the address starts with a space. -/
theorem validateContract_accepts_padded_address :
    validateContract (some (js "ETH")) (some (js " 0x1111111111111111111111111111111111111111")) = true ∧
    ¬ canonicalShape (some (js "ETH")) (js " 0x1111111111111111111111111111111111111111") := by
  decide

/-- C6, amended: `validateContract` returns true exactly when the address
with leading and trailing white space trimmed has the canonical shape of the
chain (`0x` and 40 hexadecimal characters for ETH, BSC, BASE, POLY; 32 to 48
base58 characters for SOL; 48 to 66 characters of `[A-Za-z0-9_-]` for TON);
it is false for every other chain key and for a null address. -/
theorem validateContract_canonical_after_trim :
    (∀ k a, validateContract k (some a) = true ↔ canonicalShape k (jsTrim a)) ∧
    (∀ k a, k ∉ [some (js "ETH"), some (js "BSC"), some (js "BASE"), some (js "POLY"),
        some (js "SOL"), some (js "TON")] → validateContract k a = false) ∧
    (∀ k, validateContract k none = false) := by
  refine ⟨fun k a => validateContract_iff k (some a), ?_, ?_⟩
  · intro k a hk
    have h := validateContract_iff k a
    have hs : ¬ canonicalShape k (jsTrim (orEmpty a)) := by
      unfold canonicalShape
      simp only [List.mem_cons, List.mem_singleton, List.not_mem_nil, or_false, not_or] at hk
      simp [hk.1, hk.2.1, hk.2.2.1, hk.2.2.2.1, hk.2.2.2.2.1, hk.2.2.2.2.2]
    cases hv : validateContract k a
    · rfl
    · exact absurd (h.mp hv) hs
  · intro k
    have h := validateContract_iff k none
    have hs : ¬ canonicalShape k (jsTrim (orEmpty none)) := by
      have : jsTrim (orEmpty none) = [] := rfl
      rw [this]
      unfold canonicalShape evmShape solShape tonShape
      split_ifs <;> simp
    cases hv : validateContract k none
    · rfl
    · exact absurd (h.mp hv) hs

/-- Witness for C6: an unknown chain key rejects a well-formed EVM address,
and a padded EVM address is accepted for `ETH`. -/
theorem validateContract_canonical_after_trim_witness :
    validateContract (some (js "DOGE")) (some (js "0x1111111111111111111111111111111111111111")) = false ∧
    (validateContract (some (js "ETH")) (some (js "0x1111111111111111111111111111111111111111 ")) = true ↔
      canonicalShape (some (js "ETH")) (jsTrim (js "0x1111111111111111111111111111111111111111 "))) :=
  ⟨validateContract_canonical_after_trim.2.1 (some (js "DOGE"))
      (some (js "0x1111111111111111111111111111111111111111")) (by decide),
   validateContract_canonical_after_trim.1 (some (js "ETH"))
      (js "0x1111111111111111111111111111111111111111 ")⟩

/-! ## Link extraction: proofs -/

theorem mem_uniq (l : List JsString) (x : JsString) : x ∈ uniq l ↔ x ∈ l := by
  induction l with
  | nil => simp [uniq]
  | cons a xs ih =>
    simp only [uniq, List.mem_cons, List.mem_filter, ih, bne_iff_ne, ne_eq]
    by_cases h : x = a
    · simp [h]
    · simp [h]

theorem uniq_nodup (l : List JsString) : (uniq l).Nodup := by
  induction l with
  | nil => simp [uniq]
  | cons a xs ih =>
    simp only [uniq, List.nodup_cons, List.mem_filter, bne_iff_ne, ne_eq, not_true_eq_false,
      and_false, not_false_eq_true, true_and]
    exact List.Nodup.sublist (List.filter_sublist _) ih

theorem uniq_pairwise (l : List JsString) :
    (uniq l).Pairwise (fun a b => firstIndex a l < firstIndex b l) := by
  induction l with
  | nil => simp [uniq]
  | cons a xs ih =>
    simp only [uniq, List.pairwise_cons, List.mem_filter, bne_iff_ne, ne_eq]
    refine ⟨?_, ?_⟩
    · intro b hb
      have hb2 : ¬ a = b := fun h => hb.2 h.symm
      simp [firstIndex, hb2]
    · have hsub := List.Pairwise.sublist (List.filter_sublist (p := fun y => y != a) (uniq xs)) ih
      refine List.Pairwise.imp_of_mem ?_ hsub
      intro x y hx hy hxy
      simp only [List.mem_filter, bne_iff_ne, ne_eq] at hx hy
      have hx2 : ¬ a = x := fun h => hx.2 h.symm
      have hy2 : ¬ a = y := fun h => hy.2 h.symm
      simpa [firstIndex, hx2, hy2] using hxy

theorem uniq_of_nodup (l : List JsString) (h : l.Nodup) : uniq l = l := by
  induction l with
  | nil => rfl
  | cons a xs ih =>
    rw [List.nodup_cons] at h
    simp only [uniq, ih h.2]
    congr 1
    rw [List.filter_eq_self]
    intro b hb
    simp only [bne_iff_ne, ne_eq]
    rintro rfl
    exact h.1 hb

theorem parseSocials_nodup (t : Option JsString) : (parseSocials t).Nodup :=
  List.Nodup.sublist (List.take_sublist _ _) (uniq_nodup _)

theorem parseSocials_length_le (t : Option JsString) : (parseSocials t).length ≤ 6 :=
  List.length_take_le _ _

theorem mem_keptOf (s x : JsString) :
    x ∈ keptOf s ↔ (isHttpUrl s = true ∧ x = s) ∨ (isTmeLink s = true ∧ x = js "https://" ++ s) := by
  unfold keptOf
  by_cases h1 : isHttpUrl s = true <;> by_cases h2 : isTmeLink s = true <;> simp [h1, h2]

theorem mem_keptLinks (t : Option JsString) (x : JsString) :
    x ∈ keptLinks t ↔ ∃ s ∈ splitWs (orEmpty t),
      (isHttpUrl s = true ∧ x = s) ∨ (isTmeLink s = true ∧ x = js "https://" ++ s) := by
  simp only [keptLinks, List.mem_flatMap, mem_keptOf]

theorem startsWithCI_of_isPrefixOf (p s : JsString) (h : p.isPrefixOf s = true) :
    startsWithCI p s = true := by
  induction p generalizing s with
  | nil => cases s <;> rfl
  | cons a ps ih =>
    cases s with
    | nil => simp [List.isPrefixOf] at h
    | cons c cs =>
      simp only [List.isPrefixOf, Bool.and_eq_true, beq_iff_eq] at h
      simp [startsWithCI, unitEqCI, h.1, ih cs h.2]

/-- C7: `parseSocials` returns at most 6 entries, no two equal; every entry
is a kept piece of the input (a piece matching `^https?://` verbatim, or a
piece matching `^t.me/` with `https://` prefixed, both matched without regard
to letter case); the entries stand in the order of their first occurrence
among the kept pieces; a kept piece is left out only when 6 entries that
occur earlier have been returned; and every piece that starts with `http://`
or `https://` is kept verbatim, every piece that starts with `t.me/` is kept
with `https://` prefixed. -/
theorem parseSocials_capped_unique_ordered (t : Option JsString) :
    (parseSocials t).length ≤ 6 ∧ (parseSocials t).Nodup ∧
    (∀ x ∈ parseSocials t, ∃ s ∈ splitWs (orEmpty t),
      (isHttpUrl s = true ∧ x = s) ∨ (isTmeLink s = true ∧ x = js "https://" ++ s)) ∧
    (parseSocials t).Pairwise (fun a b => firstIndex a (keptLinks t) < firstIndex b (keptLinks t)) ∧
    (∀ x ∈ keptLinks t, x ∉ parseSocials t →
      (parseSocials t).length = 6 ∧
      ∀ y ∈ parseSocials t, firstIndex y (keptLinks t) < firstIndex x (keptLinks t)) ∧
    (∀ s ∈ splitWs (orEmpty t),
      ((js "http://").isPrefixOf s = true ∨ (js "https://").isPrefixOf s = true) →
        s ∈ keptLinks t) ∧
    (∀ s ∈ splitWs (orEmpty t), (js "t.me/").isPrefixOf s = true →
        js "https://" ++ s ∈ keptLinks t) := by
  refine ⟨parseSocials_length_le t, parseSocials_nodup t, ?_, ?_, ?_, ?_, ?_⟩
  rotate_left 3
  · intro s hs hpre
    refine (mem_keptLinks t s).mpr ⟨s, hs, Or.inl ⟨?_, rfl⟩⟩
    unfold isHttpUrl
    rcases hpre with h | h
    · rw [startsWithCI_of_isPrefixOf _ _ h]; rfl
    · rw [startsWithCI_of_isPrefixOf _ _ h]; simp
  · intro s hs hpre
    exact (mem_keptLinks t _).mpr ⟨s, hs, Or.inr ⟨startsWithCI_of_isPrefixOf _ _ hpre, rfl⟩⟩
  · intro x hx
    have hx2 : x ∈ uniq (keptLinks t) := List.mem_of_mem_take hx
    exact (mem_keptLinks t x).mp ((mem_uniq _ _).mp hx2)
  · exact List.Pairwise.sublist (List.take_sublist _ _) (uniq_pairwise _)
  · intro x hx hnot
    have hxu : x ∈ uniq (keptLinks t) := (mem_uniq _ _).mpr hx
    have hsplit : uniq (keptLinks t) = parseSocials t ++ (uniq (keptLinks t)).drop 6 :=
      (List.take_append_drop 6 _).symm
    have hxd : x ∈ (uniq (keptLinks t)).drop 6 := by
      rw [hsplit, List.mem_append] at hxu
      exact hxu.resolve_left hnot
    have hlen : 6 < (uniq (keptLinks t)).length := by
      by_contra hle
      rw [List.drop_of_length_le (Nat.le_of_not_lt hle)] at hxd
      exact absurd hxd (List.not_mem_nil _)
    refine ⟨?_, ?_⟩
    · simp only [parseSocials, List.length_take]
      omega
    · intro y hy
      have hp := uniq_pairwise (keptLinks t)
      rw [hsplit, List.pairwise_append] at hp
      exact hp.2.2 y hy x hxd

/-- Witness for C7 on a text with a repeated link and a seventh link. -/
theorem parseSocials_capped_unique_ordered_witness :
    parseSocials (some (js "t.me/a https://b t.me/a http://c http://d http://e http://f http://g")) =
      [js "https://t.me/a", js "https://b", js "http://c", js "http://d", js "http://e", js "http://f"] ∧
    (parseSocials (some (js "t.me/a https://b t.me/a http://c http://d http://e http://f http://g"))).length = 6 :=
  ⟨by decide,
   ((parseSocials_capped_unique_ordered
      (some (js "t.me/a https://b t.me/a http://c http://d http://e http://f http://g"))).2.2.2.2.1
      (js "http://g") (by decide) (by decide)).1⟩

theorem splitWsAux_no_space (b : Bool) (s : JsString) :
    ∀ tok ∈ splitWsAux b s, ∀ c ∈ tok, isJsSpace c = false := by
  induction s generalizing b with
  | nil => simp [splitWsAux]
  | cons c rest ih =>
    intro tok htok
    unfold splitWsAux at htok
    by_cases hc : isJsSpace c = true
    · simp only [hc, if_true] at htok
      cases b with
      | true => exact ih true tok (by simpa using htok)
      | false =>
        simp only [Bool.false_eq_true, if_false, List.mem_cons] at htok
        rcases htok with rfl | h
        · simp
        · exact ih true tok h
    · have hc2 : isJsSpace c = false := by simpa using hc
      simp only [hc2, Bool.false_eq_true, if_false] at htok
      cases hrec : splitWsAux false rest with
      | nil =>
        rw [hrec] at htok
        simp only [List.mem_singleton] at htok
        rw [htok]
        intro d hd
        simp only [List.mem_singleton] at hd
        rw [hd]; exact hc2
      | cons t ts =>
        rw [hrec] at htok
        simp only [List.mem_cons] at htok
        have ihf := ih false
        rw [hrec] at ihf
        rcases htok with h | h
        · rw [h]
          intro d hd
          simp only [List.mem_cons] at hd
          rcases hd with hd | hd
          · rw [hd]; exact hc2
          · exact ihf t (List.mem_cons_self _ _) d hd
        · exact ihf tok (List.mem_cons_of_mem _ h)

theorem splitWsAux_token (tok : JsString) (h : ∀ c ∈ tok, isJsSpace c = false) :
    splitWsAux false tok = [tok] := by
  induction tok with
  | nil => rfl
  | cons c rest ih =>
    have hc : isJsSpace c = false := h c (List.mem_cons_self _ _)
    have hr := ih (fun d hd => h d (List.mem_cons_of_mem _ hd))
    simp [splitWsAux, hc, hr]

theorem splitWsAux_token_space (tok s : JsString) (h : ∀ c ∈ tok, isJsSpace c = false) :
    splitWsAux false (tok ++ 32 :: s) = tok :: splitWsAux true s := by
  induction tok with
  | nil =>
    have h32 : isJsSpace 32 = true := by decide
    simp [splitWsAux, h32]
  | cons c rest ih =>
    have hc : isJsSpace c = false := h c (List.mem_cons_self _ _)
    have hr := ih (fun d hd => h d (List.mem_cons_of_mem _ hd))
    simp [splitWsAux, hc, hr]

theorem splitWsAux_true_of_head (c : Nat) (s : JsString) (hc : isJsSpace c = false) :
    splitWsAux true (c :: s) = splitWsAux false (c :: s) := by
  simp [splitWsAux, hc]

theorem joinWith_head (x : JsString) (rest : List JsString) (hx : x ≠ []) :
    ∃ c tl, joinWith (js " ") (x :: rest) = c :: tl ∧ c ∈ x := by
  cases x with
  | nil => exact absurd rfl hx
  | cons c tl =>
    cases rest with
    | nil => exact ⟨c, tl, rfl, List.mem_cons_self _ _⟩
    | cons z zs => exact ⟨c, _, rfl, List.mem_cons_self _ _⟩

theorem splitWs_joinWith (l : List JsString) (hl : l ≠ []) (h : ∀ x ∈ l, IsToken x) :
    splitWs (joinWith (js " ") l) = l := by
  unfold splitWs
  induction l with
  | nil => exact absurd rfl hl
  | cons x rest ih =>
    have hx := h x (List.mem_cons_self _ _)
    cases rest with
    | nil => exact splitWsAux_token x hx.2
    | cons y ys =>
      have hy := h y (List.mem_cons_of_mem _ (List.mem_cons_self _ _))
      have hsp : js " " = [32] := by decide
      have hjoin : joinWith (js " ") (x :: y :: ys) = x ++ 32 :: joinWith (js " ") (y :: ys) := by
        simp [joinWith, hsp]
      rw [hjoin, splitWsAux_token_space x _ hx.2]
      obtain ⟨c, tl, hctl, hc⟩ := joinWith_head y ys hy.1
      rw [hctl, splitWsAux_true_of_head c tl (hy.2 c hc), ← hctl]
      rw [ih (List.cons_ne_nil _ _) (fun z hz => h z (List.mem_cons_of_mem _ hz))]

theorem startsWithCI_append (p s : JsString) : startsWithCI p (p ++ s) = true := by
  induction p with
  | nil => cases s <;> rfl
  | cons a ps ih => simp [startsWithCI, unitEqCI, ih]

theorem js_https : js "https://" = [104, 116, 116, 112, 115, 58, 47, 47] := by decide

theorem isHttpUrl_head (c : Nat) (s : JsString) (h : isHttpUrl (c :: s) = true) :
    c = 104 ∨ c = 72 := by
  have h1 : js "http://" = [104, 116, 116, 112, 58, 47, 47] := by decide
  unfold isHttpUrl at h
  rw [h1, js_https] at h
  simp only [startsWithCI, unitEqCI, Bool.or_eq_true, Bool.and_eq_true, beq_iff_eq,
    decide_eq_true_eq] at h
  omega

theorem isHttpUrl_props (x : JsString) (h : isHttpUrl x = true) :
    x ≠ [] ∧ isTmeLink x = false := by
  cases x with
  | nil => exact absurd h (by decide)
  | cons c s =>
    refine ⟨List.cons_ne_nil _ _, ?_⟩
    have hc := isHttpUrl_head c s h
    have h2 : js "t.me/" = [116, 46, 109, 101, 47] := by decide
    unfold isTmeLink
    rw [h2]
    cases hv : startsWithCI [116, 46, 109, 101, 47] (c :: s)
    · rfl
    · simp only [startsWithCI, unitEqCI, Bool.or_eq_true, Bool.and_eq_true, beq_iff_eq,
        decide_eq_true_eq] at hv
      omega

theorem parseSocials_entry (t : Option JsString) (x : JsString) (hx : x ∈ parseSocials t) :
    IsToken x ∧ isHttpUrl x = true ∧ isTmeLink x = false := by
  obtain ⟨s, hs, hcase⟩ := (mem_keptLinks t x).mp ((mem_uniq _ _).mp (List.mem_of_mem_take hx))
  have hns := splitWsAux_no_space false (orEmpty t) s hs
  rcases hcase with ⟨hh, rfl⟩ | ⟨_, rfl⟩
  · have hp := isHttpUrl_props x hh
    exact ⟨⟨hp.1, hns⟩, hh, hp.2⟩
  · have hh : isHttpUrl (js "https://" ++ s) = true := by
      unfold isHttpUrl
      rw [startsWithCI_append (js "https://") s]
      simp
    have hp := isHttpUrl_props _ hh
    refine ⟨⟨hp.1, ?_⟩, hh, hp.2⟩
    intro c hc
    rw [List.mem_append] at hc
    rcases hc with hc | hc
    · rw [js_https] at hc
      simp only [List.mem_cons, List.mem_singleton, List.not_mem_nil, or_false] at hc
      rcases hc with rfl | rfl | rfl | rfl | rfl | rfl | rfl | rfl <;> decide
    · exact hns c hc

theorem flatMap_keptOf_self (l : List JsString)
    (h : ∀ x ∈ l, isHttpUrl x = true ∧ isTmeLink x = false) : l.flatMap keptOf = l := by
  induction l with
  | nil => rfl
  | cons a xs ih =>
    have ha := h a (List.mem_cons_self _ _)
    rw [List.flatMap_cons, ih (fun x hx => h x (List.mem_cons_of_mem _ hx))]
    simp [keptOf, ha.1, ha.2]

/-- C8: `parseSocials` applied to its own output joined by single spaces
returns that output again, same entries in the same order; an empty output
joins to the empty string, which gives the empty output. -/
theorem parseSocials_idempotent (t : Option JsString) :
    parseSocials (some (joinWith (js " ") (parseSocials t))) = parseSocials t := by
  by_cases hnil : parseSocials t = []
  · rw [hnil]
    decide
  · have hent := parseSocials_entry t
    have hsplit : splitWs (joinWith (js " ") (parseSocials t)) = parseSocials t :=
      splitWs_joinWith _ hnil (fun x hx => (hent x hx).1)
    have hkept : keptLinks (some (joinWith (js " ") (parseSocials t))) = parseSocials t := by
      unfold keptLinks
      simp only [orEmpty]
      rw [hsplit]
      exact flatMap_keptOf_self _ (fun x hx => (hent x hx).2)
    have h1 : parseSocials (some (joinWith (js " ") (parseSocials t))) =
        (uniq (parseSocials t)).take 6 := by
      show (uniq (keptLinks (some (joinWith (js " ") (parseSocials t))))).take 6 = _
      rw [hkept]
    rw [h1, uniq_of_nodup _ (parseSocials_nodup t),
      List.take_of_length_le (parseSocials_length_le t)]

/-! ## Rendering: proofs -/

theorem replaceUnit_replicate (c a n : Nat) (rep : JsString) (h : a ≠ c) :
    replaceUnit c rep (List.replicate n a) = List.replicate n a := by
  induction n with
  | zero => rfl
  | succ n ih =>
    unfold replaceUnit at ih ⊢
    rw [List.replicate_succ, List.flatMap_cons, ih]
    simp [h]

theorem replaceUnit_append (c : Nat) (rep s t : JsString) :
    replaceUnit c rep (s ++ t) = replaceUnit c rep s ++ replaceUnit c rep t := by
  unfold replaceUnit
  exact List.flatMap_append _ _ _

theorem escapeHtml_letters_lt (n : Nat) :
    escapeHtml (some (List.replicate n 97 ++ js "<")) = List.replicate n 97 ++ js "&lt;" := by
  unfold escapeHtml
  simp only [orEmpty, replaceUnit_append, replaceUnit_replicate 38 97 n _ (by decide),
    replaceUnit_replicate 60 97 n _ (by decide), replaceUnit_replicate 62 97 n _ (by decide)]
  congr 1

theorem take_letters_entity (n : Nat) :
    sliceTo (n + 1) (List.replicate n 97 ++ js "&lt;") = List.replicate n 97 ++ js "&" := by
  have h4 : js "&lt;" = [38] ++ [108, 116, 59] := by decide
  have h1 : js "&" = [38] := by decide
  have hlen : (List.replicate n 97 ++ [38] : List Nat).length = n + 1 := by simp
  unfold sliceTo
  rw [h4, h1, ← List.append_assoc, List.take_append_of_le_length (by rw [hlen]),
    List.take_of_length_le (by rw [hlen])]

/-! ## The conversation: proofs -/

theorem validateContract_none (a : Option JsString) : validateContract none a = false := rfl

theorem sessionInv_onSubmit (sess : Session) : SessionInv (onSubmit sess).session := by
  constructor
  · intro f hf
    simp only [onSubmit, Option.some.injEq] at hf
    subst hf
    exact Or.inl rfl
  · intro n hn h3
    simp only [onSubmit, Option.some.injEq, Steps.CHAIN] at hn
    omega

theorem sessionInv_onChainSelect (data : JsString) (sess : Session) (h : SessionInv sess) :
    SessionInv (onChainSelect data sess).session := by
  unfold onChainSelect
  simp only
  split
  · exact h
  · rename_i chain hfind
    split
    · exact h
    · constructor
      · intro g hg
        simp only [Option.some.injEq] at hg
        subst hg
        exact Or.inr ⟨chain, List.mem_of_find?_eq_some hfind, rfl, rfl⟩
      · intro n hn h3
        simp only [Option.some.injEq, Steps.CONTRACT] at hn
        omega

theorem onConfirm_session (env : Env) (ctx : Ctx) (sess : Session) :
    (onConfirm env ctx sess).session = sess := by
  unfold onConfirm
  split
  · rfl
  · split
    · rfl
    · split
      · rfl
      · split <;> rfl

theorem sessionInv_onEdit (ctx : Ctx) (sess : Session) (h : SessionInv sess) :
    SessionInv (onEdit ctx sess).session := by
  unfold onEdit
  split
  · exact h
  · constructor
    · intro f hf
      exact h.1 f hf
    · intro n hn h3
      simp only [Option.some.injEq, Steps.CHAIN] at hn
      omega

theorem sessionInv_onCallback (env : Env) (ctx : Ctx) (data : Option JsString) (sess : Session)
    (h : SessionInv sess) : SessionInv (onCallback env ctx data sess).session := by
  unfold onCallback
  simp only
  split
  · exact sessionInv_onChainSelect _ _ h
  · split
    · rw [onConfirm_session]; exact h
    · split
      · exact sessionInv_onEdit _ _ h
      · exact h

theorem sessionInv_onText (message : Option JsString) (sess : Session) (h : SessionInv sess) :
    SessionInv (onText message sess).session := by
  unfold onText
  simp only
  split
  · -- CONTRACT
    cases hform : sess.form with
    | none => simpa [hform] using h
    | some f =>
      simp only
      split
      · exact h
      · rename_i hv
        have hv2 : validateContract f.chainKey (some (jsTrim (orEmpty message))) = true := by
          simpa using hv
        constructor
        · intro g hg
          simp only [Option.some.injEq] at hg
          subst hg
          exact h.1 f hform
        · intro n _ _
          exact ⟨_, _, rfl, rfl, hv2⟩
  · split
    · -- DESC
      rename_i hstep
      cases hform : sess.form with
      | none => simpa [hform] using h
      | some f =>
        simp only
        constructor
        · intro g hg
          simp only [Option.some.injEq] at hg
          subst hg
          exact h.1 f hform
        · intro n _ _
          have hs : sess.step = some Steps.DESC := by
            cases hst : sess.step with
            | none => simp [hst, Steps.NONE, Steps.DESC] at hstep
            | some m => simp [hst] at hstep; rw [hstep]
          obtain ⟨f2, a, hf2, ha, hval⟩ := h.2 _ hs (by decide)
          rw [hform] at hf2
          cases hf2
          exact ⟨_, a, rfl, ha, hval⟩
    · split
      · -- SOCIALS
        rename_i hstep
        split
        · exact h
        · cases hform : sess.form with
          | none => simpa [hform] using h
          | some f =>
            simp only
            constructor
            · intro g hg
              simp only [Option.some.injEq] at hg
              subst hg
              exact h.1 f hform
            · intro n _ _
              have hs : sess.step = some Steps.SOCIALS := by
                cases hst : sess.step with
                | none => simp [hst, Steps.NONE, Steps.SOCIALS] at hstep
                | some m => simp [hst] at hstep; rw [hstep]
              obtain ⟨f2, a, hf2, ha, hval⟩ := h.2 _ hs (by decide)
              rw [hform] at hf2
              cases hf2
              exact ⟨_, a, rfl, ha, hval⟩
      · split
        · -- CHART
          rename_i hstep
          split
          · exact h
          · cases hform : sess.form with
            | none => simpa [hform] using h
            | some f =>
              simp only
              constructor
              · intro g hg
                simp only [Option.some.injEq] at hg
                subst hg
                exact h.1 f hform
              · intro n _ _
                have hs : sess.step = some Steps.CHART := by
                  cases hst : sess.step with
                  | none => simp [hst, Steps.NONE, Steps.CHART] at hstep
                  | some m => simp [hst] at hstep; rw [hstep]
                obtain ⟨f2, a, hf2, ha, hval⟩ := h.2 _ hs (by decide)
                rw [hform] at hf2
                cases hf2
                exact ⟨_, a, rfl, ha, hval⟩
        · exact h

theorem sessionInv_handleBot (env : Env) (ctx : Ctx) (ev : BotEvent) (sess : Session)
    (h : SessionInv sess) : SessionInv (handleBot env ctx ev sess).session := by
  cases ev with
  | submit => exact sessionInv_onSubmit sess
  | callback data => exact sessionInv_onCallback env ctx data sess h
  | text message => exact sessionInv_onText message sess h

theorem sessionInv_runBot (env : Env) (evs : List (Ctx × BotEvent)) (sess : Session) (st : Store)
    (h : SessionInv sess) : SessionInv (runBot env evs (sess, st)).1 := by
  induction evs generalizing sess st with
  | nil => exact h
  | cons e rest ih =>
    obtain ⟨ctx, ev⟩ := e
    exact ih _ _ (sessionInv_handleBot env ctx ev sess h)

theorem handleBot_confirm (env : Env) (ctx : Ctx) (sess : Session) :
    handleBot env ctx confirmEvent sess = onConfirm env ctx sess := by
  show onCallback env ctx (some (js "confirm_pay")) sess = _
  unfold onCallback
  have h1 : (js "chain_").isPrefixOf (js "confirm_pay") = false := by decide
  simp only [orEmpty, h1, Bool.false_eq_true, if_false, if_true]

theorem onConfirm_insert (env : Env) (ctx : Ctx) (sess : Session) (r : Row)
    (h : Effect.insert r ∈ (onConfirm env ctx sess).effects) :
    ∃ f, sess.form = some f ∧ r = pendingRow env ctx f := by
  unfold onConfirm at h
  split at h
  · simp at h
  · split at h
    · simp at h
    · rename_i f hf
      refine ⟨f, hf, ?_⟩
      split at h
      · simpa using h
      · split at h
        · simpa using h
        · simpa using h

theorem execEffect_insert_fresh (st : Store) (r : Row) (h : ∀ x ∈ st, x.id ≠ r.id) :
    execEffect st (.insert r) = st ++ [r] := by
  have : st.any (fun x => x.id == r.id) = false := by
    rw [List.any_eq_false]
    intro x hx
    simpa using h x hx
  simp [execEffect, this]

theorem execEffect_setCharge_last (st : Store) (r : Row) (c : Option JsString)
    (h : ∀ x ∈ st, x.id ≠ r.id) :
    execEffect (st ++ [r]) (.setCharge c r.id) = st ++ [{ r with charge_id := c }] := by
  simp only [execEffect, List.map_append, List.map_cons, List.map_nil, beq_self_eq_true, if_true]
  congr 1
  conv_rhs => rw [← List.map_id st]
  apply List.map_congr_left
  intro x hx
  simp [h x hx]

theorem onConfirm_exec (env : Env) (ctx : Ctx) (sess : Session) (f : Form) (st : Store)
    (hform : sess.form = some f) (hack : ctx.ackOk = true) (hfresh : ∀ x ∈ st, x.id ≠ ctx.uuid) :
    (onConfirm env ctx sess).threw = false ∧
    (onConfirm env ctx sess).effects.countP Effect.isInsert = 1 ∧
    execEffects st (onConfirm env ctx sess).effects =
      st ++ [{ pendingRow env ctx f with
        charge_id := if f.contract.isSome = true ∧ truthyStr env.COINBASE_API_KEY = true
          then ctx.chargeReply.bind Charge.id else none }] := by
  have hrow : (pendingRow env ctx f).id = ctx.uuid := rfl
  have hfresh2 : ∀ x ∈ st, x.id ≠ (pendingRow env ctx f).id := hfresh
  unfold onConfirm
  simp only [hack, hform, Bool.not_true, Bool.false_eq_true, if_false]
  split
  · rename_i hc
    refine ⟨rfl, rfl, ?_⟩
    simp only [execEffects, List.foldl_cons, List.foldl_nil]
    rw [execEffect_insert_fresh _ _ hfresh2]
    simp [hc, pendingRow]
  · rename_i a hc
    split
    · rename_i hcharge
      refine ⟨rfl, rfl, ?_⟩
      simp only [execEffects, List.foldl_cons, List.foldl_nil]
      rw [execEffect_insert_fresh _ _ hfresh2]
      have hcid : (if f.contract.isSome = true ∧ truthyStr env.COINBASE_API_KEY = true
          then ctx.chargeReply.bind Charge.id else none) = none := by
        unfold createCoinbaseCharge at hcharge
        by_cases hk : truthyStr env.COINBASE_API_KEY = true
        · rw [if_pos hk] at hcharge
          simp [hcharge]
        · simp [hk]
      rw [hcid]
      rfl
    · rename_i charge hcharge
      refine ⟨rfl, rfl, ?_⟩
      simp only [execEffects, List.foldl_cons, List.foldl_nil]
      rw [execEffect_insert_fresh _ _ hfresh2]
      have hcid : (if f.contract.isSome = true ∧ truthyStr env.COINBASE_API_KEY = true
          then ctx.chargeReply.bind Charge.id else none) = charge.id := by
        unfold createCoinbaseCharge at hcharge
        by_cases hk : truthyStr env.COINBASE_API_KEY = true
        · rw [if_pos hk] at hcharge
          simp [hcharge, hc, hk]
        · rw [if_neg hk] at hcharge
          cases hcharge
      rw [hcid]
      exact execEffect_setCharge_last st (pendingRow env ctx f) charge.id hfresh2

/-- For a session object that satisfies `SessionInv`, a record inserted by a
confirm action that is handled while the step is `DESC` or later stores the
label of a chain of `CHAINS` and a contract that `validateContract` accepts
for the key of that chain. -/
theorem onConfirm_stores_validated_contract (env : Env) (ctx : Ctx) (sess : Session)
    (n : Nat) (r : Row) (hinv : SessionInv sess)
    (hstep : sess.step = some n) (h3 : Steps.DESC ≤ n)
    (hins : Effect.insert r ∈ (handleBot env ctx confirmEvent sess).effects) :
    ∃ c ∈ CHAINS, r.chain = some c.2 ∧ validateContract (some c.1) r.contract = true := by
  rw [handleBot_confirm] at hins
  obtain ⟨f, hf, rfl⟩ := onConfirm_insert env ctx _ r hins
  obtain ⟨f2, a, hf2, ha, hval⟩ := hinv.2 n hstep h3
  rw [hf] at hf2
  cases hf2
  rcases hinv.1 f hf with hnone | ⟨c, hc, hchain, hkey⟩
  · rw [hnone, validateContract_none] at hval
    cases hval
  · refine ⟨c, hc, hchain, ?_⟩
    show validateContract (some c.1) f.contract = true
    rw [ha, ← hkey]
    exact hval

theorem handleUpdate_none (env : Env) (ctx : Ctx) (ev : BotEvent) :
    (handleUpdate env ctx ev none).session = none ∧
    (handleUpdate env ctx ev none).effects = [] := by
  cases ev with
  | submit => exact ⟨rfl, rfl⟩
  | text message => exact ⟨rfl, rfl⟩
  | callback data =>
    simp only [handleUpdate]
    split
    · split <;> exact ⟨rfl, rfl⟩
    · split
      · exact ⟨rfl, rfl⟩
      · split <;> exact ⟨rfl, rfl⟩

theorem chatEffects_none (env : Env) (evs : List (Ctx × BotEvent)) :
    chatEffects env evs none = [] := by
  induction evs with
  | nil => rfl
  | cons e rest ih =>
    obtain ⟨ctx, ev⟩ := e
    simp only [chatEffects]
    rw [(handleUpdate_none env ctx ev).1, (handleUpdate_none env ctx ev).2, ih]
    rfl

/-- The table after a run of a chat is the table after the statements of its
trace. -/
theorem runChat_store (env : Env) (evs : List (Ctx × BotEvent)) (slot : Option Session)
    (st : Store) : (runChat env evs (slot, st)).2 = execEffects st (chatEffects env evs slot) := by
  induction evs generalizing slot st with
  | nil => rfl
  | cons e rest ih =>
    obtain ⟨ctx, ev⟩ := e
    simp only [runChat, chatEffects]
    rw [ih]
    simp [execEffects, List.foldl_append]

theorem runChat_none (env : Env) (evs : List (Ctx × BotEvent)) (st : Store) :
    runChat env evs (none, st) = (none, st) := by
  induction evs with
  | nil => rfl
  | cons e rest ih =>
    obtain ⟨ctx, ev⟩ := e
    simp only [runChat]
    rw [(handleUpdate_none env ctx ev).1, (handleUpdate_none env ctx ev).2]
    exact ih

/-- An update of a chat that has a session object is handled by `handleBot`
on that object. -/
theorem handleUpdate_some (env : Env) (ctx : Ctx) (ev : BotEvent) (sess : Session) :
    (handleUpdate env ctx ev (some sess)).session = some (handleBot env ctx ev sess).session ∧
    (handleUpdate env ctx ev (some sess)).effects = (handleBot env ctx ev sess).effects ∧
    (handleUpdate env ctx ev (some sess)).threw = (handleBot env ctx ev sess).threw :=
  ⟨rfl, rfl, rfl⟩

/-- In a chat without a session, `/submit`, a text message, the selection of
a known chain, the confirm action and the edit action all throw. -/
theorem handleUpdate_none_throws (env : Env) (ctx : Ctx) (message : Option JsString) :
    (handleUpdate env ctx .submit none).threw = true ∧
    (handleUpdate env ctx (.text message) none).threw = true ∧
    (handleUpdate env ctx (chainEvent (js "ETH")) none).threw = true ∧
    (handleUpdate env ctx confirmEvent none).threw = true ∧
    (handleUpdate env ctx editEvent none).threw = true :=
  ⟨rfl, rfl, rfl, rfl, rfl⟩

/-- C3: for every sequence of conversation updates of a chat that starts
from a fresh session, every submission record inserted has the label of a
chain of `CHAINS` and a contract that `validateContract` accepts for the key
of that chain. A fresh chat has no session object (`session()` is registered
without a default), every handler that reads or writes `ctx.session` throws,
and so the claim holds because no record is inserted at all: the list of the
inserted records is empty, the chat still has no session afterwards and the
table is as it was. -/
theorem fresh_session_inserts_only_validated_contracts (env : Env)
    (evs : List (Ctx × BotEvent)) (st : Store) :
    (∀ r ∈ insertedRows (chatEffects env evs none),
      ∃ c ∈ CHAINS, r.chain = some c.2 ∧ validateContract (some c.1) r.contract = true) ∧
    insertedRows (chatEffects env evs none) = [] ∧
    runChat env evs (none, st) = (none, st) := by
  refine ⟨?_, ?_, runChat_none env evs st⟩
  · intro r hr
    rw [chatEffects_none] at hr
    cases hr
  · rw [chatEffects_none]
    rfl

/-- Evaluation for C3: the updates of a whole intake, and those of an intake
that switches the chain and confirms, leave a fresh chat without a session
and the table empty. -/
theorem fresh_session_inserts_only_validated_contracts_witness :
    insertedRows (chatEffects sampleEnv chainSwitchRun none) = [] ∧
    runChat sampleEnv chainSwitchRun (none, []) = (none, []) ∧
    runChat sampleEnv happyPath (none, []) = (none, []) :=
  ⟨(fresh_session_inserts_only_validated_contracts sampleEnv chainSwitchRun []).2.1,
   (fresh_session_inserts_only_validated_contracts sampleEnv chainSwitchRun []).2.2,
   (fresh_session_inserts_only_validated_contracts sampleEnv happyPath []).2.2⟩

/-- C4, as stated, fails: the confirm action leaves the session in the
review step with its draft, and a second confirm action right after it
inserts a second pending submission. -/
theorem confirm_twice_inserts_twice :
    (handleBot sampleEnv (sampleCtx (js "id-1")) confirmEvent reviewSession).session.step =
      some Steps.REVIEW ∧
    (handleBot sampleEnv (sampleCtx (js "id-1")) confirmEvent reviewSession).session.form =
      some reviewForm ∧
    (runBot sampleEnv [(sampleCtx (js "id-1"), confirmEvent), (sampleCtx (js "id-2"), confirmEvent)]
        (reviewSession, [])).2.map (fun r => (r.id, r.status)) =
      [(js "id-1", js "pending"), (js "id-2", js "pending")] := by
  decide

/-- C4, amended: for every session in the review step with a draft `f`, the
confirm action, when its callback acknowledgement succeeds and the generated
id is new, does not throw, leaves the session as it is (step `REVIEW`, draft
kept) and inserts exactly one submission: status `pending`, the generated id,
the id and the user name of the sender, the chain, contract and description
of the draft, its socials as JSON (`[]` without socials), its chart link (the
empty string without one), the current price, and as charge id the id of the
created charge (none when the draft has no contract or no charge is
created). A second confirm action right after it inserts one further such
submission from the same draft under its own id. -/
theorem confirm_in_review_inserts_and_keeps_session (env : Env) (ctx1 ctx2 : Ctx)
    (sess : Session) (f : Form) (st : Store)
    (hstep : sess.step = some Steps.REVIEW) (hform : sess.form = some f)
    (hack1 : ctx1.ackOk = true) (hack2 : ctx2.ackOk = true)
    (hfresh1 : ∀ x ∈ st, x.id ≠ ctx1.uuid) (hfresh2 : ∀ x ∈ st, x.id ≠ ctx2.uuid)
    (hne : ctx1.uuid ≠ ctx2.uuid) :
    (handleBot env ctx1 confirmEvent sess).session = sess ∧
    (handleBot env ctx1 confirmEvent sess).session.step = some Steps.REVIEW ∧
    (handleBot env ctx1 confirmEvent sess).session.form = some f ∧
    (handleBot env ctx1 confirmEvent sess).threw = false ∧
    (handleBot env ctx1 confirmEvent sess).effects.countP Effect.isInsert = 1 ∧
    (handleBot env ctx2 confirmEvent sess).effects.countP Effect.isInsert = 1 ∧
    execEffects st (handleBot env ctx1 confirmEvent sess).effects =
      st ++ [{ id := ctx1.uuid, user_id := ctx1.from_id, username := orEmpty ctx1.username,
               chain := f.chain, contract := f.contract, description := f.description,
               socials := some (env.jsonStringify (f.socials.getD [])),
               chart_url := some (orEmpty f.chart_url), price_usd := ctx1.price,
               status := js "pending",
               charge_id := if f.contract.isSome = true ∧ truthyStr env.COINBASE_API_KEY = true
                 then ctx1.chargeReply.bind Charge.id else none,
               created_at := ctx1.now }] ∧
    runBot env [(ctx1, confirmEvent), (ctx2, confirmEvent)] (sess, st) =
      (sess, st ++
        [{ id := ctx1.uuid, user_id := ctx1.from_id, username := orEmpty ctx1.username,
           chain := f.chain, contract := f.contract, description := f.description,
           socials := some (env.jsonStringify (f.socials.getD [])),
           chart_url := some (orEmpty f.chart_url), price_usd := ctx1.price,
           status := js "pending",
           charge_id := if f.contract.isSome = true ∧ truthyStr env.COINBASE_API_KEY = true
             then ctx1.chargeReply.bind Charge.id else none,
           created_at := ctx1.now },
         { id := ctx2.uuid, user_id := ctx2.from_id, username := orEmpty ctx2.username,
           chain := f.chain, contract := f.contract, description := f.description,
           socials := some (env.jsonStringify (f.socials.getD [])),
           chart_url := some (orEmpty f.chart_url), price_usd := ctx2.price,
           status := js "pending",
           charge_id := if f.contract.isSome = true ∧ truthyStr env.COINBASE_API_KEY = true
             then ctx2.chargeReply.bind Charge.id else none,
           created_at := ctx2.now }]) := by
  simp only [handleBot_confirm, runBot, onConfirm_session]
  obtain ⟨ht1, hc1, he1⟩ := onConfirm_exec env ctx1 sess f st hform hack1 hfresh1
  have hfresh2b : ∀ x ∈ st ++ [{ pendingRow env ctx1 f with
      charge_id := if f.contract.isSome = true ∧ truthyStr env.COINBASE_API_KEY = true
        then ctx1.chargeReply.bind Charge.id else none }], x.id ≠ ctx2.uuid := by
    intro x hx
    rw [List.mem_append, List.mem_singleton] at hx
    rcases hx with hx | hx
    · exact hfresh2 x hx
    · rw [hx]; exact hne
  obtain ⟨_, _, he2⟩ := onConfirm_exec env ctx2 sess f _ hform hack2 hfresh2b
  obtain ⟨_, hc2, _⟩ := onConfirm_exec env ctx2 sess f st hform hack2 hfresh2
  refine ⟨trivial, hstep, hform, ht1, hc1, hc2, ?_, ?_⟩
  · rw [he1]
    rfl
  · rw [he1, he2]
    simp [pendingRow]

/-- Witness for C4: a session in the review step with a complete draft,
confirmed twice; the first confirm stores the submission `sampleRow`. -/
theorem confirm_in_review_inserts_and_keeps_session_witness :
    reviewSession.step = some Steps.REVIEW ∧ reviewSession.form = some reviewForm ∧
    (handleBot sampleEnv (sampleCtx (js "id-1")) confirmEvent reviewSession).session =
      reviewSession ∧
    execEffects [] (handleBot sampleEnv (sampleCtx (js "id-1")) confirmEvent reviewSession).effects =
      [sampleRow] ∧
    (runBot sampleEnv [(sampleCtx (js "id-1"), confirmEvent), (sampleCtx (js "id-2"), confirmEvent)]
        (reviewSession, [])).2 = [sampleRow, { sampleRow with id := js "id-2" }] := by
  have h := confirm_in_review_inserts_and_keeps_session sampleEnv (sampleCtx (js "id-1"))
    (sampleCtx (js "id-2")) reviewSession reviewForm [] (by decide) (by decide)
    (by decide) (by decide) (by simp) (by simp) (by decide)
  refine ⟨by decide, by decide, h.1, ?_, ?_⟩
  · rw [h.2.2.2.2.2.2.1]
    rfl
  · rw [h.2.2.2.2.2.2.2]
    rfl

/-! ## The webhook: proofs -/

theorem utf8From_ascii (s : JsString) (h : ∀ c ∈ s, c < 128) : utf8From none s = s := by
  induction s with
  | nil => rfl
  | cons c rest ih =>
    have hc : c < 128 := h c (List.mem_cons_self _ _)
    have hr := ih (fun d hd => h d (List.mem_cons_of_mem _ hd))
    have h1 : ¬ (55296 ≤ c ∧ c < 56320) := by omega
    simp [utf8From, h1, utf8Unit, hc, hr]

theorem hexDigit_lt (n : Nat) (h : n < 16) : hexDigit n < 128 := by
  unfold hexDigit
  split <;> omega

theorem hexEncode_ascii (bytes : List Nat) : ∀ c ∈ hexEncode bytes, c < 128 := by
  intro c hc
  simp only [hexEncode, List.mem_flatMap, List.mem_cons, List.mem_singleton, List.not_mem_nil,
    or_false] at hc
  obtain ⟨b, _, hb | hb⟩ := hc
  · rw [hb]; exact hexDigit_lt _ (Nat.mod_lt _ (by decide))
  · rw [hb]; exact hexDigit_lt _ (Nat.mod_lt _ (by decide))

theorem hexEncode_length (bytes : List Nat) : (hexEncode bytes).length = 2 * bytes.length := by
  induction bytes with
  | nil => rfl
  | cons b rest ih =>
    simp only [hexEncode, List.flatMap_cons, List.length_append, List.length_cons,
      List.length_nil] at ih ⊢
    omega

theorem bufferFrom_digest (env : Env) (k : JsString) (m : List Nat) :
    bufferFrom (hexEncode (env.hmacSha256 k m)) = hexEncode (env.hmacSha256 k m) ∧
    (bufferFrom (hexEncode (env.hmacSha256 k m))).length = 64 := by
  have h1 : bufferFrom (hexEncode (env.hmacSha256 k m)) = hexEncode (env.hmacSha256 k m) :=
    utf8From_ascii _ (hexEncode_ascii _)
  refine ⟨h1, ?_⟩
  rw [h1, hexEncode_length, env.hmac_size]

theorem timingSafeEqual_self (a : List Nat) : timingSafeEqual a a = some true := by
  simp [timingSafeEqual]

theorem verifyCoinbase_signed (env : Env) (bytes : List Nat)
    (hsec : truthyStr env.COINBASE_WEBHOOK_SECRET = true) :
    verifyCoinbase env (.buffer bytes)
      (some (hexEncode (env.hmacSha256 (orEmpty env.COINBASE_WEBHOOK_SECRET) bytes))) = some true := by
  simp only [verifyCoinbase, hsec, if_true, orEmpty]
  exact timingSafeEqual_self _

theorem webhook_confirmed (env : Env) (deliver : Dest → Bool) (st : Store) (req : Request)
    (S : JsString) (h : ConfirmedDelivery env req S) :
    webhook env deliver st req =
      { response := ⟨200, js "ok"⟩
        effects := onPaymentRow env deliver S (selectById st S)
        store := execEffects st (onPaymentRow env deliver S (selectById st S)) } := by
  obtain ⟨hsec, hS, bytes, ev, t, hbody, hsig, hparse, htype, ht, hid⟩ := h
  have hver : verifyCoinbase env (.buffer bytes) (some (orEmpty req.signature)) = some true := by
    rw [hsig]
    exact verifyCoinbase_signed env bytes hsec
  have htruthy : truthy (some (JVal.str S)) = true := by
    simpa [truthy] using hS
  have htt : (decide (t = js "charge:confirmed") || decide (t = js "charge:resolved")) = true := by
    rcases ht with ht | ht <;> simp [ht]
  unfold webhook
  simp only [hver, hbody, hparse, htype, hid, htruthy, htt, Bool.and_self, if_true, sqlKey]

theorem execEffects_sends (st : Store) (es : List Effect) (h : ∀ e ∈ es, e.isSend = true) :
    execEffects st es = st := by
  induction es with
  | nil => rfl
  | cons e rest ih =>
    have he := h e (List.mem_cons_self _ _)
    have hr := ih (fun x hx => h x (List.mem_cons_of_mem _ hx))
    cases e with
    | send d c t i =>
      simp only [execEffects, List.foldl_cons, execEffect] at hr ⊢
      exact hr
    | insert r => simp [Effect.isSend] at he
    | setCharge c id => simp [Effect.isSend] at he
    | setStatus s k => simp [Effect.isSend] at he

theorem fanOut_sends (env : Env) (deliver : Dest → Bool) (row : Row) :
    ∀ e ∈ fanOut env deliver row, e.isSend = true := by
  intro e he
  unfold fanOut at he
  split at he
  · simp at he
  · simp only at he
    split at he
    · simp only [List.mem_singleton] at he; rw [he]; rfl
    · split at he
      · split at he
        · simp only [List.mem_cons, List.mem_singleton, List.not_mem_nil, or_false] at he
          rcases he with he | he <;> rw [he] <;> rfl
        · simp only [List.mem_cons, List.mem_singleton, List.not_mem_nil, or_false] at he
          rcases he with he | he | he <;> rw [he] <;> rfl
      · simp only [List.mem_cons, List.mem_singleton, List.not_mem_nil, or_false] at he
        rcases he with he | he <;> rw [he] <;> rfl

theorem fanOut_no_statusWrite (env : Env) (deliver : Dest → Bool) (row : Row) :
    (fanOut env deliver row).countP Effect.isStatusWrite = 0 := by
  rw [List.countP_eq_zero]
  intro e he
  have := fanOut_sends env deliver row e he
  cases e <;> simp_all [Effect.isSend, Effect.isStatusWrite]

theorem selectById_map (st : Store) (S : JsString) (f : Row → Row) (hf : ∀ r, (f r).id = r.id) :
    selectById (st.map f) S = (selectById st S).map f := by
  unfold selectById
  induction st with
  | nil => rfl
  | cons r rest ih =>
    simp only [List.map_cons, List.find?_cons, hf]
    cases hb : (r.id == S)
    · exact ih
    · rfl

theorem selectById_setStatus (st : Store) (S s : JsString) (row : Row)
    (h : selectById st S = some row) :
    selectById (execEffect st (.setStatus s S)) S = some { row with status := s } := by
  have hid : row.id = S := by
    have := List.find?_some h
    simpa using this
  simp only [execEffect]
  rw [selectById_map _ _ _ (by intro r; split <;> rfl), h]
  simp [hid]

theorem onPaymentRow_pending (env : Env) (deliver : Dest → Bool) (S : JsString) (row : Row)
    (hpend : row.status = js "pending") :
    onPaymentRow env deliver S (some row) =
      Effect.setStatus (js "paid") S :: fanOut env deliver row := by
  have : ¬ row.status = js "paid" := by rw [hpend]; decide
  simp [onPaymentRow, this]

theorem exec_onPaymentRow_pending (env : Env) (deliver : Dest → Bool) (st : Store)
    (S : JsString) (row : Row) :
    execEffects st (Effect.setStatus (js "paid") S :: fanOut env deliver row) =
      execEffect st (.setStatus (js "paid") S) := by
  show execEffects (execEffect st (.setStatus (js "paid") S)) (fanOut env deliver row) = _
  exact execEffects_sends _ _ (fanOut_sends env deliver row)

theorem fanOut_primary_le (env : Env) (deliver : Dest → Bool) (row : Row) :
    (fanOut env deliver row).countP (Effect.isSendTo .primary) ≤ 1 := by
  unfold fanOut
  split
  · simp
  · simp only
    split
    · simp [List.countP_cons, Effect.isSendTo]
    · split
      · split <;> simp [List.countP_cons, Effect.isSendTo]
      · simp [List.countP_cons, Effect.isSendTo]

theorem fanOut_counts (env : Env) (deliver : Dest → Bool) (row : Row) (payload : Payload)
    (h : fmtSubmissionHTML env row.view = some payload) :
    (fanOut env deliver row).countP (Effect.isSendTo .primary) = 1 ∧
    (fanOut env deliver row).countP (Effect.isSendTo .secondary) =
      (if truthyStr env.ALT_GROUP_ID && deliver .primary then 1 else 0) ∧
    (fanOut env deliver row).countP (Effect.isSendTo .requester) =
      (if deliver .primary && (!truthyStr env.ALT_GROUP_ID || deliver .secondary) then 1 else 0) := by
  unfold fanOut
  simp only [h]
  cases hp : deliver .primary <;> cases ha : truthyStr env.ALT_GROUP_ID <;>
    cases hs : deliver .secondary <;> simp [List.countP_cons, Effect.isSendTo]

theorem sampleRequest_confirmed : ConfirmedDelivery sampleEnv sampleRequest (js "id-1") :=
  ⟨by decide, by decide, sampleBody, sampleEvent, js "charge:confirmed", rfl, rfl, rfl,
    rfl, Or.inl rfl, rfl⟩

/-- C1: for a store whose submission `S` is pending and a validly signed
`charge:confirmed`/`charge:resolved` event for `S`, two handlings in sequence
answer 200 `ok` both times; the first issues the one status write
(pending to paid) followed by the one run of the posting fan-out; the
second has no effect at all and leaves the store as the first left it. -/
theorem webhook_idempotent (env : Env) (d1 d2 : Dest → Bool) (st : Store) (req : Request)
    (S : JsString) (row : Row)
    (hreq : ConfirmedDelivery env req S) (hrow : selectById st S = some row)
    (hpend : row.status = js "pending") :
    (webhook env d1 st req).response = ⟨200, js "ok"⟩ ∧
    (webhook env d2 (webhook env d1 st req).store req).response = ⟨200, js "ok"⟩ ∧
    (webhook env d1 st req).effects = Effect.setStatus (js "paid") S :: fanOut env d1 row ∧
    (webhook env d2 (webhook env d1 st req).store req).effects = [] ∧
    (webhook env d2 (webhook env d1 st req).store req).store = (webhook env d1 st req).store ∧
    (selectById (webhook env d1 st req).store S).map (fun r => r.status) = some (js "paid") ∧
    ((webhook env d1 st req).effects ++
      (webhook env d2 (webhook env d1 st req).store req).effects).countP Effect.isStatusWrite = 1 ∧
    ((webhook env d1 st req).effects ++
      (webhook env d2 (webhook env d1 st req).store req).effects).countP
        (Effect.isSendTo .primary) ≤ 1 ∧
    ((fmtSubmissionHTML env row.view).isSome = true →
      ((webhook env d1 st req).effects ++
        (webhook env d2 (webhook env d1 st req).store req).effects).countP
          (Effect.isSendTo .primary) = 1) := by
  have h1 : webhook env d1 st req =
      { response := ⟨200, js "ok"⟩
        effects := Effect.setStatus (js "paid") S :: fanOut env d1 row
        store := execEffect st (.setStatus (js "paid") S) } := by
    rw [webhook_confirmed env d1 st req S hreq, hrow, onPaymentRow_pending env d1 S row hpend,
      exec_onPaymentRow_pending]
  have hsel := selectById_setStatus st S (js "paid") row hrow
  have h2 : webhook env d2 (execEffect st (.setStatus (js "paid") S)) req =
      { response := ⟨200, js "ok"⟩, effects := [],
        store := execEffect st (.setStatus (js "paid") S) } := by
    rw [webhook_confirmed env d2 _ req S hreq, hsel]
    simp [onPaymentRow, execEffects]
  rw [h1]
  simp only [h2, List.append_nil]
  refine ⟨trivial, trivial, trivial, trivial, trivial, ?_, ?_, ?_, ?_⟩
  · rw [hsel]; rfl
  · rw [List.countP_cons, fanOut_no_statusWrite]
    rfl
  · rw [List.countP_cons]
    have := fanOut_primary_le env d1 row
    simpa [Effect.isSendTo] using this
  · intro hsome
    obtain ⟨payload, hp⟩ := Option.isSome_iff_exists.mp hsome
    rw [List.countP_cons, (fanOut_counts env d1 row payload hp).1]
    rfl

/-- Witness for C1: the signed sample delivery, handled twice on a store
with the pending submission `id-1`. -/
theorem webhook_idempotent_witness :
    (webhook sampleEnv (fun _ => true)
      (webhook sampleEnv (fun _ => true) [sampleRow] sampleRequest).store sampleRequest).effects = [] ∧
    (webhook sampleEnv (fun _ => true) [sampleRow] sampleRequest).effects.length = 4 :=
  ⟨(webhook_idempotent sampleEnv (fun _ => true) (fun _ => true) [sampleRow] sampleRequest
      (js "id-1") sampleRow sampleRequest_confirmed rfl rfl).2.2.2.1,
   by decide⟩

/-- C2 fails on the code: with the secret configured and a `Buffer` body, a
signature header whose UTF-8 length is not the 64 of the hex digest (a missing
or empty header among them) makes `crypto.timingSafeEqual` throw, and the
handler answers 400 `bad`, not 401; nothing is written and nothing is sent. -/
theorem webhook_wrong_length_signature_answers_400 (env : Env) (deliver : Dest → Bool)
    (st : Store) (bytes : List Nat) (sig : Option JsString)
    (hsec : truthyStr env.COINBASE_WEBHOOK_SECRET = true)
    (hlen : (bufferFrom (orEmpty sig)).length ≠ 64) :
    (webhook env deliver st ⟨.buffer bytes, sig⟩).response = ⟨400, js "bad"⟩ ∧
    (webhook env deliver st ⟨.buffer bytes, sig⟩).effects = [] ∧
    (webhook env deliver st ⟨.buffer bytes, sig⟩).store = st := by
  have hver : verifyCoinbase env (.buffer bytes) (some (orEmpty sig)) = none := by
    simp only [verifyCoinbase, hsec, if_true, orEmpty, timingSafeEqual]
    rw [(bufferFrom_digest env _ bytes).2]
    have : ¬ (64 = (bufferFrom (orEmpty sig)).length) := fun h => hlen h.symm
    simp only [orEmpty] at this
    cases sig <;> simp_all [orEmpty]
  unfold webhook
  simp only [hver]
  exact ⟨trivial, trivial, trivial⟩

/-- Witness for C2: the sample delivery without its signature header. -/
theorem webhook_wrong_length_signature_answers_400_witness :
    (webhook sampleEnv (fun _ => true) [sampleRow] ⟨.buffer sampleBody, none⟩).response =
      ⟨400, js "bad"⟩ :=
  (webhook_wrong_length_signature_answers_400 sampleEnv (fun _ => true) [sampleRow] sampleBody
    none (by decide) (by decide)).1

/-- C5, as stated, fails: when the post to the channel fails, neither the
post to the group nor the notification of the requester is attempted (the
status is `paid` all the same). -/
theorem failed_post_stops_fanout :
    (webhook sampleEnv primaryFails [sampleRow] sampleRequest).effects.countP
      (Effect.isSendTo .primary) = 1 ∧
    (webhook sampleEnv primaryFails [sampleRow] sampleRequest).effects.countP
      (Effect.isSendTo .secondary) = 0 ∧
    (webhook sampleEnv primaryFails [sampleRow] sampleRequest).effects.countP
      (Effect.isSendTo .requester) = 0 ∧
    (webhook sampleEnv primaryFails [sampleRow] sampleRequest).store.map (fun r => r.status) =
      [js "paid"] := by
  decide

/-- C5, amended: when a pending submission is confirmed by the webhook and
its announcement renders, then for every combination of delivery outcomes the
handler answers 200 and the status is `paid` afterwards; the post to the
channel is attempted; the post to the group is attempted exactly when a group
is configured and the post to the channel succeeded; the requester is
notified exactly when the post to the channel succeeded and the post to the
group, if one is configured, succeeded too. -/
theorem fanout_stops_at_first_failure (env : Env) (deliver : Dest → Bool) (st : Store)
    (req : Request) (S : JsString) (row : Row) (payload : Payload)
    (hreq : ConfirmedDelivery env req S) (hrow : selectById st S = some row)
    (hpend : row.status = js "pending")
    (hfmt : fmtSubmissionHTML env row.view = some payload) :
    (webhook env deliver st req).response = ⟨200, js "ok"⟩ ∧
    (selectById (webhook env deliver st req).store S).map (fun r => r.status) = some (js "paid") ∧
    (webhook env deliver st req).effects.countP (Effect.isSendTo .primary) = 1 ∧
    (webhook env deliver st req).effects.countP (Effect.isSendTo .secondary) =
      (if truthyStr env.ALT_GROUP_ID && deliver .primary then 1 else 0) ∧
    (webhook env deliver st req).effects.countP (Effect.isSendTo .requester) =
      (if deliver .primary && (!truthyStr env.ALT_GROUP_ID || deliver .secondary) then 1 else 0) := by
  have h1 : webhook env deliver st req =
      { response := ⟨200, js "ok"⟩
        effects := Effect.setStatus (js "paid") S :: fanOut env deliver row
        store := execEffect st (.setStatus (js "paid") S) } := by
    rw [webhook_confirmed env deliver st req S hreq, hrow,
      onPaymentRow_pending env deliver S row hpend, exec_onPaymentRow_pending]
  have hc := fanOut_counts env deliver row payload hfmt
  rw [h1]
  refine ⟨rfl, ?_, ?_, ?_, ?_⟩
  · show (selectById (execEffect st (.setStatus (js "paid") S)) S).map _ = _
    rw [selectById_setStatus st S (js "paid") row hrow]; rfl
  · show List.countP _ (_ :: _) = _
    rw [List.countP_cons, hc.1]; rfl
  · show List.countP _ (_ :: _) = _
    rw [List.countP_cons, hc.2.1]; rfl
  · show List.countP _ (_ :: _) = _
    rw [List.countP_cons, hc.2.2]; rfl

/-- Witness for C5: the sample delivery when the post to the group fails. -/
theorem fanout_stops_at_first_failure_witness :
    (webhook sampleEnv (fun d => decide (d ≠ .secondary)) [sampleRow] sampleRequest).effects.countP
      (Effect.isSendTo .requester) = 0 :=
  (fanout_stops_at_first_failure sampleEnv (fun d => decide (d ≠ .secondary)) [sampleRow]
    sampleRequest (js "id-1") sampleRow
    ((fmtSubmissionHTML sampleEnv sampleRow.view).get (by decide))
    sampleRequest_confirmed rfl rfl (by simp)).2.2.2.2

/-! ## The status column: proofs -/

theorem onText_effects (message : Option JsString) (sess : Session) :
    (onText message sess).effects = [] := by
  unfold onText
  simp only
  repeat' split
  all_goals rfl

theorem onChainSelect_effects (data : JsString) (sess : Session) :
    (onChainSelect data sess).effects = [] := by
  unfold onChainSelect
  simp only
  repeat' split
  all_goals rfl

theorem onEdit_effects (ctx : Ctx) (sess : Session) : (onEdit ctx sess).effects = [] := by
  unfold onEdit
  split <;> rfl

theorem onConfirm_effects (env : Env) (ctx : Ctx) (sess : Session) :
    ∀ e ∈ (onConfirm env ctx sess).effects,
      (∃ f, e = Effect.insert (pendingRow env ctx f)) ∨ ∃ c id, e = Effect.setCharge c id := by
  intro e he
  unfold onConfirm at he
  repeat' split at he
  all_goals simp only [List.mem_cons, List.mem_singleton, List.not_mem_nil, or_false] at he
  · exact Or.inl ⟨_, he⟩
  · exact Or.inl ⟨_, he⟩
  · rcases he with he | he
    · exact Or.inl ⟨_, he⟩
    · exact Or.inr ⟨_, _, he⟩

theorem handleBot_effects (env : Env) (ctx : Ctx) (ev : BotEvent) (sess : Session) :
    ∀ e ∈ (handleBot env ctx ev sess).effects,
      (∃ f, e = Effect.insert (pendingRow env ctx f)) ∨ ∃ c id, e = Effect.setCharge c id := by
  intro e he
  cases ev with
  | submit => simp [handleBot, onSubmit] at he
  | text message => simp [handleBot, onText_effects] at he
  | callback data =>
    simp only [handleBot, onCallback] at he
    split at he
    · simp [onChainSelect_effects] at he
    · split at he
      · exact onConfirm_effects env ctx sess e he
      · split at he
        · simp [onEdit_effects] at he
        · simp at he

theorem handleBot_statusSafe (env : Env) (ctx : Ctx) (ev : BotEvent) (sess : Session) :
    ∀ e ∈ (handleBot env ctx ev sess).effects, e.StatusSafe := by
  intro e he
  rcases handleBot_effects env ctx ev sess e he with ⟨f, rfl⟩ | ⟨c, id, rfl⟩
  · show (pendingRow env ctx f).status = js "pending"
    rfl
  · trivial

theorem fanOut_statusSafe (env : Env) (deliver : Dest → Bool) (row : Row) :
    ∀ e ∈ fanOut env deliver row, e.StatusSafe := by
  intro e he
  have := fanOut_sends env deliver row e he
  cases e with
  | send d c t i => trivial
  | insert r => simp [Effect.isSend] at this
  | setCharge c id => simp [Effect.isSend] at this
  | setStatus s k => simp [Effect.isSend] at this

theorem onPaymentRow_shape (env : Env) (deliver : Dest → Bool) (key : JsString)
    (row : Option Row) :
    onPaymentRow env deliver key row = [] ∨
    ∃ r, onPaymentRow env deliver key row = Effect.setStatus (js "paid") key :: fanOut env deliver r := by
  unfold onPaymentRow
  split
  · exact Or.inl rfl
  · split
    · exact Or.inl rfl
    · exact Or.inr ⟨_, rfl⟩

theorem webhook_shape (env : Env) (deliver : Dest → Bool) (st : Store) (req : Request) :
    (webhook env deliver st req).store = execEffects st (webhook env deliver st req).effects ∧
    ((webhook env deliver st req).effects = [] ∨
      ∃ key r, (webhook env deliver st req).effects =
        Effect.setStatus (js "paid") key :: fanOut env deliver r) := by
  unfold webhook
  simp only
  repeat' split
  all_goals first
    | exact ⟨rfl, Or.inl rfl⟩
    | (refine ⟨rfl, ?_⟩
       rcases onPaymentRow_shape env deliver _ _ with h | ⟨r, h⟩
       · exact Or.inl h
       · exact Or.inr ⟨_, r, h⟩)

theorem webhook_statusSafe (env : Env) (deliver : Dest → Bool) (st : Store) (req : Request) :
    ∀ e ∈ (webhook env deliver st req).effects, e.StatusSafe := by
  intro e he
  rcases (webhook_shape env deliver st req).2 with h | ⟨key, r, h⟩
  · rw [h] at he; cases he
  · rw [h, List.mem_cons] at he
    rcases he with rfl | he
    · rfl
    · exact fanOut_statusSafe env deliver r e he

theorem webhook_no_insert (env : Env) (deliver : Dest → Bool) (st : Store) (req : Request)
    (r : Row) : Effect.insert r ∉ (webhook env deliver st req).effects := by
  intro he
  rcases (webhook_shape env deliver st req).2 with h | ⟨key, row, h⟩
  · rw [h] at he; cases he
  · rw [h, List.mem_cons] at he
    rcases he with he | he
    · cases he
    · have := fanOut_sends env deliver row _ he
      simp [Effect.isSend] at this

theorem execEffect_status (st : Store) (e : Effect) (hsafe : e.StatusSafe)
    (hst : ∀ r ∈ st, r.status = js "pending" ∨ r.status = js "paid") :
    ∀ r ∈ execEffect st e, r.status = js "pending" ∨ r.status = js "paid" := by
  intro r hr
  cases e with
  | insert r0 =>
    simp only [execEffect] at hr
    split at hr
    · exact hst r hr
    · rw [List.mem_append, List.mem_singleton] at hr
      rcases hr with hr | hr
      · exact hst r hr
      · rw [hr]; exact Or.inl hsafe
  | setCharge c id =>
    simp only [execEffect, List.mem_map] at hr
    obtain ⟨x, hx, rfl⟩ := hr
    split
    · exact hst x hx
    · exact hst x hx
  | setStatus s key =>
    simp only [execEffect, List.mem_map] at hr
    obtain ⟨x, hx, rfl⟩ := hr
    split
    · exact Or.inr hsafe
    · exact hst x hx
  | send d c t i => exact hst r hr

theorem paidKept_refl (st : Store) : PaidKept st st :=
  fun _ r h => ⟨r, h, rfl, id⟩

theorem paidKept_trans {a b c : Store} (h1 : PaidKept a b) (h2 : PaidKept b c) : PaidKept a c := by
  intro i r hr
  obtain ⟨r2, hr2, hid2, hp2⟩ := h1 i r hr
  obtain ⟨r3, hr3, hid3, hp3⟩ := h2 i r2 hr2
  exact ⟨r3, hr3, hid3.trans hid2, fun hp => hp3 (hp2 hp)⟩

theorem paidKept_map (st : Store) (f : Row → Row) (hid : ∀ r, (f r).id = r.id)
    (hp : ∀ r, r.status = js "paid" → (f r).status = js "paid") : PaidKept st (st.map f) := by
  intro i r hr
  refine ⟨f r, ?_, hid r, hp r⟩
  rw [List.getElem?_map, hr]
  rfl

theorem paidKept_append (st ext : Store) : PaidKept st (st ++ ext) := by
  intro i r hr
  refine ⟨r, ?_, rfl, id⟩
  have hi : i < st.length := by
    by_contra hge
    rw [List.getElem?_eq_none (Nat.le_of_not_lt hge)] at hr
    cases hr
  rw [List.getElem?_append_left hi]
  exact hr

theorem execEffect_paidKept (st : Store) (e : Effect) (hsafe : e.StatusSafe) :
    PaidKept st (execEffect st e) := by
  cases e with
  | insert r0 =>
    simp only [execEffect]
    split
    · exact paidKept_refl st
    · exact paidKept_append st _
  | setCharge c id =>
    apply paidKept_map
    · intro r; split <;> rfl
    · intro r hr; split
      · exact hr
      · exact hr
  | setStatus s key =>
    apply paidKept_map
    · intro r; split <;> rfl
    · intro r hr; split
      · exact hsafe
      · exact hr
  | send d c t i => exact paidKept_refl st

theorem execEffects_safe (es : List Effect) (st : Store) (hsafe : ∀ e ∈ es, e.StatusSafe) :
    PaidKept st (execEffects st es) ∧
    ((∀ r ∈ st, r.status = js "pending" ∨ r.status = js "paid") →
      ∀ r ∈ execEffects st es, r.status = js "pending" ∨ r.status = js "paid") := by
  induction es generalizing st with
  | nil => exact ⟨paidKept_refl st, fun h => h⟩
  | cons e rest ih =>
    have he := hsafe e (List.mem_cons_self _ _)
    have hr := ih (execEffect st e) (fun x hx => hsafe x (List.mem_cons_of_mem _ hx))
    exact ⟨paidKept_trans (execEffect_paidKept st e he) hr.1,
      fun hst => hr.2 (execEffect_status st e he hst)⟩

theorem sysStep_safe (env : Env) (st : Store) (ev : SysEvent) :
    PaidKept st (sysStep env st ev) ∧
    ((∀ r ∈ st, r.status = js "pending" ∨ r.status = js "paid") →
      ∀ r ∈ sysStep env st ev, r.status = js "pending" ∨ r.status = js "paid") := by
  cases ev with
  | update ctx ev sess => exact execEffects_safe _ st (handleBot_statusSafe env ctx ev sess)
  | delivery deliver req =>
    show PaidKept st (webhook env deliver st req).store ∧ _
    rw [show sysStep env st (.delivery deliver req) = (webhook env deliver st req).store from rfl,
      (webhook_shape env deliver st req).1]
    exact execEffects_safe _ st (webhook_statusSafe env deliver st req)

theorem sysRun_safe (env : Env) (evs : List SysEvent) (st : Store) :
    PaidKept st (sysRun env st evs) ∧
    ((∀ r ∈ st, r.status = js "pending" ∨ r.status = js "paid") →
      ∀ r ∈ sysRun env st evs, r.status = js "pending" ∨ r.status = js "paid") := by
  induction evs generalizing st with
  | nil => exact ⟨paidKept_refl st, fun h => h⟩
  | cons ev rest ih =>
    have h1 := sysStep_safe env st ev
    have h2 := ih (sysStep env st ev)
    exact ⟨paidKept_trans h1.1 h2.1, fun hst => h2.2 (h1.2 hst)⟩

/-- C10: over every sequence of operations of the program (conversation
updates of any chat, webhook deliveries) on a table whose statuses are
`pending` or `paid`, every status stays `pending` or `paid`; every record
keeps its place and its id, and a record that is `paid` stays `paid`; every
`INSERT` the program issues has status `pending`, and the webhook issues
none. -/
theorem status_monotonic (env : Env) (evs : List SysEvent) (st : Store)
    (hst : ∀ r ∈ st, r.status = js "pending" ∨ r.status = js "paid") :
    (∀ r ∈ sysRun env st evs, r.status = js "pending" ∨ r.status = js "paid") ∧
    (∀ (i : Nat) (r : Row), st[i]? = some r →
      ∃ r2 : Row, (sysRun env st evs)[i]? = some r2 ∧ r2.id = r.id ∧
        (r.status = js "paid" → r2.status = js "paid")) ∧
    (∀ ctx ev sess r, Effect.insert r ∈ (handleBot env ctx ev sess).effects →
      r.status = js "pending") ∧
    (∀ deliver st2 req r, Effect.insert r ∉ (webhook env deliver st2 req).effects) := by
  refine ⟨(sysRun_safe env evs st).2 hst, (sysRun_safe env evs st).1, ?_, ?_⟩
  · intro ctx ev sess r hr
    exact handleBot_statusSafe env ctx ev sess _ hr
  · intro deliver st2 req r
    exact webhook_no_insert env deliver st2 req r

/-- Witness for C10: the sample history on the table with the pending
submission `id-1`; the statuses afterwards are `paid` and `pending`. -/
theorem status_monotonic_witness :
    (sysRun sampleEnv [sampleRow] sampleHistory).map (fun r => (r.id, r.status)) =
      [(js "id-1", js "paid"), (js "id-2", js "pending")] ∧
    ∀ r ∈ sysRun sampleEnv [sampleRow] sampleHistory,
      r.status = js "pending" ∨ r.status = js "paid" :=
  ⟨by decide,
   (status_monotonic sampleEnv sampleHistory [sampleRow] (by
      intro r hr
      rw [List.mem_singleton] at hr
      rw [hr]
      exact Or.inl rfl)).1⟩

theorem utf8Unit_head (c : Nat) (hc : 128 ≤ c) : ∃ b tl, utf8Unit c = b :: tl ∧ 128 ≤ b := by
  unfold utf8Unit
  have h1 : ¬ c < 128 := by omega
  simp only [h1, if_false]
  split
  · exact ⟨_, _, rfl, by omega⟩
  · split
    · exact ⟨_, _, rfl, by decide⟩
    · exact ⟨_, _, rfl, by omega⟩

theorem utf8From_pending_head (hi : Nat) (hhi : 128 ≤ hi) (s : JsString) :
    ∃ b tl, utf8From (some hi) s = b :: tl ∧ 128 ≤ b := by
  obtain ⟨b, tl, hb, hge⟩ := utf8Unit_head hi hhi
  cases s with
  | nil => exact ⟨b, tl, by simp [utf8From, hb], hge⟩
  | cons c rest =>
    unfold utf8From
    split
    · exact ⟨_, _, rfl, Nat.le_trans (by decide : 128 ≤ 240) (Nat.le_add_right _ _)⟩
    · split
      · exact ⟨b, _, by rw [hb]; rfl, hge⟩
      · exact ⟨b, _, by rw [hb]; rfl, hge⟩

theorem utf8From_eq_ascii (s a : JsString) (ha : ∀ c ∈ a, c < 128) (h : utf8From none s = a) :
    s = a := by
  induction s generalizing a with
  | nil => exact h
  | cons c rest ih =>
    unfold utf8From at h
    split at h
    · rename_i hsur
      obtain ⟨b, tl, hb, hge⟩ := utf8From_pending_head c (by omega) rest
      rw [hb] at h
      have := ha b (by rw [← h]; exact List.mem_cons_self _ _)
      omega
    · by_cases hc : c < 128
      · have hu : utf8Unit c = [c] := by simp [utf8Unit, hc]
        rw [hu] at h
        cases a with
        | nil => cases h
        | cons x xs =>
          simp only [List.singleton_append, List.cons.injEq] at h
          rw [h.1, ih xs (fun d hd => ha d (List.mem_cons_of_mem _ hd)) h.2]
      · obtain ⟨b, tl, hb, hge⟩ := utf8Unit_head c (by omega)
        rw [hb] at h
        have := ha b (by rw [← h]; exact List.mem_cons_self _ _)
        omega

theorem orEmpty_some (s : JsString) : orEmpty (some s) = s := rfl

/-- The sibling path of C2: a signature header of the digest's length that is
not the digest is answered with 401 `bad sig`; nothing is written or sent. -/
theorem webhook_wrong_signature_same_length_answers_401 (env : Env) (deliver : Dest → Bool)
    (st : Store) (bytes : List Nat) (sig : Option JsString)
    (hsec : truthyStr env.COINBASE_WEBHOOK_SECRET = true)
    (hlen : (bufferFrom (orEmpty sig)).length = 64)
    (hne : orEmpty sig ≠ hexEncode (env.hmacSha256 (orEmpty env.COINBASE_WEBHOOK_SECRET) bytes)) :
    (webhook env deliver st ⟨.buffer bytes, sig⟩).response = ⟨401, js "bad sig"⟩ ∧
    (webhook env deliver st ⟨.buffer bytes, sig⟩).effects = [] ∧
    (webhook env deliver st ⟨.buffer bytes, sig⟩).store = st := by
  have hd := bufferFrom_digest env (orEmpty env.COINBASE_WEBHOOK_SECRET) bytes
  have hneq : bufferFrom (hexEncode (env.hmacSha256 (orEmpty env.COINBASE_WEBHOOK_SECRET) bytes)) ≠
      bufferFrom (orEmpty sig) := by
    intro heq
    rw [hd.1] at heq
    exact hne (utf8From_eq_ascii _ _ (hexEncode_ascii _) heq.symm)
  have hver : verifyCoinbase env (.buffer bytes) (some (orEmpty sig)) = some false := by
    simp only [verifyCoinbase, hsec, if_true, orEmpty_some, timingSafeEqual]
    rw [hd.2, if_pos hlen.symm]
    simp [hneq]
  unfold webhook
  simp only [hver]
  exact ⟨trivial, trivial, trivial⟩

theorem js_append_ne_nil (a b : JsString) (h : a ≠ []) : (a ++ b != []) = true := by
  cases a with
  | nil => exact absurd rfl h
  | cons x xs => rfl

/-- The text of an announcement: header, contract line, About line, the
chart line if there is a chart link, and the disclaimer, joined by line
breaks. -/
theorem fmtSubmissionHTML_text (env : Env) (s : SubmissionView) (p : Payload)
    (h : fmtSubmissionHTML env s = some p) :
    p.text = joinWith (js "\n")
      ([js "🔥 <b>Token Promotion</b> — <i>" ++ escapeHtml s.chain ++ js "</i>",
        js "📄 <b>Contract:</b> <code>" ++ escapeHtml s.contract ++ js "</code>",
        aboutLine s.description] ++
       (if truthyStr s.chart_url
          then [js "📈 <a href=\"" ++ escapeHtml s.chart_url ++ js "\">Open Chart</a>"] else []) ++
       [js "\n<b>Disclaimer:</b> DYOR. Bukan nasihat finansial. Admin " ++
          escapeHtml (some env.POST_CHANNEL) ++ js " tidak bertanggung jawab."]) := by
  unfold fmtSubmissionHTML at h
  split at h
  · simp only [Option.some.injEq] at h
    rw [← h]
    have h1 : (js "🔥 <b>Token Promotion</b> — <i>" ++ escapeHtml s.chain ++ js "</i>" != []) = true := by
      rw [List.append_assoc]; exact js_append_ne_nil _ _ (by decide)
    have h2 : (js "📄 <b>Contract:</b> <code>" ++ escapeHtml s.contract ++ js "</code>" != []) = true := by
      rw [List.append_assoc]; exact js_append_ne_nil _ _ (by decide)
    have h3 : (aboutLine s.description != []) = true := js_append_ne_nil _ _ (by decide)
    have h5 : (js "\n<b>Disclaimer:</b> DYOR. Bukan nasihat finansial. Admin " ++
        escapeHtml (some env.POST_CHANNEL) ++ js " tidak bertanggung jawab." != []) = true := by
      rw [List.append_assoc]; exact js_append_ne_nil _ _ (by decide)
    by_cases hc : truthyStr s.chart_url = true
    · have h4 : (js "📈 <a href=\"" ++ escapeHtml s.chart_url ++ js "\">Open Chart</a>" != []) = true := by
        rw [List.append_assoc]; exact js_append_ne_nil _ _ (by decide)
      simp only [hc, if_true, List.filter_cons, h1, h2, h3, h4, h5, List.filter_nil,
        List.cons_append, List.nil_append]
    · simp only [hc, Bool.false_eq_true, if_false, List.filter_cons, h1, h2, h3, h5,
        List.filter_nil, List.cons_append, List.nil_append]
      simp
  · cases h

theorem aboutLine_letters_lt :
    aboutLine (some (List.replicate 499 97 ++ js "<")) =
      js "📝 <b>About:</b> " ++ (List.replicate 499 97 ++ js "&") := by
  unfold aboutLine
  rw [escapeHtml_letters_lt 499]
  exact congrArg _ (take_letters_entity 499)

/-- C9 fails on the code: a description of 500 characters, 499 letters `a`
and a final `<`, is escaped to 503 characters and then cut to 500, so the
About line of the rendered text ends in the fragment `&` of the entity
`&lt;` and the complete escaped description is not there. -/
theorem aboutLine_cuts_entity :
    cutDescription.length = 500 ∧
    escapeHtml (some cutDescription) = List.replicate 499 97 ++ js "&lt;" ∧
    aboutLine (some cutDescription) =
      js "📝 <b>About:</b> " ++ (List.replicate 499 97 ++ js "&") ∧
    (fmtSubmissionHTML sampleEnv cutView).map (fun p => p.text) =
      some (joinWith (js "\n")
        [js "🔥 <b>Token Promotion</b> — <i>Ethereum</i>",
         js "📄 <b>Contract:</b> <code>0x1111111111111111111111111111111111111111</code>",
         js "📝 <b>About:</b> " ++ (List.replicate 499 97 ++ js "&"),
         js "📈 <a href=\"https://dexscreener.com/ethereum/0x1111\">Open Chart</a>",
         js "\n<b>Disclaimer:</b> DYOR. Bukan nasihat finansial. Admin @tokenvestors tidak bertanggung jawab."]) := by
  refine ⟨?_, escapeHtml_letters_lt 499, aboutLine_letters_lt, ?_⟩
  · show (List.replicate 499 97 ++ js "<").length = 500
    rw [List.length_append, List.length_replicate]
    rfl
  · have hsome : (fmtSubmissionHTML sampleEnv cutView).isSome = true := by decide
    obtain ⟨p, hp⟩ := Option.isSome_iff_exists.mp hsome
    rw [hp, Option.map_some', fmtSubmissionHTML_text sampleEnv cutView p hp]
    have hd : cutView.description = some (List.replicate 499 97 ++ js "<") := rfl
    have hc : truthyStr cutView.chart_url = true := by decide
    have h1 : js "🔥 <b>Token Promotion</b> — <i>" ++ escapeHtml cutView.chain ++ js "</i>" =
        js "🔥 <b>Token Promotion</b> — <i>Ethereum</i>" := by decide
    have h2 : js "📄 <b>Contract:</b> <code>" ++ escapeHtml cutView.contract ++ js "</code>" =
        js "📄 <b>Contract:</b> <code>0x1111111111111111111111111111111111111111</code>" := by
      decide
    have h4 : js "📈 <a href=\"" ++ escapeHtml cutView.chart_url ++ js "\">Open Chart</a>" =
        js "📈 <a href=\"https://dexscreener.com/ethereum/0x1111\">Open Chart</a>" := by decide
    have h5 : js "\n<b>Disclaimer:</b> DYOR. Bukan nasihat finansial. Admin " ++
        escapeHtml (some sampleEnv.POST_CHANNEL) ++ js " tidak bertanggung jawab." =
        js "\n<b>Disclaimer:</b> DYOR. Bukan nasihat finansial. Admin @tokenvestors tidak bertanggung jawab." := by
      decide
    rw [hd, aboutLine_letters_lt, hc, h1, h2, h4, h5]
    rfl

/-! ## Event filtering and the unconfigured secret: proofs -/

theorem webhook_signed (env : Env) (deliver : Dest → Bool) (st : Store) (req : Request)
    (ev : JVal) (h : SignedEvent env req ev) :
    webhook env deliver st req =
      (if truthy (eventSubmissionId ev) && isPaymentType (eventType ev) then
        match eventSubmissionId ev with
        | some sid =>
          { response := ⟨200, js "ok"⟩
            effects := onPaymentRow env deliver (sqlKey env sid) (selectById st (sqlKey env sid))
            store := execEffects st
              (onPaymentRow env deliver (sqlKey env sid) (selectById st (sqlKey env sid))) }
        | none => { response := ⟨200, js "ok"⟩, effects := [], store := st }
      else { response := ⟨200, js "ok"⟩, effects := [], store := st }) := by
  obtain ⟨hsec, bytes, hbody, hsig, hparse⟩ := h
  have hver : verifyCoinbase env (.buffer bytes) (some (orEmpty req.signature)) = some true := by
    rw [hsig]
    exact verifyCoinbase_signed env bytes hsec
  unfold webhook
  simp only [hbody, hver, hparse]
  unfold eventSubmissionId eventType
  cases hs : optProp (js "submissionId") (optProp (js "metadata") (optProp (js "data") (some ev))) with
  | none => simp [truthy]
  | some sid =>
    cases ht : optProp (js "type") (some ev) with
    | none => simp [isPaymentType]
    | some tv =>
      cases tv with
      | str t =>
        simp only [isPaymentType]
      | null => simp [isPaymentType]
      | bool b => simp [isPaymentType]
      | num q => simp [isPaymentType]
      | arr a => simp [isPaymentType]
      | obj o => simp [isPaymentType]

theorem onPaymentRow_nonempty (env : Env) (deliver : Dest → Bool) (key : JsString)
    (row : Option Row) (h : onPaymentRow env deliver key row ≠ []) :
    ∃ r, row = some r ∧ r.status ≠ js "paid" := by
  unfold onPaymentRow at h
  split at h
  · exact absurd rfl h
  · rename_i r
    split at h
    · exact absurd rfl h
    · rename_i hne
      exact ⟨r, rfl, hne⟩

/-- C11: a validly signed request whose body parses as JSON is answered with
200 `ok`; the store is changed or a message is sent only if the event type is
`charge:confirmed` or `charge:resolved`, `data.metadata.submissionId` is
present (truthy) and a submission with that id exists with a status other
than `paid`; for any other event type, a missing submission id or an unknown
id no record changes and nothing is sent. -/
theorem webhook_filters_events (env : Env) (deliver : Dest → Bool) (st : Store) (req : Request)
    (ev : JVal) (h : SignedEvent env req ev) :
    (webhook env deliver st req).response = ⟨200, js "ok"⟩ ∧
    (((webhook env deliver st req).effects ≠ [] ∨ (webhook env deliver st req).store ≠ st) →
      isPaymentType (eventType ev) = true ∧ truthy (eventSubmissionId ev) = true ∧
      ∃ sid row, eventSubmissionId ev = some sid ∧
        selectById st (sqlKey env sid) = some row ∧ row.status ≠ js "paid") ∧
    (isPaymentType (eventType ev) = false →
      (webhook env deliver st req).effects = [] ∧ (webhook env deliver st req).store = st) ∧
    (truthy (eventSubmissionId ev) = false →
      (webhook env deliver st req).effects = [] ∧ (webhook env deliver st req).store = st) ∧
    (∀ sid, eventSubmissionId ev = some sid → selectById st (sqlKey env sid) = none →
      (webhook env deliver st req).effects = [] ∧ (webhook env deliver st req).store = st) := by
  rw [webhook_signed env deliver st req ev h]
  refine ⟨?_, ?_, ?_, ?_, ?_⟩
  · split
    · split <;> rfl
    · rfl
  · intro hch
    split at hch
    · rename_i hcond
      simp only [Bool.and_eq_true] at hcond
      split at hch
      · rename_i sid hsid
        have hne : onPaymentRow env deliver (sqlKey env sid) (selectById st (sqlKey env sid)) ≠ [] := by
          intro hnil
          rw [hnil] at hch
          rcases hch with hch | hch
          · exact hch rfl
          · exact hch rfl
        obtain ⟨r, hr, hst⟩ := onPaymentRow_nonempty _ _ _ _ hne
        exact ⟨hcond.2, hcond.1, sid, r, hsid, hr, hst⟩
      · rcases hch with hch | hch
        · exact absurd rfl hch
        · exact absurd rfl hch
    · rcases hch with hch | hch
      · exact absurd rfl hch
      · exact absurd rfl hch
  · intro ht
    simp [ht]
  · intro hs
    simp [hs]
  · intro sid hsid hnone
    rw [hsid]
    split
    · simp only [hnone, onPaymentRow, execEffects, List.foldl_nil, and_self]
    · exact ⟨rfl, rfl⟩

theorem sampleRequest_signed : SignedEvent sampleEnv sampleRequest sampleEvent :=
  ⟨by decide, sampleBody, rfl, rfl, rfl⟩

/-- Witness for C11: the signed sample delivery on a store without the
submission changes nothing and is answered with 200. -/
theorem webhook_filters_events_witness :
    (webhook sampleEnv (fun _ => true) [] sampleRequest).response = ⟨200, js "ok"⟩ ∧
    (webhook sampleEnv (fun _ => true) [] sampleRequest).effects = [] ∧
    (webhook sampleEnv (fun _ => true) [] sampleRequest).store = [] :=
  ⟨(webhook_filters_events sampleEnv (fun _ => true) [] sampleRequest sampleEvent
      sampleRequest_signed).1,
   (webhook_filters_events sampleEnv (fun _ => true) [] sampleRequest sampleEvent
      sampleRequest_signed).2.2.2.2 (JVal.str (js "id-1")) rfl rfl⟩

theorem verifyCoinbase_unconfigured (env : Env) (raw : ReqBody) (sigHeader : Option JsString)
    (h : truthyStr env.COINBASE_WEBHOOK_SECRET = false) :
    verifyCoinbase env raw sigHeader = some false := by
  unfold verifyCoinbase
  cases raw <;> simp [h]

/-- C19: when the webhook secret is not set (undefined or the empty string),
`verifyCoinbase` returns `ok = false` for every body and every signature
header, and the handler answers 401 without a status update or a message,
whatever the request and the store. -/
theorem webhook_fails_closed_without_secret (env : Env)
    (h : truthyStr env.COINBASE_WEBHOOK_SECRET = false) :
    (∀ raw sigHeader, verifyCoinbase env raw sigHeader = some false) ∧
    (∀ deliver st req,
      (webhook env deliver st req).response = ⟨401, js "bad sig"⟩ ∧
      (webhook env deliver st req).effects = [] ∧
      (webhook env deliver st req).store = st) := by
  refine ⟨fun raw s => verifyCoinbase_unconfigured env raw s h, ?_⟩
  intro deliver st req
  unfold webhook
  simp only [verifyCoinbase_unconfigured env _ _ h]
  exact ⟨trivial, trivial, trivial⟩

/-- Witness for C19: without a secret the correctly computed signature of the
sample delivery is rejected and the pending submission stays pending; the
empty secret behaves the same. -/
theorem webhook_fails_closed_without_secret_witness :
    (webhook unconfiguredEnv (fun _ => true) [sampleRow] sampleRequest).response =
      ⟨401, js "bad sig"⟩ ∧
    (webhook unconfiguredEnv (fun _ => true) [sampleRow] sampleRequest).store = [sampleRow] ∧
    verifyCoinbase { sampleEnv with COINBASE_WEBHOOK_SECRET := some [] } (.buffer sampleBody)
      sampleRequest.signature = some false :=
  ⟨((webhook_fails_closed_without_secret unconfiguredEnv (by decide)).2 (fun _ => true)
      [sampleRow] sampleRequest).1,
   ((webhook_fails_closed_without_secret unconfiguredEnv (by decide)).2 (fun _ => true)
      [sampleRow] sampleRequest).2.2,
   (webhook_fails_closed_without_secret { sampleEnv with COINBASE_WEBHOOK_SECRET := some [] }
      (by decide)).1 _ _⟩

/-! ## Edit and the order of the steps: proofs -/

theorem handleBot_edit (env : Env) (ctx : Ctx) (sess : Session) :
    handleBot env ctx editEvent sess = onEdit ctx sess := by
  show onCallback env ctx (some (js "edit_back")) sess = _
  unfold onCallback
  have h1 : (js "chain_").isPrefixOf (js "edit_back") = false := by decide
  have h2 : ¬ (js "edit_back" = js "confirm_pay") := by decide
  simp only [orEmpty, h1, h2, Bool.false_eq_true, if_false, if_true]

/-- C14, as stated, fails: the edit action in the review step sets the step
to `CHAIN` and keeps the whole draft (chain, contract, description, social
links and chart link of the previous attempt). -/
theorem edit_keeps_draft :
    reviewSession.step = some Steps.REVIEW ∧
    (handleBot sampleEnv (sampleCtx (js "id-1")) editEvent reviewSession).session =
      { step := some Steps.CHAIN, form := some reviewForm } ∧
    reviewForm.contract = some sampleAddress ∧
    reviewForm.description = some (js "Test token") := by
  decide

/-- C14, amended: for every session in the review step, the edit action, when
its callback acknowledgement succeeds, sets the step to `CHAIN` and leaves
the draft exactly as it was, every field carried over. -/
theorem edit_sets_chain_step_and_keeps_draft (env : Env) (ctx : Ctx) (sess : Session)
    (hstep : sess.step = some Steps.REVIEW) (hack : ctx.ackOk = true) :
    (handleBot env ctx editEvent sess).session.step = some Steps.CHAIN ∧
    (handleBot env ctx editEvent sess).session.form = sess.form ∧
    (handleBot env ctx editEvent sess).session ≠ sess ∧
    (handleBot env ctx editEvent sess).effects = [] := by
  rw [handleBot_edit]
  unfold onEdit
  simp only [hack, Bool.not_true, Bool.false_eq_true, if_false]
  refine ⟨trivial, trivial, ?_, trivial⟩
  intro h
  have h2 := congrArg Session.step h
  simp only [hstep, Steps.CHAIN, Steps.REVIEW] at h2
  cases h2

/-- Witness for C14: the edit action on the session of the end-to-end
scenario. -/
theorem edit_sets_chain_step_and_keeps_draft_witness :
    (handleBot sampleEnv (sampleCtx (js "id-1")) editEvent reviewSession).session.form =
      reviewSession.form :=
  (edit_sets_chain_step_and_keeps_draft sampleEnv (sampleCtx (js "id-1")) reviewSession
    (by decide) (by decide)).2.1

theorem onText_step (message : Option JsString) (sess : Session) :
    (onText message sess).session.step = sess.step ∨
    ∃ n, sess.step = some n ∧ 2 ≤ n ∧ n ≤ 5 ∧ (onText message sess).session.step = some (n + 1) := by
  cases hs : sess.step with
  | none =>
    left
    unfold onText
    simp [hs, Steps.NONE, Steps.CONTRACT, Steps.DESC, Steps.SOCIALS, Steps.CHART]
  | some n =>
    unfold onText
    simp only [hs, Option.getD_some]
    split
    · rename_i h2
      split
      · exact Or.inl hs
      · split
        · exact Or.inl hs
        · exact Or.inr ⟨n, rfl, by rw [h2]; decide, by rw [h2]; decide, by rw [h2]; rfl⟩
    · split
      · rename_i h3
        split
        · exact Or.inl hs
        · exact Or.inr ⟨n, rfl, by rw [h3]; decide, by rw [h3]; decide, by rw [h3]; rfl⟩
      · split
        · rename_i h4
          split
          · exact Or.inl hs
          · split
            · exact Or.inl hs
            · exact Or.inr ⟨n, rfl, by rw [h4]; decide, by rw [h4]; decide, by rw [h4]; rfl⟩
        · split
          · rename_i h5
            split
            · exact Or.inl hs
            · split
              · exact Or.inl hs
              · exact Or.inr ⟨n, rfl, by rw [h5]; decide, by rw [h5]; decide, by rw [h5]; rfl⟩
          · exact Or.inl hs

theorem onChainSelect_step (data : JsString) (sess : Session) :
    (onChainSelect data sess).session.step = sess.step ∨
    (onChainSelect data sess).session.step = some Steps.CONTRACT := by
  unfold onChainSelect
  simp only
  split
  · exact Or.inl rfl
  · split
    · exact Or.inl rfl
    · exact Or.inr rfl

theorem onEdit_step (ctx : Ctx) (sess : Session) :
    (onEdit ctx sess).session.step = sess.step ∨
    (onEdit ctx sess).session.step = some Steps.CHAIN := by
  unfold onEdit
  split
  · exact Or.inl rfl
  · exact Or.inr rfl

theorem chainEvent_selects (env : Env) (ctx : Ctx) (sess : Session) (f : Form)
    (c : JsString × JsString) (hc : c ∈ CHAINS) (hf : sess.form = some f) :
    (handleBot env ctx (chainEvent c.1) sess).session =
      { step := some Steps.CONTRACT,
        form := some { f with chain := some c.2, chainKey := some c.1 } } := by
  have hkeys : ∀ c ∈ CHAINS,
      (js "chain_").isPrefixOf (js "chain_" ++ c.1) = true ∧
      untilSub (js "chain_") ((js "chain_" ++ c.1).drop 6) = c.1 ∧
      CHAINS.find? (fun x => x.1 == c.1) = some c := by decide
  obtain ⟨h1, h2, h3⟩ := hkeys c hc
  show (onCallback env ctx (some (js "chain_" ++ c.1)) sess).session = _
  unfold onCallback
  simp only [orEmpty, h1, if_true]
  unfold onChainSelect
  simp only [h2, h3, hf]

theorem onCallback_cases (env : Env) (ctx : Ctx) (d : Option JsString) (sess : Session) :
    ((js "chain_").isPrefixOf (orEmpty d) = true ∧
      onCallback env ctx d sess = onChainSelect (orEmpty d) sess) ∨
    onCallback env ctx d sess = onConfirm env ctx sess ∨
    (d = some (js "edit_back") ∧ onCallback env ctx d sess = onEdit ctx sess) ∨
    onCallback env ctx d sess = { session := sess, effects := [], threw := false } := by
  unfold onCallback
  simp only
  split
  · rename_i hpre
    exact Or.inl ⟨hpre, rfl⟩
  · split
    · exact Or.inr (Or.inl rfl)
    · split
      · rename_i hedit
        refine Or.inr (Or.inr (Or.inl ⟨?_, rfl⟩))
        cases d with
        | none => exact absurd hedit (by decide)
        | some x =>
          simp only [orEmpty] at hedit
          rw [hedit]
      · exact Or.inr (Or.inr (Or.inr rfl))

/-- C15, as stated, fails: a chain-selection event in the review step takes
effect and moves the session back to `CONTRACT` (the confirm action, for its
part, leaves the step at `REVIEW`). -/
theorem chain_selection_moves_review_back :
    reviewSession.step = some Steps.REVIEW ∧
    (handleBot sampleEnv (sampleCtx (js "id-1")) (chainEvent (js "SOL")) reviewSession).session.step =
      some Steps.CONTRACT ∧
    (handleBot sampleEnv (sampleCtx (js "id-1")) confirmEvent reviewSession).session.step =
      some Steps.REVIEW := by
  decide

/-- C15, amended: for every session and every inbound event, the step after
the event is either unchanged, or the immediate successor of the step before
(a text message in the steps `CONTRACT` to `CHART`), or `CONTRACT` after a
chain-selection event, or `CHAIN` after the submit command or the edit
action; a confirm action leaves the step unchanged; and a chain-selection
event for a chain of `CHAINS` has this effect in every step of a session that
has a draft. -/
theorem step_transitions (env : Env) (ctx : Ctx) (ev : BotEvent) (sess : Session) :
    ((handleBot env ctx ev sess).session.step = sess.step ∨
     (∃ m n, ev = .text m ∧ sess.step = some n ∧ 2 ≤ n ∧ n ≤ 5 ∧
        (handleBot env ctx ev sess).session.step = some (n + 1)) ∨
     (∃ d, ev = .callback d ∧ (js "chain_").isPrefixOf (orEmpty d) = true ∧
        (handleBot env ctx ev sess).session.step = some Steps.CONTRACT) ∨
     ((ev = .submit ∨ ev = editEvent) ∧
        (handleBot env ctx ev sess).session.step = some Steps.CHAIN)) ∧
    (handleBot env ctx confirmEvent sess).session.step = sess.step ∧
    (∀ c ∈ CHAINS, ∀ f, sess.form = some f →
      (handleBot env ctx (chainEvent c.1) sess).session.step = some Steps.CONTRACT) := by
  refine ⟨?_, ?_, ?_⟩
  · cases ev with
    | submit => exact Or.inr (Or.inr (Or.inr ⟨Or.inl rfl, rfl⟩))
    | text m =>
      rcases onText_step m sess with h | ⟨n, hn, h2, h5, h⟩
      · exact Or.inl h
      · exact Or.inr (Or.inl ⟨m, n, rfl, hn, h2, h5, h⟩)
    | callback d =>
      have hb : handleBot env ctx (.callback d) sess = onCallback env ctx d sess := rfl
      rw [hb]
      rcases onCallback_cases env ctx d sess with ⟨hpre, h⟩ | h | ⟨hd, h⟩ | h
      · rw [h]
        rcases onChainSelect_step (orEmpty d) sess with h2 | h2
        · exact Or.inl h2
        · exact Or.inr (Or.inr (Or.inl ⟨d, rfl, hpre, h2⟩))
      · rw [h, onConfirm_session]
        exact Or.inl rfl
      · rw [h]
        rcases onEdit_step ctx sess with h2 | h2
        · exact Or.inl h2
        · exact Or.inr (Or.inr (Or.inr ⟨Or.inr (by rw [hd]; rfl), h2⟩))
      · rw [h]
        exact Or.inl rfl
  · rw [handleBot_confirm, onConfirm_session]
  · intro c hc f hf
    rw [chainEvent_selects env ctx sess f c hc hf]

/-- Witness for C15: the chain-selection event for Solana on the session of
the end-to-end scenario in the review step. -/
theorem step_transitions_witness :
    (handleBot sampleEnv (sampleCtx (js "id-1")) (chainEvent (js "SOL", js "Solana").1)
      reviewSession).session.step = some Steps.CONTRACT :=
  (step_transitions sampleEnv (sampleCtx (js "id-1")) .submit reviewSession).2.2
    (js "SOL", js "Solana") (by decide) reviewForm (by decide)

/-! ## Text messages: proofs -/

theorem onText_contract (message : Option JsString) (sess : Session) (f : Form)
    (hs : sess.step = some Steps.CONTRACT) (hf : sess.form = some f) :
    (onText message sess).session =
      if validateContract f.chainKey (some (jsTrim (orEmpty message))) = true then
        { step := some Steps.DESC, form := some { f with contract := some (jsTrim (orEmpty message)) } }
      else sess := by
  unfold onText
  simp only [hs, Option.getD_some, hf, if_true]
  cases validateContract f.chainKey (some (jsTrim (orEmpty message))) <;> simp

theorem onText_desc (message : Option JsString) (sess : Session) (f : Form)
    (hs : sess.step = some Steps.DESC) (hf : sess.form = some f) :
    (onText message sess).session =
      { step := some Steps.SOCIALS,
        form := some { f with description := some (sliceTo 500 (jsTrim (orEmpty message))) } } := by
  unfold onText
  have h1 : ¬ (Steps.DESC = Steps.CONTRACT) := by decide
  simp only [hs, Option.getD_some, hf, h1, if_false, if_true]

theorem onText_socials (message : Option JsString) (sess : Session) (f : Form)
    (hs : sess.step = some Steps.SOCIALS) (hf : sess.form = some f) :
    (onText message sess).session =
      if parseSocials (some (jsTrim (orEmpty message))) = [] then sess
      else { step := some Steps.CHART,
             form := some { f with socials := some (parseSocials (some (jsTrim (orEmpty message)))) } } := by
  unfold onText
  have h1 : ¬ (Steps.SOCIALS = Steps.CONTRACT) := by decide
  have h2 : ¬ (Steps.SOCIALS = Steps.DESC) := by decide
  simp only [hs, Option.getD_some, hf, h1, h2, if_false, if_true]
  cases hp : parseSocials (some (jsTrim (orEmpty message))) with
  | nil => simp
  | cons x xs => simp

theorem onText_chart (message : Option JsString) (sess : Session) (f : Form)
    (hs : sess.step = some Steps.CHART) (hf : sess.form = some f) :
    (onText message sess).session =
      if looksChart (some (jsTrim (orEmpty message))) = true then
        { step := some Steps.REVIEW, form := some { f with chart_url := some (jsTrim (orEmpty message)) } }
      else sess := by
  unfold onText
  have h1 : ¬ (Steps.CHART = Steps.CONTRACT) := by decide
  have h2 : ¬ (Steps.CHART = Steps.DESC) := by decide
  have h3 : ¬ (Steps.CHART = Steps.SOCIALS) := by decide
  simp only [hs, Option.getD_some, hf, h1, h2, h3, if_false, if_true]
  cases looksChart (some (jsTrim (orEmpty message))) <;> simp

theorem onText_idle (message : Option JsString) (sess : Session)
    (hs : sess.step = none ∨ sess.step = some Steps.NONE ∨ sess.step = some Steps.CHAIN ∨
      sess.step = some Steps.REVIEW) :
    (onText message sess).session = sess := by
  unfold onText
  rcases hs with hs | hs | hs | hs <;>
    simp [hs, Steps.NONE, Steps.CHAIN, Steps.CONTRACT, Steps.DESC, Steps.SOCIALS, Steps.CHART,
      Steps.REVIEW]

theorem onText_no_form (message : Option JsString) (sess : Session) (hf : sess.form = none) :
    (onText message sess).session = sess := by
  unfold onText
  simp only [hf]
  repeat' split
  all_goals rfl

theorem jsTrim_eq_rdropWhile (s : JsString) :
    jsTrim s = (s.dropWhile isJsSpace).rdropWhile isJsSpace := rfl

theorem dropWhile_head_not (s : JsString) (c : Nat) (rest : JsString)
    (h : s.dropWhile isJsSpace = c :: rest) : isJsSpace c = false := by
  induction s with
  | nil => cases h
  | cons d ds ih =>
    by_cases hd : isJsSpace d = true
    · rw [List.dropWhile_cons_of_pos hd] at h
      exact ih h
    · rw [List.dropWhile_cons_of_neg hd] at h
      cases h
      simpa using hd

theorem jsTrim_head_not (s : JsString) (c : Nat) (rest : JsString)
    (h : jsTrim s = c :: rest) : isJsSpace c = false := by
  have hpre : jsTrim s <+: s.dropWhile isJsSpace := by
    rw [jsTrim_eq_rdropWhile]
    exact List.rdropWhile_prefix _ _
  obtain ⟨t, ht⟩ := hpre
  rw [h] at ht
  exact dropWhile_head_not s c (rest ++ t) ht.symm

theorem jsTrim_idempotent (s : JsString) : jsTrim (jsTrim s) = jsTrim s := by
  have hd : (jsTrim s).dropWhile isJsSpace = jsTrim s := by
    cases hb : jsTrim s with
    | nil => rfl
    | cons c rest =>
      have hc := jsTrim_head_not s c rest hb
      exact List.dropWhile_cons_of_neg (by simp [hc])
  conv_lhs => rw [jsTrim_eq_rdropWhile, hd, jsTrim_eq_rdropWhile]
  rw [List.rdropWhile_idempotent]
  rfl

theorem jsTrim_eq_self (s : JsString)
    (hhead : ∀ c rest, s = c :: rest → isJsSpace c = false)
    (hlast : ∀ init c, s = init ++ [c] → isJsSpace c = false) : jsTrim s = s := by
  have hd : s.dropWhile isJsSpace = s := by
    cases s with
    | nil => rfl
    | cons c rest =>
      exact List.dropWhile_cons_of_neg (by simp [hhead c rest rfl])
  rw [jsTrim_eq_rdropWhile, hd]
  rcases List.eq_nil_or_concat s with rfl | ⟨init, c, hs⟩
  · rfl
  · rw [List.concat_eq_append] at hs
    rw [hs]
    exact List.rdropWhile_concat_neg _ _ _ (by simp [hlast init c hs])

theorem validateContract_trim (k : Option JsString) (t : Option JsString) :
    validateContract k (some (jsTrim (orEmpty t))) = validateContract k t := by
  unfold validateContract
  simp only [orEmpty, jsTrim_idempotent]

/-! ## Chart links: proofs -/

theorem includes_iff_within (x s : JsString) : includes x s = true ↔ x <:+: s := by
  induction s with
  | nil =>
    simp only [includes, List.isPrefixOf_iff_prefix, List.prefix_nil, List.infix_nil]
  | cons c cs ih =>
    simp only [includes, Bool.or_eq_true, List.isPrefixOf_iff_prefix, ih, List.infix_cons_iff]

theorem chartFragments_ne_nil : ∀ x ∈ chartFragments, x ≠ [] := by decide

theorem looksChart_iff (u : JsString) :
    looksChart (some u) = true ↔ ∃ x ∈ chartFragments, x <:+: toLowerCase u := by
  cases u with
  | nil =>
    constructor
    · intro h
      exact absurd h (by decide)
    · rintro ⟨x, hx, hinf⟩
      have hnil : toLowerCase [] = [] := rfl
      rw [hnil, List.infix_nil] at hinf
      exact absurd hinf (chartFragments_ne_nil x hx)
  | cons c cs =>
    simp only [looksChart, truthyStr, if_true, orEmpty, List.any_eq_true, includes_iff_within]

theorem lowerUnit_sameUnit (a b : Nat) (h : sameUnitUpToCase a b = true) :
    lowerUnit a = lowerUnit b := by
  simp only [sameUnitUpToCase, Bool.or_eq_true, Bool.and_eq_true, beq_iff_eq,
    decide_eq_true_eq] at h
  rcases h with (h | ⟨⟨h1, h2⟩, h3⟩) | ⟨⟨h1, h2⟩, h3⟩
  · rw [h]
  · subst h3
    have hn1 : ¬ (65 ≤ a + 32 ∧ a + 32 ≤ 90) := by omega
    have hn2 : ¬ (a + 32 = 8490) := by omega
    have hn3 : ¬ (a + 32 = 304) := by omega
    unfold lowerUnit
    rw [if_pos ⟨h1, h2⟩, if_neg hn1, if_neg hn2, if_neg hn3]
  · subst h3
    have hn1 : ¬ (65 ≤ b + 32 ∧ b + 32 ≤ 90) := by omega
    have hn2 : ¬ (b + 32 = 8490) := by omega
    have hn3 : ¬ (b + 32 = 304) := by omega
    unfold lowerUnit
    rw [if_neg hn1, if_neg hn2, if_neg hn3, if_pos ⟨h1, h2⟩]

theorem toLowerCase_sameUpToCase (u v : JsString) (h : sameUpToCase u v = true) :
    toLowerCase u = toLowerCase v ∧ truthyStr (some u) = truthyStr (some v) := by
  induction u generalizing v with
  | nil =>
    cases v with
    | nil => exact ⟨rfl, rfl⟩
    | cons b bs => simp [sameUpToCase] at h
  | cons a as ih =>
    cases v with
    | nil => simp [sameUpToCase] at h
    | cons b bs =>
      simp only [sameUpToCase, Bool.and_eq_true] at h
      refine ⟨?_, rfl⟩
      simp only [toLowerCase, List.flatMap_cons] at ih ⊢
      rw [lowerUnit_sameUnit a b h.1, (ih bs h.2).1]

theorem looksChart_of_lower_eq (u v : JsString) (h1 : toLowerCase u = toLowerCase v)
    (h2 : truthyStr (some u) = truthyStr (some v)) : looksChart (some u) = looksChart (some v) := by
  unfold looksChart
  simp only [orEmpty, h1, h2]

/-! ## Action links: proofs -/

theorem socialBtnsFrom_length (k : Nat) (l : List JVal) : (socialBtnsFrom k l).length = l.length := by
  induction l generalizing k with
  | nil => rfl
  | cons x xs ih => simp [socialBtnsFrom, ih]

theorem socialBtnsFrom_get (k : Nat) (urls : List JsString) (i : Nat) :
    (socialBtnsFrom k (urls.map JVal.str))[i]? =
      (urls[i]?).map (fun u => { text := js "Social " ++ numberText (k + i + 1), url := .str u }) := by
  induction urls generalizing k i with
  | nil => simp [socialBtnsFrom]
  | cons u us ih =>
    cases i with
    | zero => simp [socialBtnsFrom]
    | succ j =>
      simp only [List.map_cons, socialBtnsFrom, List.getElem?_cons_succ]
      rw [ih (k + 1) j]
      have : k + 1 + j + 1 = k + (j + 1) + 1 := by omega
      rw [this]

theorem digitChar_toNat (d : Nat) (h : d < 10) : (Nat.digitChar d).toNat = 48 + d := by
  interval_cases d <;> rfl

theorem decimalValue_append (a : JsString) (c : Nat) :
    decimalValue (a ++ [c]) = 10 * decimalValue a + (c - 48) := by
  simp [decimalValue, List.foldl_append]

theorem toDigitsCore_numeral (fuel n : Nat) (ds : List Char) (h : n < fuel) :
    ∃ d, (Nat.toDigitsCore 10 fuel n ds).map Char.toNat = d ++ ds.map Char.toNat ∧
      IsDecimalNumeral d n := by
  induction fuel generalizing n ds with
  | zero => omega
  | succ fuel ih =>
    have hm : n % 10 < 10 := Nat.mod_lt _ (by decide)
    unfold Nat.toDigitsCore
    by_cases h0 : n / 10 = 0
    · simp only [h0, if_true]
      have hn : n < 10 := by omega
      have hmod : n % 10 = n := Nat.mod_eq_of_lt hn
      refine ⟨[48 + n], by simp [hmod, digitChar_toNat n hn], by simp, ?_, ?_, ?_⟩
      · intro c hc
        rw [List.mem_singleton] at hc
        omega
      · intro hh
        simp only [List.head?_cons, Option.some.injEq] at hh
        have : n = 0 := by omega
        rw [this]
      · simp [decimalValue]
    · simp only [h0, if_false]
      obtain ⟨d, hd, hne, hdig, hhead, hval⟩ :=
        ih (n / 10) (Nat.digitChar (n % 10) :: ds) (by omega)
      refine ⟨d ++ [48 + n % 10], ?_, by simp, ?_, ?_, ?_⟩
      · rw [hd]
        simp [digitChar_toNat _ hm]
      · intro c hc
        rw [List.mem_append, List.mem_singleton] at hc
        rcases hc with hc | hc
        · exact hdig c hc
        · omega
      · intro hh
        exfalso
        cases d with
        | nil => exact hne rfl
        | cons a as =>
          simp only [List.cons_append, List.head?_cons, Option.some.injEq] at hh
          have h1 := hhead (by simp [hh])
          rw [h1] at hval
          simp [decimalValue] at hval
          omega
      · rw [decimalValue_append, hval]
        omega

/-- The template literal writes a number as its decimal numeral. -/
theorem numberText_numeral (n : Nat) : IsDecimalNumeral (numberText n) n := by
  obtain ⟨d, hd, hnum⟩ := toDigitsCore_numeral (n + 1) n [] (by omega)
  have : numberText n = d := by
    unfold numberText Nat.toDigits
    simpa using hd
  rw [this]
  exact hnum


theorem decimalValue_zero (d : JsString) (hdig : ∀ c ∈ d, 48 ≤ c ∧ c ≤ 57)
    (hval : decimalValue d = 0) : ∀ c ∈ d, c = 48 := by
  induction d using List.reverseRecOn with
  | nil => intro c hc; cases hc
  | append_singleton l a ih =>
    rw [decimalValue_append] at hval
    have ha := hdig a (by simp)
    intro c hc
    rw [List.mem_append, List.mem_singleton] at hc
    rcases hc with hc | hc
    · exact ih (fun x hx => hdig x (List.mem_append_left _ hx)) (by omega) c hc
    · omega

/-- A number has one decimal numeral only. -/
theorem decimalNumeral_unique (d e : JsString) (n : Nat) (hd : IsDecimalNumeral d n)
    (he : IsDecimalNumeral e n) : d = e := by
  induction d using List.reverseRecOn generalizing e n with
  | nil => exact absurd rfl hd.1
  | append_singleton l a ih =>
    obtain ⟨_, hdig, hhead, hval⟩ := hd
    obtain ⟨hne, hdig2, hhead2, hval2⟩ := he
    rcases List.eq_nil_or_concat e with h | ⟨m, b, rfl⟩
    · exact absurd h hne
    · simp only [List.concat_eq_append] at *
      rw [decimalValue_append] at hval hval2
      have ha := hdig a (by simp)
      have hb := hdig2 b (by simp)
      have hab : a = b := by omega
      have hlm : decimalValue l = decimalValue m := by omega
      subst hab
      have key : ∀ (x : JsString), (∀ c ∈ x ++ [a], 48 ≤ c ∧ c ≤ 57) →
          ((x ++ [a]).head? = some 48 → x ++ [a] = [48]) → x ≠ [] →
          IsDecimalNumeral x (decimalValue x) := by
        intro x hx hh hxne
        refine ⟨hxne, fun c hc => hx c (List.mem_append_left _ hc), ?_, rfl⟩
        intro h48
        exfalso
        cases x with
        | nil => exact hxne rfl
        | cons p ps =>
          have := hh (by simpa using h48)
          simp at this
      have zero : ∀ (x : JsString), (∀ c ∈ x ++ [a], 48 ≤ c ∧ c ≤ 57) →
          ((x ++ [a]).head? = some 48 → x ++ [a] = [48]) → decimalValue x = 0 → x = [] := by
        intro x hx hh hv
        cases x with
        | nil => rfl
        | cons p ps =>
          exfalso
          have hp := decimalValue_zero (p :: ps) (fun c hc => hx c (List.mem_append_left _ hc))
            hv p (by simp)
          have := hh (by simp [hp])
          simp at this
      by_cases hl : l = []
      · subst hl
        have : m = [] := zero m hdig2 hhead2 (by rw [← hlm]; rfl)
        rw [this]
      · by_cases hm : m = []
        · subst hm
          exact absurd (zero l hdig hhead (by rw [hlm]; rfl)) hl
        · have h1 := key l hdig hhead hl
          have h2 := key m hdig2 hhead2 hm
          rw [← hlm] at h2
          rw [ih m (decimalValue l) h1 h2]

/-- C17: for a submission whose stored socials parse to a list of `n` URLs,
the announcement has, after the chart row that is there exactly when the
chart link is non-empty and that holds the one chart button pointing at it,
one row of exactly `n` social buttons when `n` is not 0: button `i` (from 0)
is labelled `Social ` followed by the decimal numeral of `i+1` and points at
URL `i` in stored order. The announcement has `n` buttons and one more with a
chart link, and no row is empty. -/
theorem fmtSubmissionHTML_inline (env : Env) (s : SubmissionView) (urls : List JsString)
    (h : env.jsonParse (if truthyStr s.socials then orEmpty s.socials else js "[]") =
      some (.arr (urls.map JVal.str))) :
    ∃ p btns, fmtSubmissionHTML env s = some p ∧
      p.inline =
        (if truthyStr s.chart_url = true
          then [[Button.mk (js "📈 Chart") (.str (orEmpty s.chart_url))]] else []) ++
        (if urls.length = 0 then [] else [btns]) ∧
      btns.length = urls.length ∧
      (∀ i u, urls[i]? = some u → ∃ d, IsDecimalNumeral d (i + 1) ∧
        btns[i]? = some (Button.mk (js "Social " ++ d) (.str u))) ∧
      (p.inline.map List.length).sum =
        urls.length + (if truthyStr s.chart_url = true then 1 else 0) ∧
      (∀ row ∈ p.inline, row ≠ []) := by
  have hfmt : fmtSubmissionHTML env s = some
      { text := joinWith (js "\n")
          ([js "🔥 <b>Token Promotion</b> — <i>" ++ escapeHtml s.chain ++ js "</i>",
            js "📄 <b>Contract:</b> <code>" ++ escapeHtml s.contract ++ js "</code>",
            aboutLine s.description,
            (if truthyStr s.chart_url
              then js "📈 <a href=\"" ++ escapeHtml s.chart_url ++ js "\">Open Chart</a>" else []),
            js "\n<b>Disclaimer:</b> DYOR. Bukan nasihat finansial. Admin " ++
              escapeHtml (some env.POST_CHANNEL) ++ js " tidak bertanggung jawab."].filter
            (fun l => l != []))
        inline := ((if truthyStr s.chart_url
            then [[Button.mk (js "📈 Chart") (.str (orEmpty s.chart_url))]] else []) ++
          [socialBtnsFrom 0 (urls.map JVal.str)]).filter (fun r => r.length != 0) } := by
    unfold fmtSubmissionHTML
    rw [h]
  have hlen := socialBtnsFrom_length 0 (urls.map JVal.str)
  rw [List.length_map] at hlen
  have hinline : ((if truthyStr s.chart_url
            then [[Button.mk (js "📈 Chart") (.str (orEmpty s.chart_url))]] else []) ++
          [socialBtnsFrom 0 (urls.map JVal.str)]).filter (fun r => r.length != 0) =
        (if truthyStr s.chart_url = true
          then [[Button.mk (js "📈 Chart") (.str (orEmpty s.chart_url))]] else []) ++
        (if urls.length = 0 then [] else [socialBtnsFrom 0 (urls.map JVal.str)]) := by
    by_cases hc : truthyStr s.chart_url = true
    · by_cases hn : urls.length = 0
      · simp [hc, hn, hlen]
      · simp [hc, hn, hlen]
    · by_cases hn : urls.length = 0
      · simp [hc, hn, hlen]
      · simp [hc, hn, hlen]
  refine ⟨_, socialBtnsFrom 0 (urls.map JVal.str), hfmt, hinline, hlen, ?_, ?_, ?_⟩
  · intro i u hu
    refine ⟨numberText (i + 1), numberText_numeral (i + 1), ?_⟩
    rw [socialBtnsFrom_get 0 urls i, hu]
    simp
  · show (List.map List.length (List.filter _ _)).sum = _
    rw [hinline]
    by_cases hc : truthyStr s.chart_url = true
    · by_cases hn : urls.length = 0
      · simp [hc, hn]
      · simp [hc, hn, hlen]; omega
    · by_cases hn : urls.length = 0
      · simp [hc, hn]
      · simp [hc, hn, hlen]
  · intro row hrow
    simp only [List.mem_filter, bne_iff_ne, ne_eq] at hrow
    intro hnil
    rw [hnil] at hrow
    exact hrow.2 rfl

/-- Witness for C17: the sample submission, two social links and a chart
link, gives the chart row and then the row of the buttons `Social 1` and
`Social 2`. -/
theorem fmtSubmissionHTML_inline_witness :
    (fmtSubmissionHTML sampleEnv sampleRow.view).map Payload.inline =
      some [[Button.mk (js "📈 Chart") (.str (js "https://dexscreener.com/ethereum/0x1111"))],
            [Button.mk (js "Social 1") (.str (js "https://t.me/test")),
             Button.mk (js "Social 2") (.str (js "https://x.com/test"))]] := by
  obtain ⟨p, btns, hp, hin, hlen, hb, _, _⟩ := fmtSubmissionHTML_inline sampleEnv sampleRow.view
    [js "https://t.me/test", js "https://x.com/test"] rfl
  obtain ⟨d0, hd0, h0⟩ := hb 0 _ rfl
  obtain ⟨d1, hd1, h1⟩ := hb 1 _ rfl
  have e0 : d0 = js "1" := decimalNumeral_unique _ _ _ hd0 (by decide)
  have e1 : d1 = js "2" := decimalNumeral_unique _ _ _ hd1 (by decide)
  subst e0 e1
  have hbtns : btns = [Button.mk (js "Social 1") (.str (js "https://t.me/test")),
      Button.mk (js "Social 2") (.str (js "https://x.com/test"))] := by
    match btns, hlen, h0, h1 with
    | [a, b], _, h0, h1 =>
      simp only [List.getElem?_cons_zero, List.getElem?_cons_succ, Option.some.injEq] at h0 h1
      rw [h0, h1]
      rfl
  rw [hp, Option.map_some', hin, hbtns]
  rfl

/-! ## HTML escaping: proofs -/

theorem replaceUnit_flatMap (c : Nat) (rep : JsString) (f : Nat → JsString) (l : JsString) :
    replaceUnit c rep (l.flatMap f) = l.flatMap (fun d => replaceUnit c rep (f d)) := by
  induction l with
  | nil => rfl
  | cons x xs ih =>
    rw [List.flatMap_cons, List.flatMap_cons, replaceUnit_append, ih]

theorem escapeUnit_eq (d : Nat) :
    replaceUnit 62 (js "&gt;") (replaceUnit 60 (js "&lt;")
      (if d = 38 then js "&amp;" else [d])) = escapeUnit d := by
  unfold escapeUnit
  by_cases h1 : d = 38
  · subst h1
    decide
  · by_cases h2 : d = 60
    · subst h2
      decide
    · by_cases h3 : d = 62
      · subst h3
        decide
      · simp [replaceUnit, h1, h2, h3]

theorem escapeHtml_eq_flatMap (s : JsString) : escapeHtml (some s) = s.flatMap escapeUnit := by
  unfold escapeHtml
  have h0 : replaceUnit 38 (js "&amp;") (orEmpty (some s)) =
      s.flatMap (fun d => if d = 38 then js "&amp;" else [d]) := rfl
  rw [h0, replaceUnit_flatMap, replaceUnit_flatMap]
  congr 1
  funext d
  exact escapeUnit_eq d

theorem js_amp : js "&amp;" = [38, 97, 109, 112, 59] := by decide
theorem js_lt : js "&lt;" = [38, 108, 116, 59] := by decide
theorem js_gt : js "&gt;" = [38, 103, 116, 59] := by decide

theorem escapeUnit_cases (d : Nat) :
    (d = 38 ∧ escapeUnit d = [38, 97, 109, 112, 59]) ∨
    (d = 60 ∧ escapeUnit d = [38, 108, 116, 59]) ∨
    (d = 62 ∧ escapeUnit d = [38, 103, 116, 59]) ∨
    (d ≠ 38 ∧ d ≠ 60 ∧ d ≠ 62 ∧ escapeUnit d = [d]) := by
  unfold escapeUnit
  rw [js_amp, js_lt, js_gt]
  by_cases h1 : d = 38
  · exact Or.inl ⟨h1, by simp [h1]⟩
  · by_cases h2 : d = 60
    · exact Or.inr (Or.inl ⟨h2, by simp [h2]⟩)
    · by_cases h3 : d = 62
      · exact Or.inr (Or.inr (Or.inl ⟨h3, by simp [h3]⟩))
      · exact Or.inr (Or.inr (Or.inr ⟨h1, h2, h3, by simp [h1, h2, h3]⟩))

theorem escaped_no_angle (s : JsString) :
    60 ∉ s.flatMap escapeUnit ∧ 62 ∉ s.flatMap escapeUnit := by
  constructor <;>
  · intro hmem
    rw [List.mem_flatMap] at hmem
    obtain ⟨d, _, hd⟩ := hmem
    rcases escapeUnit_cases d with ⟨_, h⟩ | ⟨_, h⟩ | ⟨_, h⟩ | ⟨_, h60, h62, h⟩
    all_goals rw [h] at hd
    all_goals simp at hd
    all_goals omega

theorem ampersandsEscaped_flatMap (s : JsString) :
    ampersandsEscaped (s.flatMap escapeUnit) = true := by
  have hamp : js "amp;" = [97, 109, 112, 59] := by decide
  have hlt : js "lt;" = [108, 116, 59] := by decide
  have hgt : js "gt;" = [103, 116, 59] := by decide
  induction s with
  | nil => rfl
  | cons d ds ih =>
    rw [List.flatMap_cons]
    rcases escapeUnit_cases d with ⟨_, h⟩ | ⟨_, h⟩ | ⟨_, h⟩ | ⟨h38, _, _, h⟩
    all_goals rw [h]
    · simp [ampersandsEscaped, continuesEntity, hamp, hlt, hgt, List.isPrefixOf, ih]
    · simp [ampersandsEscaped, continuesEntity, hamp, hlt, hgt, List.isPrefixOf, ih]
    · simp [ampersandsEscaped, continuesEntity, hamp, hlt, hgt, List.isPrefixOf, ih]
    · simp [ampersandsEscaped, h38, ih]

theorem ampersandsEscaped_split (l pre post : JsString) (h : ampersandsEscaped l = true)
    (hl : l = pre ++ 38 :: post) : continuesEntity post = true := by
  induction pre generalizing l with
  | nil =>
    subst hl
    have h2 : continuesEntity post = true ∧ ampersandsEscaped post = true := by
      simpa [ampersandsEscaped] using h
    exact h2.1
  | cons p ps ih =>
    subst hl
    simp only [List.cons_append, ampersandsEscaped, Bool.and_eq_true] at h
    exact ih _ h.2 rfl

theorem unescapeHtml_plain (d : Nat) (rest : JsString) (h : d ≠ 38) :
    unescapeHtml (d :: rest) = d :: unescapeHtml rest := by
  rw [unescapeHtml]
  all_goals (intro _ h1; exact absurd h1 h)

theorem unescapeHtml_flatMap (s : JsString) : unescapeHtml (s.flatMap escapeUnit) = s := by
  induction s with
  | nil => rfl
  | cons d ds ih =>
    rw [List.flatMap_cons]
    rcases escapeUnit_cases d with ⟨hd, h⟩ | ⟨hd, h⟩ | ⟨hd, h⟩ | ⟨h38, _, _, h⟩
    · rw [h, hd]
      show unescapeHtml (38 :: 97 :: 109 :: 112 :: 59 :: ds.flatMap escapeUnit) = _
      rw [unescapeHtml, ih]
    · rw [h, hd]
      show unescapeHtml (38 :: 108 :: 116 :: 59 :: ds.flatMap escapeUnit) = _
      rw [unescapeHtml, ih]
    · rw [h, hd]
      show unescapeHtml (38 :: 103 :: 116 :: 59 :: ds.flatMap escapeUnit) = _
      rw [unescapeHtml, ih]
    · rw [h]
      show unescapeHtml (d :: ds.flatMap escapeUnit) = _
      rw [unescapeHtml_plain d _ h38, ih]

theorem flatMap_escapeUnit_plain (s : JsString) (h : 38 ∉ s ∧ 60 ∉ s ∧ 62 ∉ s) :
    s.flatMap escapeUnit = s := by
  induction s with
  | nil => rfl
  | cons d ds ih =>
    simp only [List.mem_cons, not_or] at h
    rw [List.flatMap_cons, ih ⟨h.1.2, h.2.1.2, h.2.2.2⟩]
    have h1 : ¬ d = 38 := fun e => h.1.1 e.symm
    have h2 : ¬ d = 60 := fun e => h.2.1.1 e.symm
    have h3 : ¬ d = 62 := fun e => h.2.2.1 e.symm
    simp [escapeUnit, h1, h2, h3]

/-- C18: for every string `s`, `escapeHtml(s)` contains no `<` and no `>`;
every `&` in it is followed by `amp;`, `lt;` or `gt;`, so it starts one of
the three entities; replacing the three entities back from left to right
recovers `s`; a string without `&`, `<`, `>` is returned as it is; and
null/undefined gives the empty string. -/
theorem escapeHtml_neutralises (s : JsString) :
    60 ∉ escapeHtml (some s) ∧ 62 ∉ escapeHtml (some s) ∧
    (∀ pre post, escapeHtml (some s) = pre ++ 38 :: post →
      (js "amp;") <+: post ∨ (js "lt;") <+: post ∨ (js "gt;") <+: post) ∧
    unescapeHtml (escapeHtml (some s)) = s ∧
    ((38 ∉ s ∧ 60 ∉ s ∧ 62 ∉ s) → escapeHtml (some s) = s) ∧
    escapeHtml none = [] := by
  rw [escapeHtml_eq_flatMap]
  refine ⟨(escaped_no_angle s).1, (escaped_no_angle s).2, ?_, unescapeHtml_flatMap s,
    flatMap_escapeUnit_plain s, rfl⟩
  intro pre post hsplit
  have h := ampersandsEscaped_split _ pre post (ampersandsEscaped_flatMap s) hsplit
  simp only [continuesEntity, Bool.or_eq_true, List.isPrefixOf_iff_prefix] at h
  rcases h with (h | h) | h
  · exact Or.inl h
  · exact Or.inr (Or.inl h)
  · exact Or.inr (Or.inr h)

/-- Witness for C18: a text with markup and with an entity of its own, and a
plain text. -/
theorem escapeHtml_neutralises_witness :
    escapeHtml (some (js "<b>R&D</b> &lt;")) = js "&lt;b&gt;R&amp;D&lt;/b&gt; &amp;lt;" ∧
    unescapeHtml (js "&lt;b&gt;R&amp;D&lt;/b&gt; &amp;lt;") = js "<b>R&D</b> &lt;" ∧
    escapeHtml (some (js "Test token")) = js "Test token" :=
  ⟨by decide, by decide,
   (escapeHtml_neutralises (js "Test token")).2.2.2.2.1 (by decide)⟩

/-! ## Trimming and the tests of the text handler: proofs -/

theorem keptOf_nil : keptOf [] = [] := by decide

theorem splitWsAux_ne_nil (b : Bool) (s : JsString) : splitWsAux b s ≠ [] := by
  induction s generalizing b with
  | nil => simp [splitWsAux]
  | cons c rest ih =>
    unfold splitWsAux
    split
    · split
      · exact ih true
      · exact List.cons_ne_nil _ _
    · split
      · exact List.cons_ne_nil _ _
      · exact List.cons_ne_nil _ _

theorem kept_splitWsAux_space (b : Bool) (c : Nat) (s : JsString) (hc : isJsSpace c = true) :
    (splitWsAux b (c :: s)).flatMap keptOf = (splitWsAux true s).flatMap keptOf := by
  cases b with
  | true => simp [splitWsAux, hc]
  | false => simp [splitWsAux, hc, keptOf_nil]

theorem kept_splitWsAux_flag (s : JsString) :
    (splitWsAux true s).flatMap keptOf = (splitWsAux false s).flatMap keptOf := by
  cases s with
  | nil => rfl
  | cons c rest =>
    by_cases hc : isJsSpace c = true
    · rw [kept_splitWsAux_space true c rest hc, kept_splitWsAux_space false c rest hc]
    · have hc2 : isJsSpace c = false := by simpa using hc
      simp [splitWsAux, hc2]

theorem kept_dropWhile (s : JsString) :
    (splitWsAux false (s.dropWhile isJsSpace)).flatMap keptOf =
      (splitWsAux false s).flatMap keptOf := by
  induction s with
  | nil => rfl
  | cons c rest ih =>
    by_cases hc : isJsSpace c = true
    · rw [List.dropWhile_cons_of_pos hc, ih, kept_splitWsAux_space false c rest hc,
        kept_splitWsAux_flag]
    · rw [List.dropWhile_cons_of_neg hc]

theorem splitWsAux_concat_space (b : Bool) (s : JsString) (c : Nat) (hc : isJsSpace c = true) :
    splitWsAux b (s ++ [c]) = splitWsAux b s ∨
    splitWsAux b (s ++ [c]) = splitWsAux b s ++ [[]] := by
  induction s generalizing b with
  | nil =>
    cases b with
    | true => left; simp [splitWsAux, hc]
    | false => right; simp [splitWsAux, hc]
  | cons d rest ih =>
    by_cases hd : isJsSpace d = true
    · cases b with
      | true =>
        simp only [List.cons_append, splitWsAux, hd, if_true, List.append_eq]
        exact ih true
      | false =>
        simp only [List.cons_append, splitWsAux, hd, if_true, Bool.false_eq_true, if_false,
          List.append_eq]
        rcases ih true with h | h
        · left; rw [h]
        · right; rw [h]
    · have hd2 : isJsSpace d = false := by simpa using hd
      simp only [List.cons_append, splitWsAux, hd2, Bool.false_eq_true, if_false, List.append_eq]
      cases hz : splitWsAux false rest with
      | nil => exact absurd hz (splitWsAux_ne_nil false rest)
      | cons t ts =>
        rcases ih false with h | h
        · left; rw [h, hz]
        · right; rw [h, hz]; rfl

theorem kept_concat_space (s : JsString) (c : Nat) (hc : isJsSpace c = true) :
    (splitWsAux false (s ++ [c])).flatMap keptOf = (splitWsAux false s).flatMap keptOf := by
  rcases splitWsAux_concat_space false s c hc with h | h
  · rw [h]
  · rw [h, List.flatMap_append]
    simp [keptOf_nil]

theorem kept_rdropWhile (s : JsString) :
    (splitWsAux false (s.rdropWhile isJsSpace)).flatMap keptOf =
      (splitWsAux false s).flatMap keptOf := by
  induction s using List.reverseRecOn with
  | nil => rfl
  | append_singleton l x ih =>
    by_cases hx : isJsSpace x = true
    · rw [List.rdropWhile_concat_pos _ _ _ hx, ih, kept_concat_space l x hx]
    · rw [List.rdropWhile_concat_neg _ _ _ hx]

theorem parseSocials_trim (t : Option JsString) :
    parseSocials (some (jsTrim (orEmpty t))) = parseSocials t := by
  have hk : keptLinks (some (jsTrim (orEmpty t))) = keptLinks t := by
    show (splitWsAux false (jsTrim (orEmpty t))).flatMap keptOf =
      (splitWsAux false (orEmpty t)).flatMap keptOf
    rw [jsTrim_eq_rdropWhile, kept_rdropWhile, kept_dropWhile]
  unfold parseSocials
  rw [hk]

theorem lowerUnit_space (c : Nat) (hc : isJsSpace c = true) : lowerUnit c = [c] := by
  have h : c = 9 ∨ c = 10 ∨ c = 11 ∨ c = 12 ∨ c = 13 ∨ c = 32 ∨ c = 160 ∨ c = 5760 ∨
      (8192 ≤ c ∧ c ≤ 8202) ∨ c = 8232 ∨ c = 8233 ∨ c = 8239 ∨ c = 8287 ∨ c = 12288 ∨
      c = 65279 := by
    simpa [isJsSpace, or_assoc] using hc
  have h1 : ¬ (65 ≤ c ∧ c ≤ 90) := by omega
  have h2 : ¬ (c = 8490) := by omega
  have h3 : ¬ (c = 304) := by omega
  unfold lowerUnit
  rw [if_neg h1, if_neg h2, if_neg h3]

theorem infix_of_cons_space (x l : JsString) (a : Nat) (ha : isJsSpace a = true)
    (hx : ∀ e ∈ x, isJsSpace e = false) (h : x <:+: a :: l) : x <:+: l := by
  rcases List.infix_cons_iff.mp h with hpre | hinf
  · cases x with
    | nil => exact List.nil_infix
    | cons e es =>
      have he : e = a := by
        obtain ⟨t, ht⟩ := hpre
        simp only [List.cons_append, List.cons.injEq] at ht
        exact ht.1
      have := hx e (List.mem_cons_self _ _)
      rw [he, ha] at this
      cases this
  · exact hinf

theorem infix_of_concat_space (x l : JsString) (a : Nat) (ha : isJsSpace a = true)
    (hx : ∀ e ∈ x, isJsSpace e = false) (h : x <:+: l ++ [a]) : x <:+: l := by
  have h2 : x.reverse <:+: a :: l.reverse := by
    have := List.reverse_infix.mpr h
    simpa using this
  have h3 := infix_of_cons_space x.reverse l.reverse a ha
    (fun e he => hx e (List.mem_reverse.mp he)) h2
  exact List.reverse_infix.mp h3

theorem infix_lower_dropWhile (x s : JsString) (hx : ∀ e ∈ x, isJsSpace e = false)
    (h : x <:+: toLowerCase s) : x <:+: toLowerCase (s.dropWhile isJsSpace) := by
  induction s with
  | nil => exact h
  | cons c rest ih =>
    by_cases hc : isJsSpace c = true
    · rw [List.dropWhile_cons_of_pos hc]
      apply ih
      have hl : toLowerCase (c :: rest) = c :: toLowerCase rest := by
        simp [toLowerCase, lowerUnit_space c hc]
      rw [hl] at h
      exact infix_of_cons_space x _ c hc hx h
    · rw [List.dropWhile_cons_of_neg hc]
      exact h

theorem infix_lower_rdropWhile (x s : JsString) (hx : ∀ e ∈ x, isJsSpace e = false)
    (h : x <:+: toLowerCase s) : x <:+: toLowerCase (s.rdropWhile isJsSpace) := by
  induction s using List.reverseRecOn with
  | nil => exact h
  | append_singleton l c ih =>
    by_cases hc : isJsSpace c = true
    · rw [List.rdropWhile_concat_pos _ _ _ hc]
      apply ih
      have hl : toLowerCase (l ++ [c]) = toLowerCase l ++ [c] := by
        simp [toLowerCase, lowerUnit_space c hc]
      rw [hl] at h
      exact infix_of_concat_space x _ c hc hx h
    · rw [List.rdropWhile_concat_neg _ _ _ hc]
      exact h

theorem toLowerCase_within (a b : JsString) (h : a <:+: b) : toLowerCase a <:+: toLowerCase b := by
  obtain ⟨p, q, hpq⟩ := h
  refine ⟨toLowerCase p, toLowerCase q, ?_⟩
  rw [← hpq]
  simp [toLowerCase]

theorem jsTrim_within (s : JsString) : jsTrim s <:+: s := by
  rw [jsTrim_eq_rdropWhile]
  have h1 := List.IsPrefix.isInfix ( List.rdropWhile_prefix isJsSpace (s.dropWhile isJsSpace))
  have h2 := List.IsSuffix.isInfix ( List.dropWhile_suffix isJsSpace (l := s))
  exact List.IsInfix.trans h1 h2

theorem chartFragments_no_space : ∀ x ∈ chartFragments, ∀ e ∈ x, isJsSpace e = false := by
  decide

theorem looksChart_trim (t : Option JsString) :
    looksChart (some (jsTrim (orEmpty t))) = looksChart t := by
  cases t with
  | none => rfl
  | some u =>
    have hiff : looksChart (some (jsTrim u)) = true ↔ looksChart (some u) = true := by
      rw [looksChart_iff, looksChart_iff]
      constructor
      · rintro ⟨x, hx, hinf⟩
        exact ⟨x, hx, List.IsInfix.trans hinf (toLowerCase_within _ _ (jsTrim_within u))⟩
      · rintro ⟨x, hx, hinf⟩
        refine ⟨x, hx, ?_⟩
        rw [jsTrim_eq_rdropWhile]
        exact infix_lower_rdropWhile x _ (chartFragments_no_space x hx)
          (infix_lower_dropWhile x u (chartFragments_no_space x hx) hinf)
    show looksChart (some (jsTrim u)) = looksChart (some u)
    cases h1 : looksChart (some (jsTrim u)) <;> cases h2 : looksChart (some u)
    · rfl
    · exact absurd (hiff.mpr h2) (by rw [h1]; decide)
    · exact absurd (hiff.mp h1) (by rw [h2]; decide)
    · rfl

/-! ## Text messages: the state table -/

/-- C12, as stated, fails: in the contract step a text with a space in front
of a valid address is accepted, and the draft contract is set to the trimmed
text, not to the text. -/
theorem text_is_stored_trimmed :
    (onText (some paddedAddress) contractSession).session =
      { step := some Steps.DESC,
        form := some { chain := some (js "Ethereum"), chainKey := some (js "ETH"),
                       contract := some sampleAddress } } ∧
    sampleAddress ≠ paddedAddress := by
  decide

/-- C12, amended: a text message in a session with a draft does the
following. In step `CONTRACT`: if `validateContract` rejects the text for the
chain key of the draft the session is unchanged, otherwise the draft contract
is set to the text trimmed of leading and trailing white space and the step
becomes `DESC`. In step `SOCIALS`: if `parseSocials(text)` is empty the
session is unchanged, otherwise the draft socials are set to
`parseSocials(text)` and the step becomes `CHART`. In step `CHART`: if
`looksChart(text)` is false the session is unchanged, otherwise the draft
chart link is set to the trimmed text and the step becomes `REVIEW`. No other
draft field changes. In steps `NONE`, `CHAIN` and `REVIEW`, and for a session
without a draft, the session is unchanged. -/
theorem text_transitions (message : Option JsString) (sess : Session) :
    (∀ f, sess.form = some f → sess.step = some Steps.CONTRACT →
      (onText message sess).session =
        if validateContract f.chainKey message = true then
          { step := some Steps.DESC,
            form := some { f with contract := some (jsTrim (orEmpty message)) } }
        else sess) ∧
    (∀ f, sess.form = some f → sess.step = some Steps.SOCIALS →
      (onText message sess).session =
        if parseSocials message = [] then sess
        else { step := some Steps.CHART,
               form := some { f with socials := some (parseSocials message) } }) ∧
    (∀ f, sess.form = some f → sess.step = some Steps.CHART →
      (onText message sess).session =
        if looksChart message = true then
          { step := some Steps.REVIEW,
            form := some { f with chart_url := some (jsTrim (orEmpty message)) } }
        else sess) ∧
    ((sess.step = none ∨ sess.step = some Steps.NONE ∨ sess.step = some Steps.CHAIN ∨
        sess.step = some Steps.REVIEW) → (onText message sess).session = sess) ∧
    (sess.form = none → (onText message sess).session = sess) := by
  refine ⟨?_, ?_, ?_, onText_idle message sess, onText_no_form message sess⟩
  · intro f hf hs
    rw [onText_contract message sess f hs hf, validateContract_trim]
  · intro f hf hs
    rw [onText_socials message sess f hs hf, parseSocials_trim]
  · intro f hf hs
    rw [onText_chart message sess f hs hf, looksChart_trim]

/-- Witness for C12: the padded address in the contract step, and a text in
the review step. -/
theorem text_transitions_witness :
    (onText (some paddedAddress) contractSession).session =
      (if validateContract (some (js "ETH")) (some paddedAddress) = true then
        { step := some Steps.DESC,
          form := some { chain := some (js "Ethereum"), chainKey := some (js "ETH"),
                         contract := some (jsTrim paddedAddress) } }
      else contractSession) ∧
    (onText (some (js "hello")) reviewSession).session = reviewSession :=
  ⟨(text_transitions (some paddedAddress) contractSession).1
      { chain := some (js "Ethereum"), chainKey := some (js "ETH") } rfl rfl,
   (text_transitions (some (js "hello")) reviewSession).2.2.2.1
      (Or.inr (Or.inr (Or.inr (by decide))))⟩

/-- C13, as stated, fails: in the description step a text of 11 characters
that starts with a space is not stored unmodified; the stored description is
the trimmed text. -/
theorem description_is_stored_trimmed :
    (js " Test token").length = 11 ∧
    (onText (some (js " Test token")) descSession).session =
      { step := some Steps.SOCIALS,
        form := some { chain := some (js "Ethereum"), chainKey := some (js "ETH"),
                       contract := some sampleAddress,
                       description := some (js "Test token") } } ∧
    js "Test token" ≠ js " Test token" := by
  decide

/-- C13, amended: for every text message received in the description step of
a session with a draft, the stored description is the first 500 characters of
the text trimmed of leading and trailing white space: it has length at most
500; a trimmed text of 500 characters or fewer is stored whole, a trimmed text
of 501 or more characters is stored as exactly its first 500 characters; the
step becomes `SOCIALS` and no other draft field changes. A text that neither
starts nor ends with white space is its own trimmed text. -/
theorem description_capped_at_intake (message : Option JsString) (sess : Session) (f : Form)
    (hs : sess.step = some Steps.DESC) (hf : sess.form = some f) :
    (onText message sess).session =
      { step := some Steps.SOCIALS,
        form := some { f with
          description := some ((jsTrim (orEmpty message)).take 500) } } ∧
    ((jsTrim (orEmpty message)).take 500).length ≤ 500 ∧
    ((jsTrim (orEmpty message)).length ≤ 500 →
      (jsTrim (orEmpty message)).take 500 = jsTrim (orEmpty message)) ∧
    (501 ≤ (jsTrim (orEmpty message)).length →
      ((jsTrim (orEmpty message)).take 500).length = 500) ∧
    ((∀ c rest, orEmpty message = c :: rest → isJsSpace c = false) →
      (∀ init c, orEmpty message = init ++ [c] → isJsSpace c = false) →
      jsTrim (orEmpty message) = orEmpty message) := by
  refine ⟨onText_desc message sess f hs hf, List.length_take_le _ _, ?_, ?_, ?_⟩
  · intro h
    exact List.take_of_length_le h
  · intro h
    rw [List.length_take]
    omega
  · intro h1 h2
    exact jsTrim_eq_self _ h1 h2

/-- Witness for C13: the description of the end-to-end scenario. -/
theorem description_capped_at_intake_witness :
    (onText (some (js "Test token")) descSession).session =
      { step := some Steps.SOCIALS,
        form := some { chain := some (js "Ethereum"), chainKey := some (js "ETH"),
                       contract := some sampleAddress,
                       description := some ((jsTrim (js "Test token")).take 500) } } :=
  (description_capped_at_intake (some (js "Test token")) descSession
    { chain := some (js "Ethereum"), chainKey := some (js "ETH"), contract := some sampleAddress }
    rfl rfl).1

/-! ## Chart links: the fragments and the case of letters -/

theorem chartFragments_eq : chartFragments =
    [js "dexscreener.com", js "dextools.io", js "birdeye.so", js "geckoterminal", js "poocoin"] :=
  rfl

theorem chartFragments_lower : ∀ x ∈ chartFragments, toLowerCase x = x := by decide

theorem lowerUnit_plain (c : Nat) (h1 : c ≠ 8490) (h2 : c ≠ 304) :
    lowerUnit c = [if 65 ≤ c ∧ c ≤ 90 then c + 32 else c] := by
  unfold lowerUnit
  rw [if_neg h1, if_neg h2]
  split <;> rfl

theorem toLowerCase_plain (u : JsString) (h : ∀ c ∈ u, c ≠ 8490 ∧ c ≠ 304) :
    toLowerCase u = u.map (fun c => if 65 ≤ c ∧ c ≤ 90 then c + 32 else c) := by
  induction u with
  | nil => rfl
  | cons a as ih =>
    have ha := h a (List.mem_cons_self _ _)
    have := ih (fun c hc => h c (List.mem_cons_of_mem _ hc))
    simp only [toLowerCase, List.flatMap_cons, List.map_cons] at this ⊢
    rw [lowerUnit_plain a ha.1 ha.2, this]
    rfl

theorem sameUpToCase_of_map_lower (w x : JsString)
    (h : w.map (fun c => if 65 ≤ c ∧ c ≤ 90 then c + 32 else c) = x) :
    sameUpToCase w x = true := by
  induction w generalizing x with
  | nil => subst h; rfl
  | cons a as ih =>
    subst h
    simp only [List.map_cons, sameUpToCase, Bool.and_eq_true]
    refine ⟨?_, ih _ rfl⟩
    simp only [sameUnitUpToCase, Bool.or_eq_true, Bool.and_eq_true, beq_iff_eq,
      decide_eq_true_eq]
    by_cases hu : 65 ≤ a ∧ a ≤ 90
    · rw [if_pos hu]
      exact Or.inl (Or.inr ⟨hu, rfl⟩)
    · rw [if_neg hu]
      exact Or.inl (Or.inl rfl)

theorem within_map (f : Nat → Nat) (x u : JsString) (h : x <:+: u.map f) :
    ∃ pre w post, u = pre ++ w ++ post ∧ w.map f = x := by
  obtain ⟨s, t, hst⟩ := h
  obtain ⟨l1, post, hu, h1, h2⟩ := List.map_eq_append_iff.mp hst.symm
  obtain ⟨pre, w, hl1, h3, h4⟩ := List.map_eq_append_iff.mp h1
  exact ⟨pre, w, post, by rw [hu, hl1], h4⟩

/-- C16, as stated, fails: `poocoın`, written with the dotless i U+0131, is
rejected, and the same word in upper case, `POOCOIN`, is accepted (the upper
case of the dotless i is `I`, and the lower case of `I` is `i`). -/
theorem looksChart_changes_with_case_of_dotless_i :
    (js "poocoın").map upperUnit = js "POOCOIN" ∧
    looksChart (some (js "poocoın")) = false ∧
    looksChart (some (js "POOCOIN")) = true := by
  decide

/-- C16, amended: `looksChart(url)` is true exactly when the lower-cased url
contains one of the five fragments `dexscreener.com`, `dextools.io`,
`birdeye.so`, `geckoterminal`, `poocoin` as a substring; it is false for the
empty string and for null/undefined; and two inputs that differ only in the
case of their letters `A`-`Z`/`a`-`z` get the same result. In terms of the
input itself: a url that contains one of the fragments, written in any case
of its letters `A`-`Z`/`a`-`z`, is accepted, and a url without the units
U+212A and U+0130 is accepted only then. -/
theorem looksChart_spec :
    (∀ u, looksChart (some u) = true ↔
      ∃ x ∈ [js "dexscreener.com", js "dextools.io", js "birdeye.so", js "geckoterminal",
              js "poocoin"], x <:+: toLowerCase u) ∧
    looksChart (some []) = false ∧ looksChart none = false ∧
    (∀ u v, sameUpToCase u v = true → looksChart (some u) = looksChart (some v)) ∧
    (∀ u pre w post, u = pre ++ w ++ post →
      (∃ x ∈ [js "dexscreener.com", js "dextools.io", js "birdeye.so", js "geckoterminal",
               js "poocoin"], sameUpToCase w x = true) →
      looksChart (some u) = true) ∧
    (∀ u, (∀ c ∈ u, c ≠ 8490 ∧ c ≠ 304) → looksChart (some u) = true →
      ∃ x ∈ [js "dexscreener.com", js "dextools.io", js "birdeye.so", js "geckoterminal",
              js "poocoin"], ∃ pre w post, u = pre ++ w ++ post ∧ sameUpToCase w x = true) := by
  refine ⟨?_, rfl, rfl, ?_, ?_, ?_⟩
  · intro u
    rw [looksChart_iff, chartFragments_eq]
  · intro u v h
    have := toLowerCase_sameUpToCase u v h
    exact looksChart_of_lower_eq u v this.1 this.2
  · rintro u pre w post hu ⟨x, hx, hw⟩
    rw [← chartFragments_eq] at hx
    rw [looksChart_iff]
    refine ⟨x, hx, ?_⟩
    have h1 : toLowerCase w = x := by
      rw [(toLowerCase_sameUpToCase w x hw).1]
      exact chartFragments_lower x hx
    rw [← h1]
    apply toLowerCase_within
    rw [hu]
    exact ⟨pre, post, rfl⟩
  · intro u hu h
    rw [looksChart_iff] at h
    obtain ⟨x, hx, hinf⟩ := h
    rw [toLowerCase_plain u hu] at hinf
    obtain ⟨pre, w, post, huw, hw⟩ := within_map _ x u hinf
    rw [chartFragments_eq] at hx
    exact ⟨x, hx, pre, w, post, huw, sameUpToCase_of_map_lower w x hw⟩

/-- Witness for C16: a chart link in mixed case and in lower case, one link
for each fragment, and a link of another site. -/
theorem looksChart_spec_witness :
    looksChart (some (js "https://DexScreener.COM/ethereum/0x1")) =
      looksChart (some (js "https://dexscreener.com/ethereum/0x1")) ∧
    looksChart (some (js "https://dexscreener.com/ethereum/0x1")) = true ∧
    looksChart (some (js "https://www.DEXTOOLS.io/app")) = true ∧
    looksChart (some (js "https://birdeye.so/token/x")) = true ∧
    looksChart (some (js "https://www.geckoterminal.com/eth")) = true ∧
    looksChart (some (js "https://poocoin.app/tokens/x")) = true ∧
    looksChart (some (js "https://example.com/chart")) = false :=
  ⟨looksChart_spec.2.2.2.1 _ _ (by decide),
   looksChart_spec.2.2.2.2.1 _ (js "https://") (js "dexscreener.com") (js "/ethereum/0x1") (by decide)
     ⟨_, List.mem_cons_self _ _, by decide⟩,
   looksChart_spec.2.2.2.2.1 _ (js "https://www.") (js "DEXTOOLS.io") (js "/app") (by decide)
     ⟨js "dextools.io", by decide, by decide⟩,
   looksChart_spec.2.2.2.2.1 _ (js "https://") (js "birdeye.so") (js "/token/x") (by decide)
     ⟨js "birdeye.so", by decide, by decide⟩,
   looksChart_spec.2.2.2.2.1 _ (js "https://www.") (js "geckoterminal") (js ".com/eth") (by decide)
     ⟨js "geckoterminal", by decide, by decide⟩,
   looksChart_spec.2.2.2.2.1 _ (js "https://") (js "poocoin") (js ".app/tokens/x") (by decide)
     ⟨js "poocoin", by decide, by decide⟩,
   by decide⟩

end TokenVestors
